import Mathlib

/-!
# go-env: filling a configuration struct from the environment, files and defaults

A shallow embedding of `env.go` and of the `errs` package, followed by theorems
about the priority resolver (`prioUnmarshal`), the type coercer (`setVal`), the
struct walker (`parseStruct`), the file reader and key flattener (`parseCfgFiles`,
`flattenMap`), the environment parser (`environToMap`) and the entry point
`UnmarshalMap`.

Conventions of the embedding

* A Go `map[K]V` is an association list without repeated keys (`GoMap`).  Its
  meaning is its lookup function; the order of the list is not observable
  except through `range`, and every `range` whose order can matter takes the
  visiting order as an explicit argument.
* The struct pointed to by the target is a `Store`: a function from field
  addresses (the path of field indices from the root struct) to values.  A
  `reflect.Value` of a field is the pair of its address and its kind.
* In `setVal`, `prioUnmarshal` and `UnmarshalMap` fields are taken to be exported
  (settable through reflection), as in the repository's tests.  `setValOn`,
  `prioUnmarshalOn` and `UnmarshalMapOn` drop this convention: they take
  `reflect.Value.CanSet` of every field as an argument and panic where the
  setters of `reflect` do.  The theorems that say of every target struct that
  a call returns are stated for them.
* What the Go standard library decides and the source only calls
  (`strconv.ParseFloat`, `fmt.Sprintf("%g", _)`, `strconv.Quote`, `os.ReadFile`,
  `json.Unmarshal`, type names) is a field of `Host`.  `strconv.ParseBool`,
  `strconv.ParseInt(_, 10, 64)` and `strings.SplitN(_, "=", 2)` are small enough
  to be written out.
-/

namespace GoEnv

/-! ## Go maps -/

/-- A Go map as an association list; `set` keeps keys unique. -/
abbrev GoMap (κ β : Type) := List (κ × β)

/-- The lookup `v, ok := m[k]`. -/
def GoMap.get? {κ β : Type} [DecidableEq κ] : GoMap κ β → κ → Option β
  | [], _ => none
  | (k', v) :: rest, k => if k' = k then some v else GoMap.get? rest k

/-- The assignment `m[k] = v`. -/
def GoMap.set {κ β : Type} [DecidableEq κ] : GoMap κ β → κ → β → GoMap κ β
  | [], k, v => [(k, v)]
  | (k', v') :: rest, k, v =>
    if k' = k then (k, v) :: rest else (k', v') :: GoMap.set rest k v

/-! ## Host language: kinds, types, values -/

/-- The enumeration `reflect.Kind`. -/
inductive Kind
  | Invalid | Bool | Int | Int8 | Int16 | Int32 | Int64
  | Uint | Uint8 | Uint16 | Uint32 | Uint64 | Uintptr
  | Float32 | Float64 | Complex64 | Complex128
  | Array | Chan | Func | Interface | Map | Ptr | Slice | String | Struct | UnsafePointer
  deriving DecidableEq, Repr

/-- What `tags.ParseTag(f, TagName)` yields for a struct field: the declared key
names and the map of `option=value` pairs. -/
structure Tag where
  Keys : List String
  Options : GoMap String String
  deriving DecidableEq, Repr

mutual
/-- Go types, as far as `reflect` distinguishes them here.  Element types of
containers other than pointers are never inspected by the source and are left out. -/
inductive Typ
  | Bool | Int | Int8 | Int16 | Int32 | Int64 | Float32 | Float64 | String
  | Uint | Uint8 | Uint16 | Uint32 | Uint64 | Uintptr | Complex64 | Complex128
  | Array | Chan | Func | Interface | Map | Slice | UnsafePointer
  | Ptr (elem : Typ)
  | Struct (fields : Fields)
/-- The fields of a struct type in declaration order, each with its parsed tag. -/
inductive Fields
  | nil
  | cons (tag : Tag) (typ : Typ) (rest : Fields)
end

/-- The method `reflect.Type.Kind`. -/
def Typ.Kind : Typ → Kind
  | .Bool => .Bool | .Int => .Int | .Int8 => .Int8 | .Int16 => .Int16 | .Int32 => .Int32
  | .Int64 => .Int64 | .Float32 => .Float32 | .Float64 => .Float64 | .String => .String
  | .Uint => .Uint | .Uint8 => .Uint8 | .Uint16 => .Uint16 | .Uint32 => .Uint32
  | .Uint64 => .Uint64 | .Uintptr => .Uintptr | .Complex64 => .Complex64
  | .Complex128 => .Complex128 | .Array => .Array | .Chan => .Chan | .Func => .Func
  | .Interface => .Interface | .Map => .Map | .Slice => .Slice
  | .UnsafePointer => .UnsafePointer | .Ptr _ => .Ptr | .Struct _ => .Struct

/-- A float64, identified by its IEEE-754 bit pattern. -/
structure Float64 where
  bits : Nat
  deriving DecidableEq, Repr

/-- The content of a scalar field. -/
inductive GoVal
  | bool (b : Bool)
  | int (i : Int)
  | float (f : Float64)
  | string (s : String)
  deriving DecidableEq, Repr

/-- The memory of the target struct: field address to content. -/
abbrev Store := List Nat → GoVal

/-- Assignment to one field. -/
def Store.set (σ : Store) (addr : List Nat) (x : GoVal) : Store :=
  fun a => if a = addr then x else σ a

/-- A `reflect.Value` of a struct field: where it is stored and the kind of its type. -/
structure Value where
  addr : List Nat
  kind : Kind
  deriving DecidableEq, Repr

mutual
/-- Dynamic values held by an `interface{}` inside a `map[string]interface{}`. -/
inductive Iface
  | nil
  | bool (b : Bool)
  | int64 (i : Int)
  | float64 (f : Float64)
  | string (s : String)
  | slice
  | map (m : IfaceMap)
  | other
/-- A `map[string]interface{}`, listed in the order a `range` visits it. -/
inductive IfaceMap
  | nil
  | cons (k : String) (v : Iface) (rest : IfaceMap)
end

/-! ## Errors (package `errs`, `github.com/pkg/errors`, `strconv`) -/

/-- The two sentinel errors of `strconv`. -/
inductive StrconvErr
  | ErrSyntax
  | ErrRange
  deriving DecidableEq, Repr

/-- Error values that can travel through the package. -/
inductive Err
  | NumError (Func : String) (Num : String) (Err : StrconvErr)
  | HostError (msg : String)
  | RequiredKeyNotPresentError (Keys : List String)
  | TargetNotPtrToStructError (ActualType : Typ)
  | UnsupportedFieldTypeError (ActualType : Kind)
  | Wrap (cause : Err) (message : String)

/-- The constructor `errs.NewRequiredKeyNotPresentError(keys...)`. -/
def NewRequiredKeyNotPresentError (keys : List String) : Err :=
  .RequiredKeyNotPresentError keys

/-- The constructor `errs.NewTargetNotPtrToStructError(t)`. -/
def NewTargetNotPtrToStructError (t : Typ) : Err :=
  .TargetNotPtrToStructError t

/-- The constructor `errs.NewUnsupportedFieldTypeError(t)`. -/
def NewUnsupportedFieldTypeError (t : Kind) : Err :=
  .UnsupportedFieldTypeError t

/-- The function `errors.Cause`: strip every wrapping layer. -/
def Cause : Err → Err
  | .Wrap cause _ => Cause cause
  | e => e

/-- The predicate `errs.IsRequiredKeyNotPresentError`; `none` is the nil error. -/
def IsRequiredKeyNotPresentError : Option Err → Bool
  | none => false
  | some err =>
    match Cause err with
    | .RequiredKeyNotPresentError _ => true
    | _ => false

/-- The predicate `errs.IsTargetNotPtrToStructError`. -/
def IsTargetNotPtrToStructError : Option Err → Bool
  | none => false
  | some err =>
    match Cause err with
    | .TargetNotPtrToStructError _ => true
    | _ => false

/-- The predicate `errs.IsUnsupportedFieldTypeError`. -/
def IsUnsupportedFieldTypeError : Option Err → Bool
  | none => false
  | some err =>
    match Cause err with
    | .UnsupportedFieldTypeError _ => true
    | _ => false

/-- The parts of the Go runtime and standard library the package calls. -/
structure Host where
  /-- The call `strconv.ParseFloat(s, 64)`. -/
  ParseFloat : String → Except StrconvErr Float64
  /-- The conversion `float64(float32(f))` done by `SetFloat` on a float32 field. -/
  toFloat32 : Float64 → Float64
  /-- The call `fmt.Sprintf("%g", f)`. -/
  FormatG : Float64 → String
  /-- The call `strconv.Quote(s)`. -/
  Quote : String → String
  /-- The method `reflect.Type.Name`. -/
  TypeName : Typ → String
  /-- The name of the type of a field of the given kind. -/
  KindName : Kind → String
  /-- The call `os.ReadFile(path)`: the bytes of the file or the error message. -/
  ReadFile : String → Except String (List Nat)
  /-- The call `json.Unmarshal(bytes, &m)` for `m : map[string]interface{}`. -/
  jsonUnmarshal : List Nat → Except String IfaceMap

/-- The method `Error()` of `errs.RequiredKeyNotPresentError`. -/
def RequiredKeyNotPresentError.Error (Keys : List String) : String :=
  match Keys with
  | [k] => "required env key missing; " ++ k ++ " must be provided"
  | _ =>
    "required env key missing; one of the following keys must be provided ["
      ++ ", ".intercalate Keys ++ "]"

/-- The message of an error value. -/
def Err.Error (host : Host) : Err → String
  | .NumError f n .ErrSyntax => "strconv." ++ f ++ ": parsing " ++ host.Quote n ++ ": invalid syntax"
  | .NumError f n .ErrRange =>
    "strconv." ++ f ++ ": parsing " ++ host.Quote n ++ ": value out of range"
  | .HostError msg => msg
  | .RequiredKeyNotPresentError keys => RequiredKeyNotPresentError.Error keys
  | .TargetNotPtrToStructError t =>
    "Target passed must be a reference to a struct type, not a " ++ host.TypeName t
  | .UnsupportedFieldTypeError k =>
    "all fields must be a string, int, float, bool or struct, not a " ++ host.KindName k
  | .Wrap cause message => message ++ ": " ++ Err.Error host cause

/-! ## strconv -/

namespace strconv

/-- The platform word size `strconv.IntSize` (64-bit platforms). -/
def IntSize : Nat := 64

/-- The function `strconv.ParseBool`. -/
def ParseBool (str : String) : Except Err Bool :=
  if str = "1" ∨ str = "t" ∨ str = "T" ∨ str = "true" ∨ str = "TRUE" ∨ str = "True" then
    .ok true
  else if str = "0" ∨ str = "f" ∨ str = "F" ∨ str = "false" ∨ str = "FALSE"
      ∨ str = "False" then
    .ok false
  else
    .error (.NumError "ParseBool" str .ErrSyntax)

/-- The digit loop of `strconv.ParseUint(s, 10, 64)`: every byte must be a decimal digit,
and the error is `ErrRange` as soon as the accumulated value leaves the uint64 range. -/
def parseUintLoop : List Char → Nat → Except StrconvErr Nat
  | [], n => .ok n
  | c :: cs, n =>
    if '0'.toNat ≤ c.toNat ∧ c.toNat ≤ '9'.toNat then
      if n ≥ (2 ^ 64 - 1) / 10 + 1 then .error .ErrRange
      else
        let n1 := n * 10 + (c.toNat - '0'.toNat)
        if n1 > 2 ^ 64 - 1 then .error .ErrRange else parseUintLoop cs n1
    else .error .ErrSyntax

/-- The function `strconv.ParseUint(s, 10, 64)`. -/
def ParseUint (s : List Char) : Except StrconvErr Nat :=
  match s with
  | [] => .error .ErrSyntax
  | _ => parseUintLoop s 0

/-- The function `strconv.ParseInt(s, 10, 64)`. -/
def ParseInt (s : String) : Except Err Int :=
  match s.toList with
  | [] => .error (.NumError "ParseInt" s .ErrSyntax)
  | c :: cs =>
    let neg := decide (c = '-')
    let digits := if c = '+' ∨ c = '-' then cs else c :: cs
    match ParseUint digits with
    | .error .ErrSyntax => .error (.NumError "ParseInt" s .ErrSyntax)
    | .error .ErrRange => .error (.NumError "ParseInt" s .ErrRange)
    | .ok un =>
      if !neg && un ≥ 2 ^ 63 then .error (.NumError "ParseInt" s .ErrRange)
      else if neg && un > 2 ^ 63 then .error (.NumError "ParseInt" s .ErrRange)
      else .ok (if neg then -(un : Int) else (un : Int))

/-- The function `strconv.FormatBool`. -/
def FormatBool (b : Bool) : String := if b then "true" else "false"

/-- The function `strconv.FormatInt(i, 10)`. -/
def FormatInt (i : Int) : String :=
  if i < 0 then "-" ++ Nat.repr i.natAbs else Nat.repr i.toNat

end strconv

/-! ## strings -/

namespace strings

/-- The text before and the text after the first `=` of a string, if it has one. -/
def cutEq : List Char → Option (List Char × List Char)
  | [] => none
  | c :: cs =>
    if c = '=' then some ([], cs)
    else
      match cutEq cs with
      | none => none
      | some (a, b) => some (c :: a, b)

/-- The call `strings.SplitN(s, "=", 2)`: the string itself when it has no `=`, else the
text before the first `=` and the text after it. -/
def SplitN (s : String) : List String :=
  match cutEq s.toList with
  | none => [s]
  | some (a, b) => [String.mk a, String.mk b]

end strings

/-! ## reflect setters -/

/-- The number of bits of an integer kind. -/
def Kind.bits : Kind → Nat
  | .Int8 => 8
  | .Int16 => 16
  | .Int32 => 32
  | .Int64 => 64
  | _ => strconv.IntSize

/-- The Go conversion of an int64 to the signed integer type of `w` bits: the low `w`
bits, read in two's complement. -/
def wrapInt (w : Nat) (x : Int) : Int :=
  (x + 2 ^ (w - 1)) % 2 ^ w - 2 ^ (w - 1)

/-- The method `reflect.Value.SetBool`. -/
def Value.SetBool (v : Value) (b : Bool) (σ : Store) : Store :=
  σ.set v.addr (.bool b)

/-- The method `reflect.Value.SetInt`: the value is converted to the field's own integer
type, which keeps the low bits only. -/
def Value.SetInt (v : Value) (x : Int) (σ : Store) : Store :=
  σ.set v.addr (.int (wrapInt v.kind.bits x))

/-- The method `reflect.Value.SetFloat`: a float32 field stores the value rounded to
float32. -/
def Value.SetFloat (host : Host) (v : Value) (x : Float64) (σ : Store) : Store :=
  σ.set v.addr (.float (if v.kind = .Float32 then host.toFloat32 x else x))

/-- The method `reflect.Value.SetString`. -/
def Value.SetString (v : Value) (x : String) (σ : Store) : Store :=
  σ.set v.addr (.string x)

/-! ## env.go -/

/-- The constant `tagOptionRequired`. -/
def tagOptionRequired : String := "required"

/-- The constant `tagOptionDefault`. -/
def tagOptionDefault : String := "default"

/-- The constant `envKeyConnector`. -/
def envKeyConnector : String := "_"

/-- The function `setVal`: parse `str` according to the kind of `v` and store it.
The result is the returned error (`none` for nil) and the memory afterwards. -/
def setVal (host : Host) (v : Value) (str : String) (σ : Store) : Option Err × Store :=
  match v.kind with
  | .Bool =>
    match strconv.ParseBool str with
    | .error err => (some (.Wrap err "casting value as bool"), σ)
    | .ok b => (none, v.SetBool b σ)
  | .Int | .Int8 | .Int16 | .Int32 | .Int64 =>
    match strconv.ParseInt str with
    | .error err => (some (.Wrap err "casting value as int"), σ)
    | .ok i => (none, v.SetInt i σ)
  | .Float32 | .Float64 =>
    match host.ParseFloat str with
    | .error err => (some (.Wrap (.NumError "ParseFloat" str err) "casting value as float"), σ)
    | .ok f => (none, v.SetFloat host f σ)
  | .String => (none, v.SetString str σ)
  | _ => (some (NewUnsupportedFieldTypeError v.kind), σ)

/-- The struct `envEntry`. -/
structure envEntry where
  Value : Value
  IsRequired : Bool
  Default : String
  deriving DecidableEq, Repr

/-- The kinds listed in the second `case` of the `switch` in `parseStruct`: the kinds for
which a field is registered. -/
def scalarKinds : List Kind :=
  [.String, .Int, .Int8, .Int16, .Int32, .Int64, .Float64, .Float32, .Bool]

/-- The loop of `parseStruct` over the fields from index `i` on, with the map built so
far.  `v` is the address of the struct value.  The `switch` on `f.Type.Kind()` has the
case `reflect.Struct`, the case of the nine scalar kinds, and no default.  The source
calls `parseStruct(fv, envKeyConnector)` afresh for every key of a struct-typed field;
the call reads nothing but the field's type and address, so its result `m` is bound once,
before the loop over the keys.  The inner `range m` inserts keys that are pairwise
different, so the order in which it visits `m` does not change the map. -/
def parseStructFrom (v : List Nat) (connector : String) :
    Nat → Fields → GoMap String envEntry → GoMap String envEntry
  | _, .nil, result => result
  | i, .cons tag typ rest, result =>
    let fv := v ++ [i]
    let isRequired := decide ((GoMap.get? tag.Options tagOptionRequired).getD "" = "true")
    let defaultVal := (GoMap.get? tag.Options tagOptionDefault).getD ""
    let m :=
      match typ with
      | .Struct inner => parseStructFrom fv envKeyConnector 0 inner []
      | _ => []
    let result := tag.Keys.foldl (fun result k =>
      if typ.Kind = .Struct then
        m.foldl (fun result kv => result.set (k ++ connector ++ kv.1) kv.2) result
      else if typ.Kind ∈ scalarKinds then
        result.set k ⟨⟨fv, typ.Kind⟩, isRequired, defaultVal⟩
      else result) result
    parseStructFrom v connector (i + 1) rest result

/-- The function `parseStruct` on the struct value at address `v` with the given fields. -/
def parseStruct (v : List Nat) (fields : Fields) (connector : String) : GoMap String envEntry :=
  parseStructFrom v connector 0 fields []

/-- The loop of `flattenMap` over the entries still to visit, with the map built so far. -/
def flattenMapFrom (host : Host) (connector : String) :
    IfaceMap → GoMap String String → GoMap String String
  | .nil, flatMap => flatMap
  | .cons k v rest, flatMap =>
    let flatMap :=
      match v with
      | .map m =>
        let flatSubmap := flattenMapFrom host connector m []
        flatSubmap.foldl (fun flatMap kv => flatMap.set (k ++ connector ++ kv.1) kv.2) flatMap
      | .slice => flatMap
      | .bool b => flatMap.set k (strconv.FormatBool b)
      | .int64 i => flatMap.set k (strconv.FormatInt i)
      | .float64 f => flatMap.set k (host.FormatG f)
      | .string s => flatMap.set k s
      | _ => flatMap
    flattenMapFrom host connector rest flatMap

/-- The function `flattenMap`. -/
def flattenMap (host : Host) (nestedMap : IfaceMap) (connector : String) : GoMap String String :=
  flattenMapFrom host connector nestedMap []

/-- The function `readCfgFile`. -/
def readCfgFile (host : Host) (path : String) : Except Err IfaceMap :=
  match host.ReadFile path with
  | .error err => .error (.Wrap (.HostError err) ("opening " ++ path))
  | .ok jsonBytes =>
    match host.jsonUnmarshal jsonBytes with
    | .error err => .error (.Wrap (.HostError err) ("unmarshalling json data from " ++ path))
    | .ok m => .ok m

/-- The function `parseCfgFile`. -/
def parseCfgFile (host : Host) (path : String) : Except Err (GoMap String String) :=
  match readCfgFile host path with
  | .error err => .error (.Wrap err "reading env config data from file")
  | .ok nestedMap => .ok (flattenMap host nestedMap envKeyConnector)

/-- The loop of `parseCfgFiles` over the paths still to read. -/
def parseCfgFilesFrom (host : Host) :
    List String → GoMap String String → Except Err (GoMap String String)
  | [], result => .ok result
  | path :: rest, result =>
    match parseCfgFile host path with
    | .error err => .error (.Wrap err ("parsing " ++ path))
    | .ok m => parseCfgFilesFrom host rest (m.foldl (fun result kv => result.set kv.1 kv.2) result)

/-- The function `parseCfgFiles`. -/
def parseCfgFiles (host : Host) (paths : List String) : Except Err (GoMap String String) :=
  parseCfgFilesFrom host paths []

/-- The first loop of `prioUnmarshal` over the entries still to visit.  The result is
the error that ended the loop (if any), the memory and `prioMap`. -/
def primaryPass (host : Host) (envMap cfgMap : GoMap String String) :
    List (String × envEntry) → Store → GoMap envEntry Bool →
      Option Err × Store × GoMap envEntry Bool
  | [], σ, prioMap => (none, σ, prioMap)
  | (k, entry) :: rest, σ, prioMap =>
    match envMap.get? k with
    | some envVal =>
      match setVal host entry.Value envVal σ with
      | (some err, σ1) => (some (.Wrap err ("setting value of env var " ++ k)), σ1, prioMap)
      | (none, σ1) => primaryPass host envMap cfgMap rest σ1 (prioMap.set entry true)
    | none =>
      match cfgMap.get? k with
      | some cfgVal =>
        if !((prioMap.get? entry).getD false) then
          match setVal host entry.Value cfgVal σ with
          | (some err, σ1) =>
            (some (.Wrap err ("setting value from config file of env var " ++ k)), σ1, prioMap)
          | (none, σ1) => primaryPass host envMap cfgMap rest σ1 (prioMap.set entry false)
        else primaryPass host envMap cfgMap rest σ prioMap
      | none => primaryPass host envMap cfgMap rest σ prioMap

/-- The second loop of `prioUnmarshal` over the entries still to visit. -/
def fallbackPass (host : Host) :
    List (String × envEntry) → Store → GoMap envEntry Bool →
      Option Err × Store × GoMap envEntry Bool
  | [], σ, prioMap => (none, σ, prioMap)
  | (k, entry) :: rest, σ, prioMap =>
    if (prioMap.get? entry).isSome then fallbackPass host rest σ prioMap
    else if entry.IsRequired then (some (NewRequiredKeyNotPresentError [k]), σ, prioMap)
    else if entry.Default = "" then fallbackPass host rest σ prioMap
    else
      match setVal host entry.Value entry.Default σ with
      | (some err, σ1) => (some (.Wrap err ("setting default value of env var " ++ k)), σ1, prioMap)
      | (none, σ1) => fallbackPass host rest σ1 (prioMap.set entry true)

/-- The function `prioUnmarshal`.  Go leaves the order of `range entryMap` open, and the
two loops need not agree: `order1` and `order2` are the sequences in which the first and
the second loop visit the entry map (each a permutation of its entries). -/
def prioUnmarshal (host : Host) (order1 order2 : List (String × envEntry))
    (envMap cfgMap : GoMap String String) (σ : Store) : Option Err × Store :=
  match primaryPass host envMap cfgMap order1 σ [] with
  | (some err, σ1, _) => (some err, σ1)
  | (none, σ1, prioMap) =>
    match fallbackPass host order2 σ1 prioMap with
    | (err, σ2, _) => (err, σ2)

/-- The argument `i interface{}` of the entry points: the nil interface, or a value of
type `t`; `isNil` tells whether that value is a nil pointer.  A non-nil pointer to a
struct points at the root (address `[]`) of the memory. -/
inductive Target
  | nil
  | value (t : Typ) (isNil : Bool)

/-- How a call ends: it returns an error value (`none` for nil) or panics. -/
inductive Outcome
  | returns (err : Option Err)
  | panics (msg : String)

/-- The function `UnmarshalMap`.  `range1` and `range2` give the order in which the two
loops of `prioUnmarshal` visit the entry map. -/
def UnmarshalMap (host : Host)
    (range1 range2 : GoMap String envEntry → List (String × envEntry))
    (envMap : GoMap String String) (i : Target) (paths : List String) (σ : Store) :
    Outcome × Store :=
  match i with
  | .nil => (.panics "reflect: call of reflect.Value.Type on zero Value", σ)
  | .value (.Ptr (.Struct fields)) false =>
    match parseCfgFiles host paths with
    | .error err => (.returns (some (.Wrap err "parsing cfg files")), σ)
    | .ok cfgMap =>
      let entryMap := parseStruct [] fields envKeyConnector
      match prioUnmarshal host (range1 entryMap) (range2 entryMap) envMap cfgMap σ with
      | (some err, σ1) => (.returns (some (.Wrap err "unmarshalling aggregated values")), σ1)
      | (none, σ1) => (.returns none, σ1)
  | .value t _ => (.returns (some (NewTargetNotPtrToStructError t)), σ)

/-- The function `environToMap`. -/
def environToMap (environ : List String) : GoMap String String :=
  environ.foldl (fun m v =>
    match strings.SplitN v with
    | p0 :: p1 :: _ => if p0 = "" then m else m.set p0 p1
    | _ => m) []

/-! ## env.go on a struct with unexported fields

The definitions above follow the convention that every bound field is settable.  The
definitions of this section drop it: `settable a` is `reflect.Value.CanSet` of the field
stored at address `a`, which is false for a value obtained through an unexported field.
`parseStruct` registers such a field like any other, and the setters of `reflect` panic
on it. -/

/-- The message of the panic of the setter `method` of `reflect.Value` on a value
obtained through an unexported field. -/
def setterPanic (method : String) : String :=
  "reflect: reflect.Value." ++ method ++ " using value obtained using unexported field"

/-- The function `setVal` on a field that need not be settable: the string is parsed
first, and the setter, which panics when the field is not settable, is called only when
the parse succeeds. -/
def setValOn (settable : List Nat → Bool) (host : Host) (v : Value) (str : String)
    (σ : Store) : Outcome × Store :=
  match v.kind with
  | .Bool =>
    match strconv.ParseBool str with
    | .error err => (.returns (some (.Wrap err "casting value as bool")), σ)
    | .ok b =>
      if settable v.addr then (.returns none, v.SetBool b σ)
      else (.panics (setterPanic "SetBool"), σ)
  | .Int | .Int8 | .Int16 | .Int32 | .Int64 =>
    match strconv.ParseInt str with
    | .error err => (.returns (some (.Wrap err "casting value as int")), σ)
    | .ok i =>
      if settable v.addr then (.returns none, v.SetInt i σ)
      else (.panics (setterPanic "SetInt"), σ)
  | .Float32 | .Float64 =>
    match host.ParseFloat str with
    | .error err =>
      (.returns (some (.Wrap (.NumError "ParseFloat" str err) "casting value as float")), σ)
    | .ok f =>
      if settable v.addr then (.returns none, v.SetFloat host f σ)
      else (.panics (setterPanic "SetFloat"), σ)
  | .String =>
    if settable v.addr then (.returns none, v.SetString str σ)
    else (.panics (setterPanic "SetString"), σ)
  | _ => (.returns (some (NewUnsupportedFieldTypeError v.kind)), σ)

/-- The first loop of `prioUnmarshal` on fields that need not be settable. -/
def primaryPassOn (settable : List Nat → Bool) (host : Host)
    (envMap cfgMap : GoMap String String) :
    List (String × envEntry) → Store → GoMap envEntry Bool →
      Outcome × Store × GoMap envEntry Bool
  | [], σ, prioMap => (.returns none, σ, prioMap)
  | (k, entry) :: rest, σ, prioMap =>
    match envMap.get? k with
    | some envVal =>
      match setValOn settable host entry.Value envVal σ with
      | (.panics msg, σ1) => (.panics msg, σ1, prioMap)
      | (.returns (some err), σ1) =>
        (.returns (some (.Wrap err ("setting value of env var " ++ k))), σ1, prioMap)
      | (.returns none, σ1) =>
        primaryPassOn settable host envMap cfgMap rest σ1 (prioMap.set entry true)
    | none =>
      match cfgMap.get? k with
      | some cfgVal =>
        if !((prioMap.get? entry).getD false) then
          match setValOn settable host entry.Value cfgVal σ with
          | (.panics msg, σ1) => (.panics msg, σ1, prioMap)
          | (.returns (some err), σ1) =>
            (.returns (some (.Wrap err ("setting value from config file of env var " ++ k))),
              σ1, prioMap)
          | (.returns none, σ1) =>
            primaryPassOn settable host envMap cfgMap rest σ1 (prioMap.set entry false)
        else primaryPassOn settable host envMap cfgMap rest σ prioMap
      | none => primaryPassOn settable host envMap cfgMap rest σ prioMap

/-- The second loop of `prioUnmarshal` on fields that need not be settable. -/
def fallbackPassOn (settable : List Nat → Bool) (host : Host) :
    List (String × envEntry) → Store → GoMap envEntry Bool →
      Outcome × Store × GoMap envEntry Bool
  | [], σ, prioMap => (.returns none, σ, prioMap)
  | (k, entry) :: rest, σ, prioMap =>
    if (prioMap.get? entry).isSome then fallbackPassOn settable host rest σ prioMap
    else if entry.IsRequired then
      (.returns (some (NewRequiredKeyNotPresentError [k])), σ, prioMap)
    else if entry.Default = "" then fallbackPassOn settable host rest σ prioMap
    else
      match setValOn settable host entry.Value entry.Default σ with
      | (.panics msg, σ1) => (.panics msg, σ1, prioMap)
      | (.returns (some err), σ1) =>
        (.returns (some (.Wrap err ("setting default value of env var " ++ k))), σ1, prioMap)
      | (.returns none, σ1) => fallbackPassOn settable host rest σ1 (prioMap.set entry true)

/-- The function `prioUnmarshal` on fields that need not be settable. -/
def prioUnmarshalOn (settable : List Nat → Bool) (host : Host)
    (order1 order2 : List (String × envEntry)) (envMap cfgMap : GoMap String String)
    (σ : Store) : Outcome × Store :=
  match primaryPassOn settable host envMap cfgMap order1 σ [] with
  | (.panics msg, σ1, _) => (.panics msg, σ1)
  | (.returns (some err), σ1, _) => (.returns (some err), σ1)
  | (.returns none, σ1, prioMap) =>
    match fallbackPassOn settable host order2 σ1 prioMap with
    | (out, σ2, _) => (out, σ2)

/-- The function `UnmarshalMap` on a target whose fields need not be settable. -/
def UnmarshalMapOn (settable : List Nat → Bool) (host : Host)
    (range1 range2 : GoMap String envEntry → List (String × envEntry))
    (envMap : GoMap String String) (i : Target) (paths : List String) (σ : Store) :
    Outcome × Store :=
  match i with
  | .nil => (.panics "reflect: call of reflect.Value.Type on zero Value", σ)
  | .value (.Ptr (.Struct fields)) false =>
    match parseCfgFiles host paths with
    | .error err => (.returns (some (.Wrap err "parsing cfg files")), σ)
    | .ok cfgMap =>
      let entryMap := parseStruct [] fields envKeyConnector
      match prioUnmarshalOn settable host (range1 entryMap) (range2 entryMap) envMap cfgMap
          σ with
      | (.panics msg, σ1) => (.panics msg, σ1)
      | (.returns (some err), σ1) =>
        (.returns (some (.Wrap err "unmarshalling aggregated values")), σ1)
      | (.returns none, σ1) => (.returns none, σ1)
  | .value t _ => (.returns (some (NewTargetNotPtrToStructError t)), σ)

/-! ## Notions used to state the properties -/

/-- The value `setVal` stores in a field of kind `k` for the raw string `str`, or `none`
when `setVal` returns an error. -/
def coerce (host : Host) (k : Kind) (str : String) : Option GoVal :=
  match setVal host ⟨[], k⟩ str (fun _ => .string "") with
  | (none, σ) => some (σ [])
  | (some _, _) => none

/-- The keys of a Go map. -/
def GoMap.keys {κ β : Type} (m : GoMap κ β) : List κ := m.map Prod.fst

/-- Distinct entries of an entry map refer to distinct fields. -/
def AddrInj (M : List (String × envEntry)) : Prop :=
  ∀ p ∈ M, ∀ q ∈ M, p.2.Value.addr = q.2.Value.addr → p.2 = q.2

/-- No other entry of `L` is stored where `e` is. -/
def Sep (e : envEntry) (L : List (String × envEntry)) : Prop :=
  ∀ p ∈ L, p.2 ≠ e → p.2.Value.addr ≠ e.Value.addr

/-- One iteration of the first loop of `prioUnmarshal` that does not return. -/
def PrimaryStep (host : Host) (envMap cfgMap : GoMap String String) (k : String) (e : envEntry)
    (σ : Store) (pm : GoMap envEntry Bool) (σ1 : Store) (pm1 : GoMap envEntry Bool) : Prop :=
  (∃ v x, envMap.get? k = some v ∧ coerce host e.Value.kind v = some x ∧
      σ1 = σ.set e.Value.addr x ∧ pm1 = pm.set e true) ∨
  (∃ v x, envMap.get? k = none ∧ cfgMap.get? k = some v ∧ pm.get? e ≠ some true ∧
      coerce host e.Value.kind v = some x ∧ σ1 = σ.set e.Value.addr x ∧ pm1 = pm.set e false) ∨
  (envMap.get? k = none ∧ (cfgMap.get? k = none ∨ pm.get? e = some true) ∧ σ1 = σ ∧ pm1 = pm)

/-- One iteration of the first loop of `prioUnmarshal` that returns an error. -/
def PrimaryFail (host : Host) (envMap cfgMap : GoMap String String) (k : String) (e : envEntry)
    (σ : Store) (pm : GoMap envEntry Bool) (err : Err) : Prop :=
  (∃ v err0, envMap.get? k = some v ∧ coerce host e.Value.kind v = none ∧
      setVal host e.Value v σ = (some err0, σ) ∧
      err = .Wrap err0 ("setting value of env var " ++ k)) ∨
  (∃ v err0, envMap.get? k = none ∧ cfgMap.get? k = some v ∧ pm.get? e ≠ some true ∧
      coerce host e.Value.kind v = none ∧ setVal host e.Value v σ = (some err0, σ) ∧
      err = .Wrap err0 ("setting value from config file of env var " ++ k))

/-- One iteration of the second loop of `prioUnmarshal` that does not return. -/
def FallbackStep (host : Host) (e : envEntry)
    (σ : Store) (pm : GoMap envEntry Bool) (σ1 : Store) (pm1 : GoMap envEntry Bool) : Prop :=
  (pm.get? e ≠ none ∧ σ1 = σ ∧ pm1 = pm) ∨
  (pm.get? e = none ∧ e.IsRequired = false ∧ e.Default = "" ∧ σ1 = σ ∧ pm1 = pm) ∨
  (∃ x, pm.get? e = none ∧ e.IsRequired = false ∧ e.Default ≠ "" ∧
      coerce host e.Value.kind e.Default = some x ∧ σ1 = σ.set e.Value.addr x ∧
      pm1 = pm.set e true)

/-- One iteration of the second loop of `prioUnmarshal` that returns an error. -/
def FallbackFail (host : Host) (k : String) (e : envEntry)
    (σ : Store) (pm : GoMap envEntry Bool) (err : Err) : Prop :=
  pm.get? e = none ∧
  ((e.IsRequired = true ∧ err = NewRequiredKeyNotPresentError [k]) ∨
   (∃ err0, e.IsRequired = false ∧ e.Default ≠ "" ∧
      coerce host e.Value.kind e.Default = none ∧
      setVal host e.Value e.Default σ = (some err0, σ) ∧
      err = .Wrap err0 ("setting default value of env var " ++ k)))

/-- The map `m` that `parseStruct` builds for a field of type `typ` stored at `fv`. -/
def subEntries (fv : List Nat) (typ : Typ) : GoMap String envEntry :=
  match typ with
  | .Struct inner => parseStructFrom fv envKeyConnector 0 inner []
  | _ => []

/-- The scalar field found at path `p` below a struct whose fields, from index `i` on, are
`fs`: its kind, its `required` flag and its default. -/
def Fields.leaf : Fields → Nat → List Nat → Option (Kind × Bool × String)
  | .nil, _, _ => none
  | .cons tag typ rest, i, p =>
    match p with
    | [] => none
    | j :: q =>
      let sub :=
        match typ with
        | .Struct inner => Fields.leaf inner 0 q
        | _ => none
      if j = i then
        if typ.Kind = .Struct then sub
        else if typ.Kind ∈ scalarKinds ∧ q = [] then
          some (typ.Kind, decide ((GoMap.get? tag.Options tagOptionRequired).getD "" = "true"),
            (GoMap.get? tag.Options tagOptionDefault).getD "")
        else none
      else Fields.leaf rest (i + 1) p

/-- An error whose cause is a parse error of `strconv`. -/
def IsCoercionError (err : Err) : Prop :=
  ∃ f n c, Cause err = .NumError f n c

/-- The integer kinds. -/
def intKinds : List Kind := [.Int, .Int8, .Int16, .Int32, .Int64]

/-- The key names joined with the connector, outermost name first. -/
def joinKeys : List String → String
  | [] => ""
  | [k] => k
  | k :: rest => k ++ envKeyConnector ++ joinKeys rest

/-- Modelled on the words of the specification (data model, "Flat Key Mapping"): the
scalar leaf fields of a struct, each with every choice of one declared key name per level
on the way from the root to the leaf, outermost name first.  `v` is the address of the
struct and `i` the index of its first field in `fs`. -/
def leafKeyPathsFrom (v : List Nat) : Nat → Fields → List (List String × envEntry)
  | _, .nil => []
  | i, .cons tag typ rest =>
    let below :=
      match typ with
      | .Struct inner => leafKeyPathsFrom (v ++ [i]) 0 inner
      | _ => []
    tag.Keys.flatMap (fun k =>
      if typ.Kind = .Struct then below.map (fun pe => (k :: pe.1, pe.2))
      else if typ.Kind ∈ scalarKinds then
        [([k], ⟨⟨v ++ [i], typ.Kind⟩,
          decide ((GoMap.get? tag.Options tagOptionRequired).getD "" = "true"),
          (GoMap.get? tag.Options tagOptionDefault).getD ""⟩)]
      else [])
    ++ leafKeyPathsFrom v (i + 1) rest

/-- The fully-qualified keys of the specification with the field each one stands for. -/
def qualifiedKeysFrom (v : List Nat) (i : Nat) (fs : Fields) : List (String × envEntry) :=
  (leafKeyPathsFrom v i fs).map (fun pe => (joinKeys pe.1, pe.2))

/-- The paths below a field of type `typ` stored at `fv`. -/
def subPaths (fv : List Nat) (typ : Typ) : List (List String × envEntry) :=
  match typ with
  | .Struct inner => leafKeyPathsFrom fv 0 inner
  | _ => []

/-- The qualified keys that one declared key `k` of a field contributes. -/
def keyShare (v : List Nat) (i : Nat) (tag : Tag) (typ : Typ) (k : String) :
    List (String × envEntry) :=
  if typ.Kind = .Struct then
    (match typ with
      | .Struct inner => qualifiedKeysFrom (v ++ [i]) 0 inner
      | _ => []).map (fun (kv : String × envEntry) => (k ++ envKeyConnector ++ kv.1, kv.2))
  else if typ.Kind ∈ scalarKinds then
    [(k, ⟨⟨v ++ [i], typ.Kind⟩,
      decide ((GoMap.get? tag.Options tagOptionRequired).getD "" = "true"),
      (GoMap.get? tag.Options tagOptionDefault).getD ""⟩)]
  else []

/-- Modelled on the words of the specification (Key Flattener, "integer → base-10 decimal
string"): the digits of the absolute value in base 10, most significant first, after a
`-` when the number is negative. -/
def decimal (i : Int) : String :=
  if i < 0 then "-" ++ String.mk (Nat.toDigits 10 i.natAbs)
  else String.mk (Nat.toDigits 10 i.natAbs)

/-- Modelled on the words of the specification (Key Flattener): the boolean, integer,
floating-point and string leaves reached through nested objects only, each with the list
of keys from the root to the leaf and its string form: `true` or `false` for a boolean,
the base-10 decimal string for an integer, the string itself for a string; for a
floating-point number the specification asks for the shortest decimal form that reads
back to the same number, which is the host's `%g`. -/
def leafPathsOf (host : Host) : IfaceMap → List (List String × String)
  | .nil => []
  | .cons k v rest =>
    (match v with
      | .map m => (leafPathsOf host m).map (fun ps => (k :: ps.1, ps.2))
      | .bool b => [([k], if b then "true" else "false")]
      | .int64 i => [([k], decimal i)]
      | .float64 f => [([k], host.FormatG f)]
      | .string s => [([k], s)]
      | _ => [])
    ++ leafPathsOf host rest

/-- The flat keys of the specification: the key paths joined with `_`. -/
def flatKeysOf (host : Host) (m : IfaceMap) : List (String × String) :=
  (leafPathsOf host m).map (fun ps => (joinKeys ps.1, ps.2))

/-- The part of a nested map's leaf paths that one entry `k: v` contributes. -/
def entryPaths (host : Host) (k : String) (v : Iface) : List (List String × String) :=
  match v with
  | .map m => (leafPathsOf host m).map (fun ps => (k :: ps.1, ps.2))
  | .bool b => [([k], if b then "true" else "false")]
  | .int64 i => [([k], decimal i)]
  | .float64 f => [([k], host.FormatG f)]
  | .string s => [([k], s)]
  | _ => []

/-- What one entry `k: v` of a nested map contributes to the flat keys. -/
def entryShare (host : Host) (k : String) (v : Iface) : List (String × String) :=
  match v with
  | .map m => (flatKeysOf host m).map (fun kv => (k ++ envKeyConnector ++ kv.1, kv.2))
  | .bool b => [(k, if b then "true" else "false")]
  | .int64 i => [(k, decimal i)]
  | .float64 f => [(k, host.FormatG f)]
  | .string s => [(k, s)]
  | _ => []

/-- One iteration of the loop of `flattenMap`, for the entry `k: v`. -/
def flattenStep (host : Host) (connector : String) (k : String) (v : Iface)
    (flatMap : GoMap String String) : GoMap String String :=
  match v with
  | .map m =>
    (flattenMapFrom host connector m []).foldl
      (fun flatMap kv => flatMap.set (k ++ connector ++ kv.1) kv.2) flatMap
  | .slice => flatMap
  | .bool b => flatMap.set k (strconv.FormatBool b)
  | .int64 i => flatMap.set k (strconv.FormatInt i)
  | .float64 f => flatMap.set k (host.FormatG f)
  | .string s => flatMap.set k s
  | _ => flatMap

/-- Modelled on the words of the specification (file priority, "later overwrites earlier on
key collision"): the value of key `k` in the last of the flattened files that contains
`k`, if any of them does. -/
def lastValue (files : List (GoMap String String)) (k : String) : Option String :=
  files.reverse.findSome? (fun m => GoMap.get? m k)

/-- The content that a call of `prioUnmarshal` which returns nil leaves in the field of the
entry `e` bound to `k`, when `k` is the only key of that field; `none` when the value that
the sources hold for `k` does not coerce. -/
def settledValue (host : Host) (envMap cfgMap : GoMap String String) (σ : Store)
    (k : String) (e : envEntry) : Option GoVal :=
  match envMap.get? k with
  | some v => coerce host e.Value.kind v
  | none =>
    match cfgMap.get? k with
    | some v => coerce host e.Value.kind v
    | none =>
      if e.Default = "" then some (σ e.Value.addr) else coerce host e.Value.kind e.Default

/-- The struct type with the annotation removed from every field whose kind is neither
struct nor one of the scalar kinds, at every depth. -/
def Fields.dropTags : Fields → Fields
  | .nil => .nil
  | .cons tag typ rest =>
    match typ with
    | .Struct inner => .cons tag (.Struct (Fields.dropTags inner)) (Fields.dropTags rest)
    | _ => .cons (if typ.Kind ∈ scalarKinds then tag else ⟨[], []⟩) typ (Fields.dropTags rest)

/-- The value that the entry `v` of the environment gives to the name `N`, if any. -/
def entryValue (v N : String) : Option String :=
  match strings.SplitN v with
  | p0 :: p1 :: _ => if p0 = "" then none else if p0 = N then some p1 else none
  | _ => none

/-- The value that the last entry for `N` in the list gives to `N`. -/
def lastEntryValue (environ : List String) (N : String) : Option String :=
  environ.reverse.findSome? (fun v => entryValue v N)

/-! ## Concrete inputs used by the examples -/

/-- A host with an empty file system.  Its float functions are stand-ins: the examples
below bind string and integer fields only and never reach them. -/
def Host.bare : Host where
  ParseFloat := fun _ => .error .ErrSyntax
  toFloat32 := fun f => f
  FormatG := fun _ => ""
  Quote := fun s => "\"" ++ s ++ "\""
  TypeName := fun _ => ""
  KindName := fun _ => ""
  ReadFile := fun _ => .error "no such file or directory"
  jsonUnmarshal := fun _ => .error "unexpected end of JSON input"

/-- The memory of a struct all of whose string fields are empty. -/
def emptyStrings : Store := fun _ => .string ""

/-- The memory of a struct all of whose integer fields are 0. -/
def zeroInts : Store := fun _ => .int 0

/-- The order of `range` that visits a map as it is listed. -/
def listed (m : GoMap String envEntry) : List (String × envEntry) := m

/-- The target `&T{}` for a struct type `T` with the given fields. -/
def ptrTo (fields : Fields) : Target := .value (.Ptr (.Struct fields)) false

/-- The struct `struct { A string "env:\"K,K2\"" }`: one field under two keys. -/
def twoKeys : Fields := .cons ⟨["K", "K2"], []⟩ .String .nil

/-- The first two fields of `TestStruct` in `env_test.go`:
`Var string "env:\"VAR\""` and `MissingVar string "env:\"MISSING_VAR,default=missing\""`. -/
def varAndMissing : Fields :=
  .cons ⟨["VAR"], []⟩ .String
    (.cons ⟨["MISSING_VAR"], [("default", "missing")]⟩ .String .nil)

/-- The struct `TestStruct` of `env_test.go`. -/
def testStruct : Fields :=
  .cons ⟨["VAR"], []⟩ .String
    (.cons ⟨["MISSING_VAR"], [("default", "missing")]⟩ .String
      (.cons ⟨["REQUIRED_VAR"], [("required", "true")]⟩ .String
        (.cons ⟨["REQUIRED_MISSING_VAR"], [("required", "true")]⟩ .String .nil)))

/-- The struct `struct { A string "env:\"A,default=x,required=true\"" }`. -/
def requiredWithDefault : Fields :=
  .cons ⟨["A"], [("default", "x"), ("required", "true")]⟩ .String .nil

/-- The struct `struct { A int "env:\"A,default=abc\""; B string "env:\"K,required=true\"" }`. -/
def badDefaultThenRequired : Fields :=
  .cons ⟨["A"], [("default", "abc")]⟩ .Int
    (.cons ⟨["K"], [("required", "true")]⟩ .String .nil)

/-- The struct `struct { F string "env:\"K,required=true\""; G string "env:\"K\"" }`. -/
def sharedKey : Fields :=
  .cons ⟨["K"], [("required", "true")]⟩ .String
    (.cons ⟨["K"], []⟩ .String .nil)

/-- The struct `struct { B string "env:\"B,required=true\""; A string "env:\"A,default=x\"" }`. -/
def requiredThenDefault : Fields :=
  .cons ⟨["B"], [("required", "true")]⟩ .String
    (.cons ⟨["A"], [("default", "x")]⟩ .String .nil)

/-- The struct `struct { A string "env:\"A,default=x\""; B string "env:\"B,required=true\"" }`. -/
def defaultThenRequired : Fields :=
  .cons ⟨["A"], [("default", "x")]⟩ .String
    (.cons ⟨["B"], [("required", "true")]⟩ .String .nil)

/-- The struct `struct { M int "env:\"M\""; N int "env:\"N\"" }`. -/
def twoInts : Fields :=
  .cons ⟨["M"], []⟩ .Int (.cons ⟨["N"], []⟩ .Int .nil)

/-- The struct `struct { A int "env:\"N2,N\"" }`: an integer field under two keys. -/
def intTwoKeys : Fields := .cons ⟨["N2", "N"], []⟩ .Int .nil

/-- The struct `struct { N int "env:\"N,default=7\"" }`. -/
def oneInt : Fields := .cons ⟨["N"], [("default", "7")]⟩ .Int .nil

/-- The struct of the nesting scenario: a field with key `SUPER` whose struct type has a
field with key `SUB` whose struct type has a string field with key `X`. -/
def superSubX : Fields :=
  .cons ⟨["SUPER"], []⟩
    (.Struct (.cons ⟨["SUB"], []⟩ (.Struct (.cons ⟨["X"], []⟩ .String .nil)) .nil)) .nil

/-- The nested map that `json.Unmarshal` yields for the file
`{"a": {"b": 5, "c": [1,2]}}`: the number is held as the float64 5, whose bit pattern is
`0x4014000000000000`. -/
def nestedAB : IfaceMap :=
  .cons "a" (.map (.cons "b" (.float64 ⟨4617315517961601024⟩) (.cons "c" .slice .nil))) .nil

/-- A host whose file system holds the one file `ab.json` with the content
`{"a": {"b": 5, "c": [1,2]}}`; `json.Unmarshal` yields `nestedAB` for it, and `%g` prints
the float64 5 as `5`. -/
def Host.abFile : Host where
  ParseFloat := fun _ => .error .ErrSyntax
  toFloat32 := fun f => f
  FormatG := fun f => if f.bits = 4617315517961601024 then "5" else ""
  Quote := fun s => "\"" ++ s ++ "\""
  TypeName := fun _ => ""
  KindName := fun _ => ""
  ReadFile := fun path =>
    if path = "ab.json" then
      .ok [123, 34, 97, 34, 58, 32, 123, 34, 98, 34, 58, 32, 53, 44, 32, 34, 99, 34, 58, 32,
        91, 49, 44, 50, 93, 125, 125]
    else .error "no such file or directory"
  jsonUnmarshal := fun jsonBytes =>
    if jsonBytes = [123, 34, 97, 34, 58, 32, 123, 34, 98, 34, 58, 32, 53, 44, 32, 34, 99, 34,
        58, 32, 91, 49, 44, 50, 93, 125, 125] then
      .ok nestedAB
    else .error "unexpected end of JSON input"

/-- A nested map with leaves of every kind: booleans, integers held as int64, a string, a
null, an array and a value of another type, some of them inside a nested object. -/
def mixedLeaves : IfaceMap :=
  .cons "on" (.bool true)
    (.cons "db" (.map
        (.cons "ssl" (.bool false)
          (.cons "port" (.int64 5432)
            (.cons "delta" (.int64 (-12))
              (.cons "hosts" .slice (.cons "user" (.string "root") .nil))))))
      (.cons "none" .nil (.cons "odd" .other .nil)))

/-- A host whose file system holds the one file `config.json` with the content
`{"K": 1000000}`.  `encoding/json` stores a JSON number in an `interface{}` as a float64,
here the float64 1000000 with the bit pattern `0x412E848000000000`, and `%g` prints that
float64 as `1e+06`. -/
def Host.millionFile : Host where
  ParseFloat := fun _ => .error .ErrSyntax
  toFloat32 := fun f => f
  FormatG := fun f => if f.bits = 4696837146684686336 then "1e+06" else ""
  Quote := fun s => "\"" ++ s ++ "\""
  TypeName := fun _ => ""
  KindName := fun _ => ""
  ReadFile := fun path =>
    if path = "config.json" then
      .ok [123, 34, 75, 34, 58, 32, 49, 48, 48, 48, 48, 48, 48, 125]
    else .error "no such file or directory"
  jsonUnmarshal := fun jsonBytes =>
    if jsonBytes = [123, 34, 75, 34, 58, 32, 49, 48, 48, 48, 48, 48, 48, 125] then
      .ok (.cons "K" (.float64 ⟨4696837146684686336⟩) .nil)
    else .error "unexpected end of JSON input"

/-- The struct `struct { K int64 "env:\"K\"" }`. -/
def oneInt64 : Fields := .cons ⟨["K"], []⟩ .Int64 .nil

/-- A host whose file system holds `a.json` with the content `{"X":"1","Y":"2"}` and
`b.json` with the content `{"Y":"3","Z":"4"}`. -/
def Host.twoFiles : Host where
  ParseFloat := fun _ => .error .ErrSyntax
  toFloat32 := fun f => f
  FormatG := fun _ => ""
  Quote := fun s => "\"" ++ s ++ "\""
  TypeName := fun _ => ""
  KindName := fun _ => ""
  ReadFile := fun path =>
    if path = "a.json" then
      .ok [123, 34, 88, 34, 58, 34, 49, 34, 44, 34, 89, 34, 58, 34, 50, 34, 125]
    else if path = "b.json" then
      .ok [123, 34, 89, 34, 58, 34, 51, 34, 44, 34, 90, 34, 58, 34, 52, 34, 125]
    else .error "no such file or directory"
  jsonUnmarshal := fun jsonBytes =>
    if jsonBytes = [123, 34, 88, 34, 58, 34, 49, 34, 44, 34, 89, 34, 58, 34, 50, 34, 125] then
      .ok (.cons "X" (.string "1") (.cons "Y" (.string "2") .nil))
    else if jsonBytes =
        [123, 34, 89, 34, 58, 34, 51, 34, 44, 34, 90, 34, 58, 34, 52, 34, 125] then
      .ok (.cons "Y" (.string "3") (.cons "Z" (.string "4") .nil))
    else .error "unexpected end of JSON input"

/-- The struct `struct { F string "env:\"A,B,required=true\"" }`: a required field under
the two keys `A` and `B`. -/
def requiredTwoKeys : Fields := .cons ⟨["A", "B"], [("required", "true")]⟩ .String .nil

/-- The struct
`struct { X string "env:\"A_B\""; S struct { Y string "env:\"B\"" } "env:\"A\"" }`:
a field keyed `A_B` next to a struct keyed `A` with a child keyed `B`. -/
def flatNextToNested : Fields :=
  .cons ⟨["A_B"], []⟩ .String
    (.cons ⟨["A"], []⟩ (.Struct (.cons ⟨["B"], []⟩ .String .nil)) .nil)

/-- The struct
`struct { S []string "env:\"S,required=true\""; N int "env:\"N,default=7\"" }`. -/
def sliceAndInt : Fields :=
  .cons ⟨["S"], [("required", "true")]⟩ .Slice (.cons ⟨["N"], [("default", "7")]⟩ .Int .nil)

/-- The memory of a struct all of whose string fields hold `old`. -/
def oldStrings : Store := fun _ => .string "old"

/-! # Theorems -/

/-! ## Go maps: lookup after assignment -/

theorem GoMap.get?_set_self {κ β : Type} [DecidableEq κ] (m : GoMap κ β) (k : κ) (v : β) :
    GoMap.get? (GoMap.set m k v) k = some v := by
  induction m with
  | nil => simp [GoMap.set, GoMap.get?]
  | cons hd tl ih =>
    obtain ⟨k', v'⟩ := hd
    by_cases h : k' = k
    · simp [GoMap.set, GoMap.get?, h]
    · simp [GoMap.set, GoMap.get?, h, ih]

theorem GoMap.get?_set_other {κ β : Type} [DecidableEq κ] (m : GoMap κ β) (k k2 : κ) (v : β)
    (hne : k ≠ k2) : GoMap.get? (GoMap.set m k v) k2 = GoMap.get? m k2 := by
  induction m with
  | nil => simp [GoMap.set, GoMap.get?, hne]
  | cons hd tl ih =>
    obtain ⟨k', v'⟩ := hd
    by_cases h : k' = k
    · subst h
      simp [GoMap.set, GoMap.get?, hne]
    · by_cases h2 : k' = k2
      · subst h2
        simp [GoMap.set, GoMap.get?, h]
      · simp [GoMap.set, GoMap.get?, h, h2, ih]

theorem GoMap.mem_set {κ β : Type} [DecidableEq κ] (m : GoMap κ β) (k : κ) (v : β)
    (p : κ × β) (hp : p ∈ GoMap.set m k v) : p = (k, v) ∨ p ∈ m := by
  induction m with
  | nil => simpa [GoMap.set] using hp
  | cons hd tl ih =>
    obtain ⟨k', v'⟩ := hd
    by_cases h : k' = k
    · simp [GoMap.set, h] at hp
      rcases hp with hp | hp
      · exact Or.inl hp
      · exact Or.inr (List.mem_cons_of_mem _ hp)
    · simp [GoMap.set, h] at hp
      rcases hp with hp | hp
      · exact Or.inr (by simp [hp])
      · rcases ih hp with h1 | h1
        · exact Or.inl h1
        · exact Or.inr (List.mem_cons_of_mem _ h1)

theorem GoMap.nodup_set {κ β : Type} [DecidableEq κ] (m : GoMap κ β) (k : κ) (v : β)
    (h : (GoMap.keys m).Nodup) : (GoMap.keys (GoMap.set m k v)).Nodup := by
  induction m with
  | nil => simp [GoMap.set, GoMap.keys]
  | cons hd tl ih =>
    obtain ⟨k', v'⟩ := hd
    simp only [GoMap.keys, List.map_cons, List.nodup_cons] at h
    by_cases hk : k' = k
    · subst hk
      simpa [GoMap.set, GoMap.keys] using h
    · simp only [GoMap.set, hk, if_false, GoMap.keys, List.map_cons, List.nodup_cons]
      refine ⟨?_, ih h.2⟩
      intro hmem
      obtain ⟨p, hp, hpk⟩ := List.mem_map.1 hmem
      rcases GoMap.mem_set tl k v p hp with h1 | h1
      · subst h1
        exact hk hpk.symm
      · exact h.1 (List.mem_map.2 ⟨p, h1, hpk⟩)

theorem foldl_inv {α β : Type} (P : β → Prop) (f : β → α → β) :
    ∀ (l : List α) (init : β), P init → (∀ acc x, x ∈ l → P acc → P (f acc x)) →
      P (l.foldl f init) := by
  intro l
  induction l with
  | nil => intro init h _; simpa using h
  | cons hd tl ih =>
    intro init h hstep
    simp only [List.foldl_cons]
    exact ih _ (hstep _ _ (List.mem_cons_self _ _) h)
      (fun acc x hx => hstep acc x (List.mem_cons_of_mem _ hx))

theorem Store.set_same (σ : Store) (a : List Nat) (x : GoVal) : (σ.set a x) a = x := by
  simp [Store.set]

theorem Store.set_other (σ : Store) (a b : List Nat) (x : GoVal) (h : b ≠ a) :
    (σ.set a x) b = σ b := by
  simp [Store.set, h]

/-! ## setVal -/

theorem setVal_store (host : Host) (v : Value) (str : String) (σ : Store) :
    (∃ x, coerce host v.kind str = some x ∧ setVal host v str σ = (none, σ.set v.addr x)) ∨
    (coerce host v.kind str = none ∧ ∃ err, setVal host v str σ = (some err, σ)) := by
  obtain ⟨a, k⟩ := v
  cases k <;> simp only [coerce, setVal] <;>
    first
    | (cases strconv.ParseBool str <;> simp [Value.SetBool, Store.set]; done)
    | (cases strconv.ParseInt str <;> simp [Value.SetInt, Store.set]; done)
    | (cases host.ParseFloat str <;> simp [Value.SetFloat, Store.set]; done)
    | simp [Value.SetString, Store.set, NewUnsupportedFieldTypeError]

theorem Cause_wrap (err : Err) (msg : String) : Cause (.Wrap err msg) = Cause err := by
  rw [Cause]

theorem ParseBool_err (str : String) (err : Err) (h : strconv.ParseBool str = .error err) :
    err = .NumError "ParseBool" str .ErrSyntax := by
  unfold strconv.ParseBool at h
  split at h
  · cases h
  · split at h
    · cases h
    · cases h
      rfl

theorem ParseInt_err (s : String) (err : Err) (h : strconv.ParseInt s = .error err) :
    ∃ c, err = .NumError "ParseInt" s c := by
  unfold strconv.ParseInt at h
  split at h
  · cases h
    exact ⟨_, rfl⟩
  · simp only at h
    split at h
    · cases h
      exact ⟨_, rfl⟩
    · cases h
      exact ⟨_, rfl⟩
    · split at h
      · cases h
        exact ⟨_, rfl⟩
      · split at h
        · cases h
          exact ⟨_, rfl⟩
        · cases h

theorem setVal_err (host : Host) (v : Value) (str : String) (σ σ' : Store) (err : Err)
    (h : setVal host v str σ = (some err, σ')) :
    (∃ f c m, err = .Wrap (.NumError f str c) m) ∨
    (err = .UnsupportedFieldTypeError v.kind ∧ v.kind ∉ scalarKinds) := by
  obtain ⟨a, k⟩ := v
  cases k <;> simp only [setVal] at h
  case Bool =>
    cases hp : strconv.ParseBool str with
    | error e =>
      rw [hp] at h
      simp only [Prod.mk.injEq, Option.some.injEq] at h
      rw [ParseBool_err _ _ hp] at h
      exact Or.inl ⟨_, _, _, h.1.symm⟩
    | ok b =>
      rw [hp] at h
      simp at h
  case String => simp [Value.SetString] at h
  case Float32 =>
    cases hp : host.ParseFloat str with
    | error e =>
      rw [hp] at h
      simp only [Prod.mk.injEq, Option.some.injEq] at h
      exact Or.inl ⟨_, _, _, h.1.symm⟩
    | ok b =>
      rw [hp] at h
      simp at h
  case Float64 =>
    cases hp : host.ParseFloat str with
    | error e =>
      rw [hp] at h
      simp only [Prod.mk.injEq, Option.some.injEq] at h
      exact Or.inl ⟨_, _, _, h.1.symm⟩
    | ok b =>
      rw [hp] at h
      simp at h
  all_goals first
    | (cases hp : strconv.ParseInt str with
       | error e =>
         rw [hp] at h
         simp only [Prod.mk.injEq, Option.some.injEq] at h
         obtain ⟨c, hc⟩ := ParseInt_err _ _ hp
         rw [hc] at h
         exact Or.inl ⟨_, _, _, h.1.symm⟩
       | ok b =>
         rw [hp] at h
         simp at h)
    | (simp only [Prod.mk.injEq, Option.some.injEq, NewUnsupportedFieldTypeError] at h
       exact Or.inr ⟨h.1.symm, by simp [scalarKinds]⟩)

/-- Every raw string coerces to a string field. -/
theorem coerce_string (host : Host) (s : String) : coerce host .String s = some (.string s) := by
  simp [coerce, setVal, Value.SetString, Store.set]

/-- On a field of an integer kind `setVal` parses a 64-bit integer and stores it converted
to the width of the field; it fails exactly when `strconv.ParseInt(str, 10, 64)` fails, and
then leaves the memory as it was. -/
theorem setVal_int (host : Host) (v : Value) (str : String) (σ : Store)
    (hk : v.kind ∈ intKinds) :
    setVal host v str σ =
      match strconv.ParseInt str with
      | .error err => (some (.Wrap err "casting value as int"), σ)
      | .ok i => (none, σ.set v.addr (.int (wrapInt v.kind.bits i))) := by
  obtain ⟨a, k⟩ := v
  cases k <;> simp [intKinds] at hk <;> simp only [setVal, Value.SetInt]

/-- A value inside the signed range of `w` bits is stored unchanged. -/
theorem wrapInt_of_inRange (w : Nat) (x : Int) (hw : 0 < w)
    (hlo : -(2 : Int) ^ (w - 1) ≤ x) (hhi : x < (2 : Int) ^ (w - 1)) : wrapInt w x = x := by
  unfold wrapInt
  have hpow : (2 : Int) ^ w = 2 * 2 ^ (w - 1) := by
    obtain ⟨n, rfl⟩ : ∃ n, w = n + 1 := ⟨w - 1, by omega⟩
    simp [pow_succ, mul_comm]
  rw [Int.emod_eq_of_lt (by omega) (by omega)]
  omega

theorem coerce_int_none (host : Host) (k : Kind) (s : String) (perr : Err)
    (hk : k ∈ intKinds) (hbad : strconv.ParseInt s = .error perr) : coerce host k s = none := by
  unfold coerce
  rw [setVal_int host ⟨[], k⟩ s _ hk, hbad]

/-! ## The first loop of prioUnmarshal -/

theorem Sep.tail {e : envEntry} {p : String × envEntry} {L : List (String × envEntry)}
    (h : Sep e (p :: L)) : Sep e L :=
  fun q hq => h q (List.mem_cons_of_mem _ hq)

theorem getD_false_ne_true (o : Option Bool) : (!(o.getD false)) = true ↔ o ≠ some true := by
  cases o with
  | none => simp
  | some b => cases b <;> simp

theorem primaryPass_cons (host : Host) (envMap cfgMap : GoMap String String) (k : String)
    (e : envEntry) (rest : List (String × envEntry)) (σ : Store) (pm : GoMap envEntry Bool)
    (r : Option Err) (σ' : Store) (pm' : GoMap envEntry Bool)
    (h : primaryPass host envMap cfgMap ((k, e) :: rest) σ pm = (r, σ', pm')) :
    (∃ σ1 pm1, PrimaryStep host envMap cfgMap k e σ pm σ1 pm1 ∧
        primaryPass host envMap cfgMap rest σ1 pm1 = (r, σ', pm')) ∨
    (∃ err, PrimaryFail host envMap cfgMap k e σ pm err ∧ r = some err ∧ σ' = σ ∧ pm' = pm) := by
  simp only [primaryPass] at h
  cases henv : GoMap.get? envMap k with
  | some v =>
    rw [henv] at h
    simp only at h
    rcases setVal_store host e.Value v σ with ⟨x, hx, hs⟩ | ⟨hx, err0, hs⟩
    · rw [hs] at h
      exact Or.inl ⟨_, _, Or.inl ⟨v, x, henv, hx, rfl, rfl⟩, h⟩
    · rw [hs] at h
      simp only [Prod.mk.injEq] at h
      obtain ⟨h1, h2, h3⟩ := h
      exact Or.inr ⟨_, Or.inl ⟨v, err0, henv, hx, hs, rfl⟩, h1.symm, h2.symm, h3.symm⟩
  | none =>
    rw [henv] at h
    simp only at h
    cases hcfg : GoMap.get? cfgMap k with
    | none =>
      rw [hcfg] at h
      exact Or.inl ⟨σ, pm, Or.inr (Or.inr ⟨henv, Or.inl hcfg, rfl, rfl⟩), h⟩
    | some v =>
      rw [hcfg] at h
      simp only at h
      by_cases hp : pm.get? e = some true
      · rw [if_neg (by simp [hp])] at h
        exact Or.inl ⟨σ, pm, Or.inr (Or.inr ⟨henv, Or.inr hp, rfl, rfl⟩), h⟩
      · rw [if_pos ((getD_false_ne_true _).2 hp)] at h
        rcases setVal_store host e.Value v σ with ⟨x, hx, hs⟩ | ⟨hx, err0, hs⟩
        · rw [hs] at h
          exact Or.inl ⟨_, _, Or.inr (Or.inl ⟨v, x, henv, hcfg, hp, hx, rfl, rfl⟩), h⟩
        · rw [hs] at h
          simp only [Prod.mk.injEq] at h
          obtain ⟨h1, h2, h3⟩ := h
          exact Or.inr ⟨_, Or.inr ⟨v, err0, henv, hcfg, hp, hx, hs, rfl⟩, h1.symm, h2.symm, h3.symm⟩

theorem PrimaryStep.primaryFrame {host : Host} {envMap cfgMap : GoMap String String} {k : String}
    {e0 e : envEntry} {σ σ1 : Store} {pm pm1 : GoMap envEntry Bool}
    (hstep : PrimaryStep host envMap cfgMap k e0 σ pm σ1 pm1)
    (hsep : e0 ≠ e → e0.Value.addr ≠ e.Value.addr)
    (hfail : e0 = e → ∀ v, (envMap.get? k = some v ∨
        (envMap.get? k = none ∧ cfgMap.get? k = some v ∧ pm.get? e ≠ some true)) →
        coerce host e.Value.kind v = none) :
    σ1 e.Value.addr = σ e.Value.addr ∧ pm1.get? e = pm.get? e := by
  rcases hstep with ⟨v, x, h1, h2, h3, h4⟩ | ⟨v, x, h1, h2, h3, h4, h5, h6⟩ | ⟨_, _, h3, h4⟩
  · by_cases he : e0 = e
    · subst he
      rw [hfail rfl v (Or.inl h1)] at h2
      exact absurd h2 (by simp)
    · subst h3 h4
      exact ⟨Store.set_other _ _ _ _ (Ne.symm (hsep he)), GoMap.get?_set_other _ _ _ _ he⟩
  · by_cases he : e0 = e
    · subst he
      rw [hfail rfl v (Or.inr ⟨h1, h2, h3⟩)] at h4
      exact absurd h4 (by simp)
    · subst h5 h6
      exact ⟨Store.set_other _ _ _ _ (Ne.symm (hsep he)), GoMap.get?_set_other _ _ _ _ he⟩
  · subst h3 h4
    exact ⟨rfl, rfl⟩

theorem primaryPass_frame (host : Host) (envMap cfgMap : GoMap String String) (e : envEntry) :
    ∀ (L : List (String × envEntry)) (σ : Store) (pm : GoMap envEntry Bool) (r : Option Err)
      (σ' : Store) (pm' : GoMap envEntry Bool),
      primaryPass host envMap cfgMap L σ pm = (r, σ', pm') → Sep e L →
      (∀ k v, (k, e) ∈ L → (envMap.get? k = some v ∨
          (envMap.get? k = none ∧ cfgMap.get? k = some v ∧ pm.get? e ≠ some true)) →
          coerce host e.Value.kind v = none) →
      σ' e.Value.addr = σ e.Value.addr ∧ pm'.get? e = pm.get? e := by
  intro L
  induction L with
  | nil =>
    intro σ pm r σ' pm' h _ _
    simp only [primaryPass, Prod.mk.injEq] at h
    obtain ⟨_, h2, h3⟩ := h
    subst h2 h3
    exact ⟨rfl, rfl⟩
  | cons hd tl ih =>
    intro σ pm r σ' pm' h hsep hfail
    obtain ⟨k0, e0⟩ := hd
    rcases primaryPass_cons host envMap cfgMap k0 e0 tl σ pm r σ' pm' h with
      ⟨σ1, pm1, hstep, hrest⟩ | ⟨err, _, _, h2, h3⟩
    · have hf := hstep.primaryFrame (e := e) (fun hne => hsep (k0, e0) (List.mem_cons_self _ _) hne)
        (fun he v hv => hfail k0 v (by rw [← he]; exact List.mem_cons_self _ _) hv)
      have := ih σ1 pm1 r σ' pm' hrest hsep.tail (fun k v hk hv =>
        hfail k v (List.mem_cons_of_mem _ hk) (by rw [← hf.2]; exact hv))
      exact ⟨this.1.trans hf.1, this.2.trans hf.2⟩
    · subst h2 h3
      exact ⟨rfl, rfl⟩

theorem primaryPass_env (host : Host) (envMap cfgMap : GoMap String String) (e : envEntry) :
    ∀ (L : List (String × envEntry)) (σ : Store) (pm : GoMap envEntry Bool)
      (σ' : Store) (pm' : GoMap envEntry Bool),
      primaryPass host envMap cfgMap L σ pm = (none, σ', pm') → Sep e L →
      (∃ k v, (k, e) ∈ L ∧ envMap.get? k = some v) →
      ∃ k v, (k, e) ∈ L ∧ envMap.get? k = some v ∧
        coerce host e.Value.kind v = some (σ' e.Value.addr) ∧ pm'.get? e = some true := by
  intro L
  induction L with
  | nil =>
    intro σ pm σ' pm' _ _ hex
    obtain ⟨k, v, hk, _⟩ := hex
    simp at hk
  | cons hd tl ih =>
    intro σ pm σ' pm' h hsep hex
    obtain ⟨k0, e0⟩ := hd
    rcases primaryPass_cons host envMap cfgMap k0 e0 tl σ pm none σ' pm' h with
      ⟨σ1, pm1, hstep, hrest⟩ | ⟨err, _, h1, _, _⟩
    · by_cases htl : ∃ k v, (k, e) ∈ tl ∧ envMap.get? k = some v
      · obtain ⟨k, v, hk, hv, hc, hp⟩ := ih σ1 pm1 σ' pm' hrest hsep.tail htl
        exact ⟨k, v, List.mem_cons_of_mem _ hk, hv, hc, hp⟩
      · obtain ⟨k, v, hk, hv⟩ := hex
        rcases List.mem_cons.1 hk with hk | hk
        · simp only [Prod.mk.injEq] at hk
          obtain ⟨hk1, hk2⟩ := hk
          subst hk1 hk2
          rcases hstep with ⟨v1, x, h1, h2, h3, h4⟩ | ⟨v1, x, h1, _⟩ | ⟨h1, _⟩
          · rw [hv] at h1
            cases h1
            have hf := primaryPass_frame host envMap cfgMap e tl σ1 pm1 none σ' pm' hrest
              hsep.tail (fun k2 v2 hk2 hv2 => by
                rcases hv2 with hv2 | ⟨_, _, hv2⟩
                · exact absurd ⟨k2, v2, hk2, hv2⟩ htl
                · rw [h4, GoMap.get?_set_self] at hv2
                  exact absurd rfl hv2)
            refine ⟨k, v, List.mem_cons_self _ _, hv, ?_, ?_⟩
            · rw [hf.1, h3, Store.set_same, h2]
            · rw [hf.2, h4, GoMap.get?_set_self]
          · rw [hv] at h1
            cases h1
          · rw [hv] at h1
            cases h1
        · exact absurd ⟨k, v, hk, hv⟩ htl
    · cases h1

theorem primaryPass_cfg (host : Host) (envMap cfgMap : GoMap String String) (e : envEntry) :
    ∀ (L : List (String × envEntry)) (σ : Store) (pm : GoMap envEntry Bool)
      (σ' : Store) (pm' : GoMap envEntry Bool),
      primaryPass host envMap cfgMap L σ pm = (none, σ', pm') → Sep e L →
      (∀ k, (k, e) ∈ L → envMap.get? k = none) → pm.get? e ≠ some true →
      (∃ k v, (k, e) ∈ L ∧ cfgMap.get? k = some v) →
      ∃ k v, (k, e) ∈ L ∧ cfgMap.get? k = some v ∧
        coerce host e.Value.kind v = some (σ' e.Value.addr) ∧ pm'.get? e = some false := by
  intro L
  induction L with
  | nil =>
    intro σ pm σ' pm' _ _ _ _ hex
    obtain ⟨k, v, hk, _⟩ := hex
    simp at hk
  | cons hd tl ih =>
    intro σ pm σ' pm' h hsep henv hpm hex
    obtain ⟨k0, e0⟩ := hd
    rcases primaryPass_cons host envMap cfgMap k0 e0 tl σ pm none σ' pm' h with
      ⟨σ1, pm1, hstep, hrest⟩ | ⟨err, _, h1, _, _⟩
    · by_cases htl : ∃ k v, (k, e) ∈ tl ∧ cfgMap.get? k = some v
      · have hpm1 : pm1.get? e ≠ some true := by
          rcases hstep with ⟨v1, x, h1, _, _, h4⟩ | ⟨v1, x, _, _, _, _, _, h6⟩ | ⟨_, _, _, h4⟩
          · have he : e0 ≠ e := by
              intro he
              subst he
              rw [henv k0 (List.mem_cons_self _ _)] at h1
              cases h1
            rw [h4, GoMap.get?_set_other _ _ _ _ he]
            exact hpm
          · by_cases he : e0 = e
            · subst he
              rw [h6, GoMap.get?_set_self]
              simp
            · rw [h6, GoMap.get?_set_other _ _ _ _ he]
              exact hpm
          · rw [h4]
            exact hpm
        obtain ⟨k, v, hk, hv, hc, hp⟩ := ih σ1 pm1 σ' pm' hrest hsep.tail
          (fun k hk => henv k (List.mem_cons_of_mem _ hk)) hpm1 htl
        exact ⟨k, v, List.mem_cons_of_mem _ hk, hv, hc, hp⟩
      · obtain ⟨k, v, hk, hv⟩ := hex
        rcases List.mem_cons.1 hk with hk | hk
        · simp only [Prod.mk.injEq] at hk
          obtain ⟨hk1, hk2⟩ := hk
          subst hk1 hk2
          have hk0 := henv k (List.mem_cons_self _ _)
          rcases hstep with ⟨v1, x, h1, _⟩ | ⟨v1, x, _, h2, _, h4, h5, h6⟩ | ⟨_, h2, _, _⟩
          · rw [hk0] at h1
            cases h1
          · rw [hv] at h2
            cases h2
            have hf := primaryPass_frame host envMap cfgMap e tl σ1 pm1 none σ' pm' hrest
              hsep.tail (fun k2 v2 hk2 hv2 => by
                rcases hv2 with hv2 | ⟨_, hv2, _⟩
                · rw [henv k2 (List.mem_cons_of_mem _ hk2)] at hv2
                  cases hv2
                · exact absurd ⟨k2, v2, hk2, hv2⟩ htl)
            refine ⟨k, v, List.mem_cons_self _ _, hv, ?_, ?_⟩
            · rw [hf.1, h5, Store.set_same, h4]
            · rw [hf.2, h6, GoMap.get?_set_self]
          · rcases h2 with h2 | h2
            · rw [hv] at h2
              cases h2
            · exact absurd h2 hpm
        · exact absurd ⟨k, v, hk, hv⟩ htl
    · cases h1

theorem PrimaryStep.primaryForward {host : Host} {envMap cfgMap : GoMap String String} {k : String}
    {e : envEntry} {σ σ1 : Store} {pm pm1 : GoMap envEntry Bool}
    (hstep : PrimaryStep host envMap cfgMap k e σ pm σ1 pm1) (rest : List (String × envEntry)) :
    primaryPass host envMap cfgMap ((k, e) :: rest) σ pm =
      primaryPass host envMap cfgMap rest σ1 pm1 := by
  rcases hstep with ⟨v, x, a1, a2, a3, a4⟩ | ⟨v, x, a1, a2, a3, a4, a5, a6⟩ | ⟨a1, a2, a3, a4⟩
  · rcases setVal_store host e.Value v σ with ⟨y, hy, hs⟩ | ⟨hy, _, _⟩
    · rw [a2] at hy
      cases hy
      simp only [primaryPass, a1, hs]
      rw [← a3, ← a4]
    · rw [a2] at hy
      cases hy
  · rcases setVal_store host e.Value v σ with ⟨y, hy, hs⟩ | ⟨hy, _, _⟩
    · rw [a4] at hy
      cases hy
      simp only [primaryPass, a1, a2, hs, (getD_false_ne_true _).2 a3, if_true]
      rw [← a5, ← a6]
    · rw [a4] at hy
      cases hy
  · subst a3 a4
    rcases a2 with a2 | a2
    · simp only [primaryPass, a1, a2]
    · cases hc : GoMap.get? cfgMap k with
      | none => simp only [primaryPass, a1, hc]
      | some v =>
        simp only [primaryPass, a1, hc, a2]
        simp

theorem primaryPass_err (host : Host) (envMap cfgMap : GoMap String String) :
    ∀ (L : List (String × envEntry)) (σ : Store) (pm : GoMap envEntry Bool) (err : Err)
      (σ' : Store) (pm' : GoMap envEntry Bool),
      primaryPass host envMap cfgMap L σ pm = (some err, σ', pm') →
      ∃ pre k e post σx pmx, L = pre ++ (k, e) :: post ∧
        primaryPass host envMap cfgMap pre σ pm = (none, σx, pmx) ∧
        PrimaryFail host envMap cfgMap k e σx pmx err ∧ σ' = σx ∧ pm' = pmx := by
  intro L
  induction L with
  | nil =>
    intro σ pm err σ' pm' h
    simp [primaryPass] at h
  | cons hd tl ih =>
    intro σ pm err σ' pm' h
    obtain ⟨k0, e0⟩ := hd
    rcases primaryPass_cons host envMap cfgMap k0 e0 tl σ pm _ σ' pm' h with
      ⟨σ1, pm1, hstep, hrest⟩ | ⟨err1, hf, h1, h2, h3⟩
    · obtain ⟨pre, k, e, post, σx, pmx, hL, hpre, hfail, h2, h3⟩ := ih σ1 pm1 err σ' pm' hrest
      refine ⟨(k0, e0) :: pre, k, e, post, σx, pmx, by simp [hL], ?_, hfail, h2, h3⟩
      rw [hstep.primaryForward]
      exact hpre
    · cases h1
      exact ⟨[], k0, e0, tl, σ, pm, rfl, by simp [primaryPass], hf, h2, h3⟩

theorem primaryPass_ok (host : Host) (envMap cfgMap : GoMap String String) :
    ∀ (L : List (String × envEntry)) (σ : Store) (pm : GoMap envEntry Bool) (r : Option Err)
      (σ' : Store) (pm' : GoMap envEntry Bool),
      primaryPass host envMap cfgMap L σ pm = (r, σ', pm') →
      (∀ k e v, (k, e) ∈ L →
        (envMap.get? k = some v ∨ (envMap.get? k = none ∧ cfgMap.get? k = some v)) →
        coerce host e.Value.kind v ≠ none) →
      r = none := by
  intro L σ pm r σ' pm' h hco
  cases r with
  | none => rfl
  | some err =>
    obtain ⟨pre, k, e, post, σx, pmx, hL, _, hfail, _, _⟩ :=
      primaryPass_err host envMap cfgMap L σ pm err σ' pm' h
    have hmem : (k, e) ∈ L := by rw [hL]; simp
    rcases hfail with ⟨v, _, h1, h2, _⟩ | ⟨v, _, h1, h2, _, h4, _⟩
    · exact absurd h2 (hco k e v hmem (Or.inl h1))
    · exact absurd h4 (hco k e v hmem (Or.inr ⟨h1, h2⟩))

theorem primaryPass_must_fail (host : Host) (envMap cfgMap : GoMap String String)
    (N : String) (e : envEntry) (s : String) (henv : envMap.get? N = some s)
    (hbad : coerce host e.Value.kind s = none) :
    ∀ (L : List (String × envEntry)) (σ : Store) (pm : GoMap envEntry Bool) (r : Option Err)
      (σ' : Store) (pm' : GoMap envEntry Bool),
      (N, e) ∈ L → primaryPass host envMap cfgMap L σ pm = (r, σ', pm') → r ≠ none := by
  intro L
  induction L with
  | nil =>
    intro σ pm r σ' pm' hmem
    simp at hmem
  | cons hd tl ih =>
    intro σ pm r σ' pm' hmem h
    obtain ⟨k0, e0⟩ := hd
    rcases primaryPass_cons host envMap cfgMap k0 e0 tl σ pm _ σ' pm' h with
      ⟨σ1, pm1, hstep, hrest⟩ | ⟨err1, hf, h1, h2, h3⟩
    · rcases List.mem_cons.1 hmem with hm | hm
      · simp only [Prod.mk.injEq] at hm
        obtain ⟨hm1, hm2⟩ := hm
        subst hm1 hm2
        rcases hstep with ⟨v, x, a1, a2, _⟩ | ⟨v, x, a1, _⟩ | ⟨a1, _⟩
        · rw [henv] at a1
          cases a1
          rw [hbad] at a2
          cases a2
        · rw [henv] at a1
          cases a1
        · rw [henv] at a1
          cases a1
      · exact ih σ1 pm1 r σ' pm' hm hrest
    · rw [h1]
      simp

theorem primaryPass_unsatisfied (host : Host) (envMap cfgMap : GoMap String String)
    (e : envEntry) (L : List (String × envEntry)) (σ σ' : Store) (pm' : GoMap envEntry Bool)
    (h : primaryPass host envMap cfgMap L σ [] = (none, σ', pm')) (hsep : Sep e L)
    (hpm : pm'.get? e = none) :
    ∀ k, (k, e) ∈ L → envMap.get? k = none ∧ cfgMap.get? k = none := by
  have henv : ∀ k, (k, e) ∈ L → envMap.get? k = none := by
    intro k hk
    cases hv : GoMap.get? envMap k with
    | none => rfl
    | some v =>
      obtain ⟨_, _, _, _, _, hp⟩ :=
        primaryPass_env host envMap cfgMap e L σ [] σ' pm' h hsep ⟨k, v, hk, hv⟩
      rw [hpm] at hp
      cases hp
  intro k hk
  refine ⟨henv k hk, ?_⟩
  cases hv : GoMap.get? cfgMap k with
  | none => rfl
  | some v =>
    obtain ⟨_, _, _, _, _, hp⟩ :=
      primaryPass_cfg host envMap cfgMap e L σ [] σ' pm' h hsep henv (by simp [GoMap.get?])
        ⟨k, v, hk, hv⟩
    rw [hpm] at hp
    cases hp

/-! ## The second loop of prioUnmarshal -/

theorem fallbackPass_cons (host : Host) (k : String)
    (e : envEntry) (rest : List (String × envEntry)) (σ : Store) (pm : GoMap envEntry Bool)
    (r : Option Err) (σ' : Store) (pm' : GoMap envEntry Bool)
    (h : fallbackPass host ((k, e) :: rest) σ pm = (r, σ', pm')) :
    (∃ σ1 pm1, FallbackStep host e σ pm σ1 pm1 ∧
        fallbackPass host rest σ1 pm1 = (r, σ', pm')) ∨
    (∃ err, FallbackFail host k e σ pm err ∧ r = some err ∧ σ' = σ ∧ pm' = pm) := by
  simp only [fallbackPass] at h
  by_cases hp : pm.get? e = none
  · rw [if_neg (by simp [hp])] at h
    by_cases hreq : e.IsRequired = true
    · rw [if_pos hreq] at h
      simp only [Prod.mk.injEq] at h
      obtain ⟨h1, h2, h3⟩ := h
      exact Or.inr ⟨_, ⟨hp, Or.inl ⟨hreq, rfl⟩⟩, h1.symm, h2.symm, h3.symm⟩
    · rw [if_neg hreq] at h
      have hreq' : e.IsRequired = false := by simpa using hreq
      by_cases hd : e.Default = ""
      · rw [if_pos hd] at h
        exact Or.inl ⟨σ, pm, Or.inr (Or.inl ⟨hp, hreq', hd, rfl, rfl⟩), h⟩
      · rw [if_neg hd] at h
        rcases setVal_store host e.Value e.Default σ with ⟨x, hx, hs⟩ | ⟨hx, err0, hs⟩
        · rw [hs] at h
          exact Or.inl ⟨_, _, Or.inr (Or.inr ⟨x, hp, hreq', hd, hx, rfl, rfl⟩), h⟩
        · rw [hs] at h
          simp only [Prod.mk.injEq] at h
          obtain ⟨h1, h2, h3⟩ := h
          exact Or.inr ⟨_, ⟨hp, Or.inr ⟨err0, hreq', hd, hx, hs, rfl⟩⟩, h1.symm, h2.symm, h3.symm⟩
  · have hs : (pm.get? e).isSome = true := by
      cases hq : pm.get? e with
      | none => exact absurd hq hp
      | some b => rfl
    rw [if_pos hs] at h
    exact Or.inl ⟨σ, pm, Or.inl ⟨hp, rfl, rfl⟩, h⟩

theorem FallbackStep.fallbackFrame {host : Host} {e0 e : envEntry} {σ σ1 : Store}
    {pm pm1 : GoMap envEntry Bool} (hstep : FallbackStep host e0 σ pm σ1 pm1)
    (hsep : e0 ≠ e → e0.Value.addr ≠ e.Value.addr)
    (hskip : e0 = e → pm.get? e ≠ none ∨ e.IsRequired = true ∨ e.Default = "" ∨
      coerce host e.Value.kind e.Default = none) :
    σ1 e.Value.addr = σ e.Value.addr ∧ pm1.get? e = pm.get? e := by
  rcases hstep with ⟨_, h2, h3⟩ | ⟨_, _, _, h2, h3⟩ | ⟨x, h1, hr, h3, h4, h5, h6⟩
  · subst h2 h3
    exact ⟨rfl, rfl⟩
  · subst h2 h3
    exact ⟨rfl, rfl⟩
  · by_cases he : e0 = e
    · subst he
      rcases hskip rfl with h | h | h | h
      · exact absurd h1 h
      · rw [hr] at h
        cases h
      · exact absurd h h3
      · rw [h] at h4
        cases h4
    · subst h5 h6
      exact ⟨Store.set_other _ _ _ _ (Ne.symm (hsep he)), GoMap.get?_set_other _ _ _ _ he⟩

theorem fallbackPass_frame (host : Host) (e : envEntry) :
    ∀ (L : List (String × envEntry)) (σ : Store) (pm : GoMap envEntry Bool) (r : Option Err)
      (σ' : Store) (pm' : GoMap envEntry Bool),
      fallbackPass host L σ pm = (r, σ', pm') → Sep e L →
      ((∃ k, (k, e) ∈ L) → pm.get? e ≠ none ∨ e.IsRequired = true ∨ e.Default = "" ∨
        coerce host e.Value.kind e.Default = none) →
      σ' e.Value.addr = σ e.Value.addr ∧ pm'.get? e = pm.get? e := by
  intro L
  induction L with
  | nil =>
    intro σ pm r σ' pm' h _ _
    simp only [fallbackPass, Prod.mk.injEq] at h
    obtain ⟨_, h2, h3⟩ := h
    subst h2 h3
    exact ⟨rfl, rfl⟩
  | cons hd tl ih =>
    intro σ pm r σ' pm' h hsep hskip
    obtain ⟨k0, e0⟩ := hd
    rcases fallbackPass_cons host k0 e0 tl σ pm r σ' pm' h with
      ⟨σ1, pm1, hstep, hrest⟩ | ⟨err, _, _, h2, h3⟩
    · have hf := hstep.fallbackFrame (e := e) (fun hne => hsep (k0, e0) (List.mem_cons_self _ _) hne)
        (fun he => hskip ⟨k0, by rw [← he]; exact List.mem_cons_self _ _⟩)
      have := ih σ1 pm1 r σ' pm' hrest hsep.tail (fun ⟨k, hk⟩ => by
        rw [hf.2]
        exact hskip ⟨k, List.mem_cons_of_mem _ hk⟩)
      exact ⟨this.1.trans hf.1, this.2.trans hf.2⟩
    · subst h2 h3
      exact ⟨rfl, rfl⟩

theorem fallbackPass_default (host : Host) (e : envEntry) :
    ∀ (L : List (String × envEntry)) (σ : Store) (pm : GoMap envEntry Bool)
      (σ' : Store) (pm' : GoMap envEntry Bool),
      fallbackPass host L σ pm = (none, σ', pm') → Sep e L →
      (∃ k, (k, e) ∈ L) → pm.get? e = none → e.Default ≠ "" →
      coerce host e.Value.kind e.Default = some (σ' e.Value.addr) := by
  intro L
  induction L with
  | nil =>
    intro σ pm σ' pm' _ _ hex
    obtain ⟨k, hk⟩ := hex
    simp at hk
  | cons hd tl ih =>
    intro σ pm σ' pm' h hsep hex hpm hdef
    obtain ⟨k0, e0⟩ := hd
    rcases fallbackPass_cons host k0 e0 tl σ pm none σ' pm' h with
      ⟨σ1, pm1, hstep, hrest⟩ | ⟨err, _, h1, _, _⟩
    · by_cases he : e0 = e
      · subst he
        rcases hstep with ⟨h1, _⟩ | ⟨_, _, h1, _⟩ | ⟨x, _, _, _, h4, h5, h6⟩
        · exact absurd hpm h1
        · exact absurd h1 hdef
        · have hf := fallbackPass_frame host e0 tl σ1 pm1 none σ' pm' hrest hsep.tail
            (fun _ => Or.inl (by rw [h6, GoMap.get?_set_self]; simp))
          rw [hf.1, h5, Store.set_same, h4]
      · have hf := hstep.fallbackFrame (e := e)
          (fun hne => hsep (k0, e0) (List.mem_cons_self _ _) hne) (fun h => absurd h he)
        obtain ⟨k, hk⟩ := hex
        rcases List.mem_cons.1 hk with hk | hk
        · simp only [Prod.mk.injEq] at hk
          exact absurd hk.2.symm he
        · exact ih σ1 pm1 σ' pm' hrest hsep.tail ⟨k, hk⟩ (by rw [hf.2]; exact hpm) hdef
    · cases h1

theorem FallbackStep.fallbackForward {host : Host} {e : envEntry} {σ σ1 : Store}
    {pm pm1 : GoMap envEntry Bool} (hstep : FallbackStep host e σ pm σ1 pm1) (k : String)
    (rest : List (String × envEntry)) :
    fallbackPass host ((k, e) :: rest) σ pm = fallbackPass host rest σ1 pm1 := by
  rcases hstep with ⟨a1, a2, a3⟩ | ⟨a1, a2, a3, a4, a5⟩ | ⟨x, a1, a2, a3, a4, a5, a6⟩
  · have hs : (pm.get? e).isSome = true := by
      cases hq : pm.get? e with
      | none => exact absurd hq a1
      | some b => rfl
    rw [a2, a3]
    simp only [fallbackPass, hs, if_true]
  · rw [a4, a5]
    simp [fallbackPass, a1, a2, a3]
  · rcases setVal_store host e.Value e.Default σ with ⟨y, hy, hs⟩ | ⟨hy, _, _⟩
    · rw [a4] at hy
      cases hy
      simp only [fallbackPass, a1, a2, a3, hs]
      rw [← a5, ← a6]
      simp
    · rw [a4] at hy
      cases hy

theorem fallbackPass_err (host : Host) :
    ∀ (L : List (String × envEntry)) (σ : Store) (pm : GoMap envEntry Bool) (err : Err)
      (σ' : Store) (pm' : GoMap envEntry Bool),
      fallbackPass host L σ pm = (some err, σ', pm') →
      ∃ pre k e post σx pmx, L = pre ++ (k, e) :: post ∧
        fallbackPass host pre σ pm = (none, σx, pmx) ∧
        FallbackFail host k e σx pmx err ∧ σ' = σx ∧ pm' = pmx := by
  intro L
  induction L with
  | nil =>
    intro σ pm err σ' pm' h
    simp [fallbackPass] at h
  | cons hd tl ih =>
    intro σ pm err σ' pm' h
    obtain ⟨k0, e0⟩ := hd
    rcases fallbackPass_cons host k0 e0 tl σ pm _ σ' pm' h with
      ⟨σ1, pm1, hstep, hrest⟩ | ⟨err1, hf, h1, h2, h3⟩
    · obtain ⟨pre, k, e, post, σx, pmx, hL, hpre, hfail, h2, h3⟩ := ih σ1 pm1 err σ' pm' hrest
      refine ⟨(k0, e0) :: pre, k, e, post, σx, pmx, by simp [hL], ?_, hfail, h2, h3⟩
      rw [hstep.fallbackForward]
      exact hpre
    · cases h1
      exact ⟨[], k0, e0, tl, σ, pm, rfl, by simp [fallbackPass], hf, h2, h3⟩

theorem split_unique {α β : Type} (k : α) :
    ∀ (pre pre' : List (α × β)) (e e' : β) (post post' : List (α × β)),
      pre ++ (k, e) :: post = pre' ++ (k, e') :: post' →
      (GoMap.keys (pre ++ (k, e) :: post)).Nodup → pre = pre' ∧ e = e' ∧ post = post' := by
  intro pre
  induction pre with
  | nil =>
    intro pre' e e' post post' h hnd
    cases pre' with
    | nil =>
      simp only [List.nil_append, List.cons.injEq, Prod.mk.injEq, true_and] at h
      exact ⟨rfl, h.1, h.2⟩
    | cons hd tl =>
      simp only [List.nil_append, List.cons_append, List.cons.injEq] at h
      obtain ⟨_, h2⟩ := h
      simp only [GoMap.keys, List.nil_append, List.map_cons, List.nodup_cons] at hnd
      exact absurd (by rw [h2]; simp) hnd.1
  | cons hd tl ih =>
    intro pre' e e' post post' h hnd
    cases pre' with
    | nil =>
      simp only [List.nil_append, List.cons_append, List.cons.injEq] at h
      obtain ⟨h1, _⟩ := h
      simp only [GoMap.keys, List.cons_append, List.map_cons, List.nodup_cons, h1] at hnd
      exact absurd (by simp) hnd.1
    | cons hd' tl' =>
      simp only [List.cons_append, List.cons.injEq] at h
      simp only [GoMap.keys, List.cons_append, List.map_cons, List.nodup_cons] at hnd
      obtain ⟨h1, h2, h3⟩ := ih tl' e e' post post' h.2 hnd.2
      exact ⟨by rw [h.1, h1], h2, h3⟩

theorem fallbackPass_required (host : Host) (e : envEntry) (hreq : e.IsRequired = true) :
    ∀ (L : List (String × envEntry)) (σ : Store) (pm : GoMap envEntry Bool)
      (σ' : Store) (pm' : GoMap envEntry Bool),
      fallbackPass host L σ pm = (none, σ', pm') → (∃ k, (k, e) ∈ L) → pm.get? e ≠ none := by
  intro L
  induction L with
  | nil =>
    intro σ pm σ' pm' _ hex
    obtain ⟨k, hk⟩ := hex
    simp at hk
  | cons hd tl ih =>
    intro σ pm σ' pm' h hex
    obtain ⟨k0, e0⟩ := hd
    rcases fallbackPass_cons host k0 e0 tl σ pm none σ' pm' h with
      ⟨σ1, pm1, hstep, hrest⟩ | ⟨err, _, h1, _, _⟩
    · by_cases he : e0 = e
      · subst he
        rcases hstep with ⟨a1, _⟩ | ⟨_, a2, _⟩ | ⟨_, _, a2, _⟩
        · exact a1
        · rw [hreq] at a2
          cases a2
        · rw [hreq] at a2
          cases a2
      · obtain ⟨k, hk⟩ := hex
        rcases List.mem_cons.1 hk with hk | hk
        · simp only [Prod.mk.injEq] at hk
          exact absurd hk.2.symm he
        · have := ih σ1 pm1 σ' pm' hrest ⟨k, hk⟩
          rcases hstep with ⟨_, _, a3⟩ | ⟨_, _, _, _, a3⟩ | ⟨_, _, _, _, _, _, a3⟩
          · rw [a3] at this
            exact this
          · rw [a3] at this
            exact this
          · rw [a3, GoMap.get?_set_other _ _ _ _ he] at this
            exact this
    · cases h1

/-! ## parseStruct -/

theorem parseStructFrom_nil (v : List Nat) (connector : String) (i : Nat)
    (result : GoMap String envEntry) :
    parseStructFrom v connector i .nil result = result := by
  rw [parseStructFrom]

theorem parseStructFrom_cons (v : List Nat) (connector : String) (i : Nat) (tag : Tag)
    (typ : Typ) (rest : Fields) (result : GoMap String envEntry) :
    parseStructFrom v connector i (.cons tag typ rest) result =
      parseStructFrom v connector (i + 1) rest
        (tag.Keys.foldl (fun result k =>
          if typ.Kind = .Struct then
            (subEntries (v ++ [i]) typ).foldl
              (fun result kv => result.set (k ++ connector ++ kv.1) kv.2) result
          else if typ.Kind ∈ scalarKinds then
            result.set k ⟨⟨v ++ [i], typ.Kind⟩,
              decide ((GoMap.get? tag.Options tagOptionRequired).getD "" = "true"),
              (GoMap.get? tag.Options tagOptionDefault).getD ""⟩
          else result) result) := by
  cases typ <;> rfl


theorem parseStructFrom_nodup (v : List Nat) (connector : String) :
    ∀ (fs : Fields) (i : Nat) (acc : GoMap String envEntry),
      (GoMap.keys acc).Nodup → (GoMap.keys (parseStructFrom v connector i fs acc)).Nodup
  | .nil, i, acc, h => by
    rw [parseStructFrom_nil]
    exact h
  | .cons tag typ rest, i, acc, h => by
    rw [parseStructFrom_cons]
    apply parseStructFrom_nodup v connector rest
    apply foldl_inv (fun m => (GoMap.keys m).Nodup) _ _ _ h
    intro acc1 k _ hacc1
    split
    · apply foldl_inv (fun m => (GoMap.keys m).Nodup) _ _ _ hacc1
      intro acc2 kv _ hacc2
      exact GoMap.nodup_set _ _ _ hacc2
    · split
      · exact GoMap.nodup_set _ _ _ hacc1
      · exact hacc1

theorem Fields.leaf_nil (i : Nat) (p : List Nat) : Fields.leaf .nil i p = none := by
  rw [Fields.leaf]

theorem Fields.leaf_cons_nil (tag : Tag) (typ : Typ) (rest : Fields) (i : Nat) :
    Fields.leaf (.cons tag typ rest) i [] = none := by
  cases typ <;> rfl

theorem Fields.leaf_skip (tag : Tag) (typ : Typ) (rest : Fields) (i j : Nat) (q : List Nat)
    (h : j ≠ i) :
    Fields.leaf (.cons tag typ rest) i (j :: q) = Fields.leaf rest (i + 1) (j :: q) := by
  cases typ <;> simp [Fields.leaf, h]

theorem Fields.leaf_struct (tag : Tag) (inner rest : Fields) (i : Nat) (q : List Nat) :
    Fields.leaf (.cons tag (.Struct inner) rest) i (i :: q) = Fields.leaf inner 0 q := by
  simp [Fields.leaf, Typ.Kind]

theorem Fields.leaf_scalar (tag : Tag) (typ : Typ) (rest : Fields) (i : Nat)
    (h1 : typ.Kind ≠ .Struct)
    (h2 : typ.Kind ∈ scalarKinds) :
    Fields.leaf (.cons tag typ rest) i [i] =
      some (typ.Kind, decide ((GoMap.get? tag.Options tagOptionRequired).getD "" = "true"),
            (GoMap.get? tag.Options tagOptionDefault).getD "") := by
  cases typ <;> simp [Typ.Kind, scalarKinds] at h1 h2 <;>
    simp [Fields.leaf, Typ.Kind, scalarKinds]

theorem Fields.leaf_head : ∀ (fs : Fields) (i : Nat) (p : List Nat) (x : Kind × Bool × String),
    Fields.leaf fs i p = some x → ∃ j q, p = j :: q ∧ i ≤ j
  | .nil, i, p, x, h => by
    rw [Fields.leaf_nil] at h
    cases h
  | .cons tag typ rest, i, p, x, h => by
    cases p with
    | nil =>
      rw [Fields.leaf_cons_nil] at h
      cases h
    | cons j q =>
      by_cases hj : j = i
      · exact ⟨j, q, rfl, by omega⟩
      · rw [Fields.leaf_skip _ _ _ _ _ _ hj] at h
        obtain ⟨j', q', h1, h2⟩ := Fields.leaf_head rest (i + 1) (j :: q) x h
        exact ⟨j', q', h1, by omega⟩

/-- Every entry that `parseStruct` adds describes the scalar field stored at its address. -/
theorem parseStructFrom_leaf : ∀ (fs : Fields) (v : List Nat) (connector : String) (i : Nat)
    (acc : GoMap String envEntry) (ke : String × envEntry),
    ke ∈ parseStructFrom v connector i fs acc →
    ke ∈ acc ∨ ∃ p, ke.2.Value.addr = v ++ p ∧
      Fields.leaf fs i p = some (ke.2.Value.kind, ke.2.IsRequired, ke.2.Default)
  | .nil, v, connector, i, acc, ke, h => by
    rw [parseStructFrom_nil] at h
    exact Or.inl h
  | .cons tag typ rest, v, connector, i, acc, ke, h => by
    rw [parseStructFrom_cons] at h
    rcases parseStructFrom_leaf rest v connector (i + 1) _ ke h with h1 | ⟨p, hp1, hp2⟩
    · clear h
      revert h1 ke
      apply foldl_inv (fun m => ∀ ke : String × envEntry, ke ∈ m → ke ∈ acc ∨ ∃ p,
          ke.2.Value.addr = v ++ p ∧ Fields.leaf (.cons tag typ rest) i p =
            some (ke.2.Value.kind, ke.2.IsRequired, ke.2.Default))
      · intro ke hke
        exact Or.inl hke
      · intro acc1 key _ hacc1
        split
        · rename_i hkind
          apply foldl_inv (fun m => ∀ ke : String × envEntry, ke ∈ m → ke ∈ acc ∨ ∃ p,
            ke.2.Value.addr = v ++ p ∧ Fields.leaf (.cons tag typ rest) i p =
              some (ke.2.Value.kind, ke.2.IsRequired, ke.2.Default)) _ _ _ hacc1
          intro acc2 kv hkv hacc2 ke hke
          rcases GoMap.mem_set _ _ _ _ hke with h2 | h2
          · cases typ with
            | Struct inner =>
              rcases parseStructFrom_leaf inner (v ++ [i]) envKeyConnector 0 [] kv hkv with
                h3 | ⟨p, hp1, hp2⟩
              · simp at h3
              · refine Or.inr ⟨i :: p, ?_, ?_⟩
                · rw [h2]
                  simpa using hp1
                · rw [h2, Fields.leaf_struct]
                  exact hp2
            | _ => simp [Typ.Kind] at hkind
          · exact hacc2 ke h2
        · split
          · rename_i hns hkind
            intro ke hke
            rcases GoMap.mem_set _ _ _ _ hke with h2 | h2
            · refine Or.inr ⟨[i], ?_, ?_⟩
              · rw [h2]
              · rw [h2, Fields.leaf_scalar _ _ _ _ hns hkind]
            · exact hacc1 ke h2
          · exact hacc1
    · obtain ⟨j, q, hpq, hj⟩ := Fields.leaf_head rest (i + 1) p _ hp2
      refine Or.inr ⟨p, hp1, ?_⟩
      subst hpq
      rw [Fields.leaf_skip _ _ _ _ _ _ (by omega)]
      exact hp2

theorem parseStruct_nodup (v : List Nat) (fields : Fields) (connector : String) :
    (GoMap.keys (parseStruct v fields connector)).Nodup :=
  parseStructFrom_nodup v connector fields 0 [] (by simp [GoMap.keys])

theorem parseStruct_leaf (v : List Nat) (fields : Fields) (connector : String)
    (ke : String × envEntry) (h : ke ∈ parseStruct v fields connector) :
    ∃ p, ke.2.Value.addr = v ++ p ∧
      Fields.leaf fields 0 p = some (ke.2.Value.kind, ke.2.IsRequired, ke.2.Default) := by
  rcases parseStructFrom_leaf fields v connector 0 [] ke h with h1 | h1
  · simp at h1
  · exact h1

theorem envEntry.eq_of_fields (a b : envEntry) (h1 : a.Value.addr = b.Value.addr)
    (h2 : a.Value.kind = b.Value.kind) (h3 : a.IsRequired = b.IsRequired)
    (h4 : a.Default = b.Default) : a = b := by
  obtain ⟨⟨a1, k1⟩, r1, d1⟩ := a
  obtain ⟨⟨a2, k2⟩, r2, d2⟩ := b
  simp only at h1 h2 h3 h4
  subst h1 h2 h3 h4
  rfl

theorem parseStruct_addrInj (v : List Nat) (fields : Fields) (connector : String) :
    AddrInj (parseStruct v fields connector) := by
  intro p hp q hq hpq
  obtain ⟨p1, hp1, hp2⟩ := parseStruct_leaf v fields connector p hp
  obtain ⟨q1, hq1, hq2⟩ := parseStruct_leaf v fields connector q hq
  have h := hpq
  rw [hp1, hq1] at h
  have := List.append_cancel_left h
  subst this
  rw [hp2] at hq2
  simp only [Option.some.injEq, Prod.mk.injEq] at hq2
  exact envEntry.eq_of_fields _ _ hpq hq2.1 hq2.2.1 hq2.2.2

theorem Fields.leaf_kind : ∀ (fs : Fields) (i : Nat) (p : List Nat) (x : Kind × Bool × String),
    Fields.leaf fs i p = some x → x.1 ∈ scalarKinds
  | .nil, i, p, x, h => by
    rw [Fields.leaf_nil] at h
    cases h
  | .cons tag typ rest, i, p, x, h => by
    cases p with
    | nil =>
      rw [Fields.leaf_cons_nil] at h
      cases h
    | cons j q =>
      by_cases hj : j = i
      · subst hj
        cases typ with
        | Struct inner =>
          rw [Fields.leaf_struct] at h
          exact Fields.leaf_kind inner 0 q x h
        | _ =>
          simp [Fields.leaf, Typ.Kind, scalarKinds] at h
          try (rw [← h.2]; simp [scalarKinds])
      · rw [Fields.leaf_skip _ _ _ _ _ _ hj] at h
        exact Fields.leaf_kind rest (i + 1) (j :: q) x h

theorem parseStruct_scalar (v : List Nat) (fields : Fields) (connector : String)
    (ke : String × envEntry) (h : ke ∈ parseStruct v fields connector) :
    ke.2.Value.kind ∈ scalarKinds := by
  obtain ⟨p, _, hp⟩ := parseStruct_leaf v fields connector ke h
  exact Fields.leaf_kind fields 0 p _ hp

theorem AddrInj.sep {M L : List (String × envEntry)} (hM : AddrInj M) {k : String}
    {e : envEntry} (hmem : (k, e) ∈ M) (hsub : ∀ p ∈ L, p ∈ M) : Sep e L := by
  intro p hp hne hadd
  exact hne (hM p (hsub p hp) (k, e) hmem hadd)

/-! ## parseStruct and the qualified keys of the specification -/

theorem leafKeyPathsFrom_nil (v : List Nat) (i : Nat) : leafKeyPathsFrom v i .nil = [] := by
  rw [leafKeyPathsFrom]

theorem leafKeyPathsFrom_cons (v : List Nat) (i : Nat) (tag : Tag) (typ : Typ) (rest : Fields) :
    leafKeyPathsFrom v i (.cons tag typ rest) =
      tag.Keys.flatMap (fun k =>
        if typ.Kind = .Struct then (subPaths (v ++ [i]) typ).map (fun pe => (k :: pe.1, pe.2))
        else if typ.Kind ∈ scalarKinds then
          [([k], ⟨⟨v ++ [i], typ.Kind⟩,
            decide ((GoMap.get? tag.Options tagOptionRequired).getD "" = "true"),
            (GoMap.get? tag.Options tagOptionDefault).getD ""⟩)]
        else [])
      ++ leafKeyPathsFrom v (i + 1) rest := by
  cases typ <;> rfl

theorem leafKeyPathsFrom_ne_nil : ∀ (fs : Fields) (v : List Nat) (i : Nat)
    (pe : List String × envEntry), pe ∈ leafKeyPathsFrom v i fs → pe.1 ≠ []
  | .nil, v, i, pe, h => by
    rw [leafKeyPathsFrom_nil] at h
    cases h
  | .cons tag typ rest, v, i, pe, h => by
    rw [leafKeyPathsFrom_cons] at h
    rcases List.mem_append.1 h with h | h
    · obtain ⟨k, _, hk⟩ := List.mem_flatMap.1 h
      split at hk
      · obtain ⟨pe', _, hpe⟩ := List.mem_map.1 hk
        rw [← hpe]
        simp
      · split at hk
        · simp only [List.mem_singleton] at hk
          rw [hk]
          simp
        · cases hk
    · exact leafKeyPathsFrom_ne_nil rest v (i + 1) pe h

theorem joinKeys_cons (k : String) (path : List String) (h : path ≠ []) :
    joinKeys (k :: path) = k ++ envKeyConnector ++ joinKeys path := by
  cases path with
  | nil => exact absurd rfl h
  | cons a b =>
    rw [joinKeys]
    simp

theorem qualifiedKeysFrom_nil (v : List Nat) (i : Nat) : qualifiedKeysFrom v i .nil = [] := by
  rw [qualifiedKeysFrom, leafKeyPathsFrom_nil]
  rfl

theorem qualifiedKeysFrom_cons (v : List Nat) (i : Nat) (tag : Tag) (typ : Typ)
    (rest : Fields) :
    qualifiedKeysFrom v i (.cons tag typ rest) =
      tag.Keys.flatMap (keyShare v i tag typ) ++ qualifiedKeysFrom v (i + 1) rest := by
  rw [qualifiedKeysFrom, leafKeyPathsFrom_cons, List.map_append, List.map_flatMap]
  congr 1
  apply List.flatMap_congr
  intro k _
  unfold keyShare
  split
  · rename_i hs
    cases typ <;> simp [Typ.Kind] at hs
    rename_i inner
    simp only [subPaths, qualifiedKeysFrom, List.map_map]
    apply List.map_congr_left
    intro pe hpe
    simp only [Function.comp]
    rw [joinKeys_cons k pe.1 (leafKeyPathsFrom_ne_nil inner _ 0 pe hpe)]
  · split
    · simp [joinKeys]
    · simp

theorem GoMap.set_fresh {κ β : Type} [DecidableEq κ] (m : GoMap κ β) (k : κ) (v : β)
    (h : k ∉ GoMap.keys m) : GoMap.set m k v = m ++ [(k, v)] := by
  induction m with
  | nil => rfl
  | cons hd tl ih =>
    obtain ⟨k', v'⟩ := hd
    simp only [GoMap.keys, List.map_cons, List.mem_cons, not_or] at h
    have hne : k' ≠ k := fun hk => h.1 hk.symm
    simp only [GoMap.set, hne, if_false, List.cons_append, List.cons.injEq, true_and]
    exact ih h.2

theorem foldl_set_fresh (f : String → String) :
    ∀ (m acc : GoMap String envEntry),
      (GoMap.keys (acc ++ m.map (fun kv => (f kv.1, kv.2)))).Nodup →
      m.foldl (fun result kv => GoMap.set result (f kv.1) kv.2) acc =
        acc ++ m.map (fun kv => (f kv.1, kv.2)) := by
  intro m
  induction m with
  | nil => intro acc _; simp
  | cons hd tl ih =>
    intro acc h
    simp only [List.foldl_cons, List.map_cons]
    have hfresh : f hd.1 ∉ GoMap.keys acc := by
      simp only [GoMap.keys, List.map_append, List.map_cons] at h
      have := (List.nodup_append.1 h).2.2
      intro hmem
      exact this hmem (List.mem_cons_self _ _)
    rw [GoMap.set_fresh _ _ _ hfresh, ih]
    · simp
    · simpa using h

theorem foldl_shares (step : GoMap String envEntry → String → GoMap String envEntry)
    (g : String → List (String × envEntry)) :
    ∀ (ks : List String) (acc : GoMap String envEntry),
      (∀ k ∈ ks, ∀ r, (GoMap.keys (r ++ g k)).Nodup → step r k = r ++ g k) →
      (GoMap.keys (acc ++ ks.flatMap g)).Nodup →
      ks.foldl step acc = acc ++ ks.flatMap g := by
  intro ks
  induction ks with
  | nil => intro acc _ _; simp
  | cons k tl ih =>
    intro acc hstep h
    simp only [List.foldl_cons, List.flatMap_cons]
    simp only [List.flatMap_cons, ← List.append_assoc] at h
    have h1 : (GoMap.keys (acc ++ g k)).Nodup := by
      simp only [GoMap.keys, List.map_append] at h ⊢
      exact (List.nodup_append.1 h).1
    rw [hstep k (List.mem_cons_self _ _) acc h1, ih _ (fun k' hk' => hstep k' (List.mem_cons_of_mem _ hk')) h]
    simp

/-- Without key collisions the entry map that `parseStruct` builds lists exactly the
qualified keys of the specification. -/
theorem parseStructFrom_qualified : ∀ (fs : Fields) (v : List Nat) (i : Nat)
    (acc : GoMap String envEntry),
    (GoMap.keys (acc ++ qualifiedKeysFrom v i fs)).Nodup →
    parseStructFrom v envKeyConnector i fs acc = acc ++ qualifiedKeysFrom v i fs
  | .nil, v, i, acc, _ => by
    rw [parseStructFrom_nil, qualifiedKeysFrom_nil]
    simp
  | .cons tag typ rest, v, i, acc, h => by
    rw [qualifiedKeysFrom_cons, ← List.append_assoc] at h
    rw [parseStructFrom_cons, qualifiedKeysFrom_cons, ← List.append_assoc]
    have hk : (GoMap.keys (acc ++ tag.Keys.flatMap (keyShare v i tag typ))).Nodup := by
      simp only [GoMap.keys, List.map_append] at h ⊢
      exact (List.nodup_append.1 h).1
    rw [foldl_shares _ (keyShare v i tag typ) tag.Keys acc ?_ hk]
    · exact parseStructFrom_qualified rest v (i + 1) _ h
    · intro k _ r hr
      unfold keyShare at hr ⊢
      split
      · rename_i hs
        rw [if_pos hs] at hr
        cases typ <;> simp [Typ.Kind] at hs
        rename_i inner
        simp only at hr ⊢
        have hinner : (GoMap.keys ([] ++ qualifiedKeysFrom (v ++ [i]) 0 inner)).Nodup := by
          simp only [GoMap.keys, List.map_append, List.map_map, List.nil_append] at hr ⊢
          have h2 := (List.nodup_append.1 hr).2.1
          have h3 : (List.map (fun s => k ++ envKeyConnector ++ s)
              (List.map Prod.fst (qualifiedKeysFrom (v ++ [i]) 0 inner))).Nodup := by
            simpa [List.map_map, Function.comp] using h2
          exact List.Nodup.of_map _ h3
        have hsub : subEntries (v ++ [i]) (.Struct inner) =
            qualifiedKeysFrom (v ++ [i]) 0 inner := by
          have := parseStructFrom_qualified inner (v ++ [i]) 0 [] hinner
          simpa [subEntries] using this
        rw [hsub]
        exact foldl_set_fresh (fun s => k ++ envKeyConnector ++ s) _ r hr
      · rename_i hs
        rw [if_neg hs] at hr
        split
        · rename_i hsc
          rw [if_pos hsc] at hr
          apply GoMap.set_fresh
          simp only [GoMap.keys, List.map_append, List.map_cons, List.map_nil] at hr
          intro hmem
          exact (List.nodup_append.1 hr).2.2 hmem (List.mem_singleton_self _)
        · simp

/-! ## prioUnmarshal and UnmarshalMap -/

theorem prioUnmarshal_cases (host : Host) (order1 order2 : List (String × envEntry))
    (envMap cfgMap : GoMap String String) (σ : Store) :
    (∃ err σ1 pm1, primaryPass host envMap cfgMap order1 σ [] = (some err, σ1, pm1) ∧
      prioUnmarshal host order1 order2 envMap cfgMap σ = (some err, σ1)) ∨
    (∃ σ1 pm1 r σ2 pm2, primaryPass host envMap cfgMap order1 σ [] = (none, σ1, pm1) ∧
      fallbackPass host order2 σ1 pm1 = (r, σ2, pm2) ∧
      prioUnmarshal host order1 order2 envMap cfgMap σ = (r, σ2)) := by
  unfold prioUnmarshal
  rcases hp : primaryPass host envMap cfgMap order1 σ [] with ⟨r1, σ1, pm1⟩
  cases r1 with
  | some err => exact Or.inl ⟨err, σ1, pm1, rfl, rfl⟩
  | none =>
    rcases hf : fallbackPass host order2 σ1 pm1 with ⟨r, σ2, pm2⟩
    exact Or.inr ⟨σ1, pm1, r, σ2, pm2, rfl, by simp [hf], by simp [hf]⟩

theorem UnmarshalMap_struct (host : Host)
    (range1 range2 : GoMap String envEntry → List (String × envEntry))
    (envMap : GoMap String String) (fields : Fields) (paths : List String) (σ : Store)
    (cfgMap : GoMap String String) (hcfg : parseCfgFiles host paths = .ok cfgMap) :
    UnmarshalMap host range1 range2 envMap (.value (.Ptr (.Struct fields)) false) paths σ =
      (match (prioUnmarshal host (range1 (parseStruct [] fields envKeyConnector))
          (range2 (parseStruct [] fields envKeyConnector)) envMap cfgMap σ).1 with
        | some err => .returns (some (.Wrap err "unmarshalling aggregated values"))
        | none => .returns none,
       (prioUnmarshal host (range1 (parseStruct [] fields envKeyConnector))
          (range2 (parseStruct [] fields envKeyConnector)) envMap cfgMap σ).2) := by
  simp only [UnmarshalMap, hcfg]
  rcases prioUnmarshal host (range1 (parseStruct [] fields envKeyConnector))
      (range2 (parseStruct [] fields envKeyConnector)) envMap cfgMap σ with ⟨r, σ1⟩
  cases r <;> rfl

/-- Once the first loop has finished, a field one of whose keys is in the environment map
holds the coerced environment value of such a key, whatever the second loop does. -/
theorem prio_env (host : Host) (M order1 order2 : List (String × envEntry))
    (envMap cfgMap : GoMap String String) (σ σ1 σ2 : Store) (pm1 pm2 : GoMap envEntry Bool)
    (r : Option Err) (hM : AddrInj M) (h1 : order1.Perm M) (h2 : order2.Perm M)
    (hp : primaryPass host envMap cfgMap order1 σ [] = (none, σ1, pm1))
    (hf : fallbackPass host order2 σ1 pm1 = (r, σ2, pm2))
    (k : String) (e : envEntry) (v : String) (hmem : (k, e) ∈ M)
    (henv : envMap.get? k = some v) :
    ∃ k' v', (k', e) ∈ M ∧ envMap.get? k' = some v' ∧
      coerce host e.Value.kind v' = some (σ2 e.Value.addr) := by
  have hs1 : Sep e order1 := hM.sep hmem (fun p hp => h1.mem_iff.1 hp)
  have hs2 : Sep e order2 := hM.sep hmem (fun p hp => h2.mem_iff.1 hp)
  obtain ⟨k', v', hk', hv', hc, hpm⟩ := primaryPass_env host envMap cfgMap e order1 σ [] σ1 pm1
    hp hs1 ⟨k, v, h1.mem_iff.2 hmem, henv⟩
  have hfr := fallbackPass_frame host e order2 σ1 pm1 r σ2 pm2 hf hs2
    (fun _ => Or.inl (by rw [hpm]; simp))
  exact ⟨k', v', h1.mem_iff.1 hk', hv', by rw [hfr.1]; exact hc⟩

/-- Once the first loop has finished, a field none of whose keys is in the environment map
and one of whose keys is in the file map holds the coerced file value of such a key. -/
theorem prio_cfg (host : Host) (M order1 order2 : List (String × envEntry))
    (envMap cfgMap : GoMap String String) (σ σ1 σ2 : Store) (pm1 pm2 : GoMap envEntry Bool)
    (r : Option Err) (hM : AddrInj M) (h1 : order1.Perm M) (h2 : order2.Perm M)
    (hp : primaryPass host envMap cfgMap order1 σ [] = (none, σ1, pm1))
    (hf : fallbackPass host order2 σ1 pm1 = (r, σ2, pm2))
    (k : String) (e : envEntry) (v : String) (hmem : (k, e) ∈ M)
    (henv : ∀ k', (k', e) ∈ M → envMap.get? k' = none)
    (hcfg : cfgMap.get? k = some v) :
    ∃ k' v', (k', e) ∈ M ∧ cfgMap.get? k' = some v' ∧
      coerce host e.Value.kind v' = some (σ2 e.Value.addr) := by
  have hs1 : Sep e order1 := hM.sep hmem (fun p hp => h1.mem_iff.1 hp)
  have hs2 : Sep e order2 := hM.sep hmem (fun p hp => h2.mem_iff.1 hp)
  obtain ⟨k', v', hk', hv', hc, hpm⟩ := primaryPass_cfg host envMap cfgMap e order1 σ [] σ1 pm1
    hp hs1 (fun k' hk' => henv k' (h1.mem_iff.1 hk')) (by simp [GoMap.get?])
    ⟨k, v, h1.mem_iff.2 hmem, hcfg⟩
  have hfr := fallbackPass_frame host e order2 σ1 pm1 r σ2 pm2 hf hs2
    (fun _ => Or.inl (by rw [hpm]; simp))
  exact ⟨k', v', h1.mem_iff.1 hk', hv', by rw [hfr.1]; exact hc⟩

/-- A field none of whose keys is in either map is untouched by the first loop and is not
marked in `prioMap`. -/
theorem prio_absent (host : Host) (M order1 : List (String × envEntry))
    (envMap cfgMap : GoMap String String) (σ σ1 : Store) (pm1 : GoMap envEntry Bool)
    (r : Option Err) (hM : AddrInj M) (h1 : order1.Perm M)
    (hp : primaryPass host envMap cfgMap order1 σ [] = (r, σ1, pm1))
    (k : String) (e : envEntry) (hmem : (k, e) ∈ M)
    (habs : ∀ k', (k', e) ∈ M → envMap.get? k' = none ∧ cfgMap.get? k' = none) :
    σ1 e.Value.addr = σ e.Value.addr ∧ pm1.get? e = none := by
  have hs1 : Sep e order1 := hM.sep hmem (fun p hp => h1.mem_iff.1 hp)
  have := primaryPass_frame host envMap cfgMap e order1 σ [] r σ1 pm1 hp hs1
    (fun k' v hk' hv => by
      have := habs k' (h1.mem_iff.1 hk')
      rcases hv with hv | ⟨_, hv, _⟩
      · rw [this.1] at hv
        cases hv
      · rw [this.2] at hv
        cases hv)
  exact ⟨this.1, by rw [this.2]; simp [GoMap.get?]⟩

/-- After a successful call, a field none of whose keys is in either map holds its coerced
default if it has one, and its old value otherwise. -/
theorem prio_default (host : Host) (M order1 order2 : List (String × envEntry))
    (envMap cfgMap : GoMap String String) (σ σ1 σ2 : Store) (pm1 pm2 : GoMap envEntry Bool)
    (hM : AddrInj M) (h1 : order1.Perm M) (h2 : order2.Perm M)
    (hp : primaryPass host envMap cfgMap order1 σ [] = (none, σ1, pm1))
    (hf : fallbackPass host order2 σ1 pm1 = (none, σ2, pm2))
    (k : String) (e : envEntry) (hmem : (k, e) ∈ M)
    (habs : ∀ k', (k', e) ∈ M → envMap.get? k' = none ∧ cfgMap.get? k' = none) :
    (e.Default ≠ "" → coerce host e.Value.kind e.Default = some (σ2 e.Value.addr)) ∧
    (e.Default = "" → σ2 e.Value.addr = σ e.Value.addr) := by
  have hs2 : Sep e order2 := hM.sep hmem (fun p hp => h2.mem_iff.1 hp)
  obtain ⟨ha1, ha2⟩ := prio_absent host M order1 envMap cfgMap σ σ1 pm1 none hM h1 hp k e hmem habs
  constructor
  · intro hd
    exact fallbackPass_default host e order2 σ1 pm1 σ2 pm2 hf hs2 ⟨k, h2.mem_iff.2 hmem⟩ ha2 hd
  · intro hd
    have := fallbackPass_frame host e order2 σ1 pm1 none σ2 pm2 hf hs2
      (fun _ => Or.inr (Or.inr (Or.inl hd)))
    rw [this.1, ha1]

/-- The errors of the first loop and the default-coercion errors of the second loop are
not `RequiredKeyNotPresent` errors. -/
theorem setVal_err_cause (host : Host) (v : Value) (str : String) (σ σ' : Store) (err : Err)
    (msg : String) (h : setVal host v str σ = (some err, σ')) :
    (∃ f n c, Cause (.Wrap err msg) = .NumError f n c) ∨
    (Cause (.Wrap err msg) = .UnsupportedFieldTypeError v.kind ∧ v.kind ∉ scalarKinds) := by
  rcases setVal_err host v str σ σ' err h with ⟨f, c, m, he⟩ | ⟨he, hk⟩
  · subst he
    exact Or.inl ⟨f, str, c, by simp [Cause]⟩
  · subst he
    exact Or.inr ⟨by simp [Cause], hk⟩

theorem PrimaryFail.primaryCause {host : Host} {envMap cfgMap : GoMap String String} {k : String}
    {e : envEntry} {σ : Store} {pm : GoMap envEntry Bool} {err : Err}
    (h : PrimaryFail host envMap cfgMap k e σ pm err) :
    (∃ f n c, Cause err = .NumError f n c) ∨
    (Cause err = .UnsupportedFieldTypeError e.Value.kind ∧ e.Value.kind ∉ scalarKinds) := by
  rcases h with ⟨v, err0, _, _, hs, he⟩ | ⟨v, err0, _, _, _, _, hs, he⟩
  · rw [he]
    exact setVal_err_cause host _ _ _ _ _ _ hs
  · rw [he]
    exact setVal_err_cause host _ _ _ _ _ _ hs

theorem FallbackFail.fallbackCause {host : Host} {k : String}
    {e : envEntry} {σ : Store} {pm : GoMap envEntry Bool} {err : Err}
    (h : FallbackFail host k e σ pm err) :
    (e.IsRequired = true ∧ err = .RequiredKeyNotPresentError [k]) ∨
    (∃ f n c, Cause err = .NumError f n c) ∨
    (Cause err = .UnsupportedFieldTypeError e.Value.kind ∧ e.Value.kind ∉ scalarKinds) := by
  rcases h with ⟨_, ⟨hr, he⟩ | ⟨err0, _, _, _, hs, he⟩⟩
  · exact Or.inl ⟨hr, he⟩
  · rw [he]
    exact Or.inr (setVal_err_cause host _ _ _ _ _ _ hs)

/-- When `prioUnmarshal` returns nil or a `RequiredKeyNotPresent` error, its first loop
has run to the end. -/
theorem prioUnmarshal_primary_done (host : Host) (order1 order2 : List (String × envEntry))
    (envMap cfgMap : GoMap String String) (σ : Store)
    (h : (prioUnmarshal host order1 order2 envMap cfgMap σ).1 = none ∨
      IsRequiredKeyNotPresentError (prioUnmarshal host order1 order2 envMap cfgMap σ).1 = true) :
    ∃ σ1 pm1 pm2, primaryPass host envMap cfgMap order1 σ [] = (none, σ1, pm1) ∧
      fallbackPass host order2 σ1 pm1 = ((prioUnmarshal host order1 order2 envMap cfgMap σ).1,
        (prioUnmarshal host order1 order2 envMap cfgMap σ).2, pm2) := by
  rcases prioUnmarshal_cases host order1 order2 envMap cfgMap σ with
    ⟨err, σ1, pm1, hp, hr⟩ | ⟨σ1, pm1, r, σ2, pm2, hp, hf, hr⟩
  · exfalso
    rw [hr] at h
    obtain ⟨pre, k, e, post, σx, pmx, _, _, hfail, _, _⟩ :=
      primaryPass_err host envMap cfgMap order1 σ [] err σ1 pm1 hp
    rcases h with h | h
    · cases h
    · simp only [IsRequiredKeyNotPresentError] at h
      rcases hfail.primaryCause with ⟨f, n, c, hc⟩ | ⟨hc, _⟩
      · rw [hc] at h
        cases h
      · rw [hc] at h
        cases h
  · rw [hr]
    exact ⟨σ1, pm1, pm2, hp, hf⟩

theorem GoMap.unique_of_nodup {κ β : Type} (m : GoMap κ β) (h : (GoMap.keys m).Nodup)
    (k : κ) (a b : β) (ha : (k, a) ∈ m) (hb : (k, b) ∈ m) : a = b := by
  induction m with
  | nil => simp at ha
  | cons hd tl ih =>
    simp only [GoMap.keys, List.map_cons, List.nodup_cons] at h
    rcases List.mem_cons.1 ha with ha | ha <;> rcases List.mem_cons.1 hb with hb | hb
    · rw [← ha] at hb
      simp only [Prod.mk.injEq, true_and] at hb
      exact hb.symm
    · exact absurd (List.mem_map.2 ⟨(k, b), hb, by rw [← ha]⟩) h.1
    · exact absurd (List.mem_map.2 ⟨(k, a), ha, by rw [← hb]⟩) h.1
    · exact ih h.2 ha hb

theorem perm_keys_nodup {M L : List (String × envEntry)} (hM : (GoMap.keys M).Nodup)
    (hL : L.Perm M) : (GoMap.keys L).Nodup :=
  ((hL.map Prod.fst).nodup_iff).2 hM

/-- What `UnmarshalMap` returns on a pointer to a struct when the files parse. -/
theorem UnmarshalMap_result (host : Host)
    (range1 range2 : GoMap String envEntry → List (String × envEntry))
    (envMap : GoMap String String) (fields : Fields) (paths : List String) (σ : Store)
    (cfgMap : GoMap String String) (hcfg : parseCfgFiles host paths = .ok cfgMap) :
    (UnmarshalMap host range1 range2 envMap (ptrTo fields) paths σ).2 =
      (prioUnmarshal host (range1 (parseStruct [] fields envKeyConnector))
          (range2 (parseStruct [] fields envKeyConnector)) envMap cfgMap σ).2 ∧
    ((UnmarshalMap host range1 range2 envMap (ptrTo fields) paths σ).1 = .returns none →
      (prioUnmarshal host (range1 (parseStruct [] fields envKeyConnector))
          (range2 (parseStruct [] fields envKeyConnector)) envMap cfgMap σ).1 = none) ∧
    (∀ err, (UnmarshalMap host range1 range2 envMap (ptrTo fields) paths σ).1 =
        .returns (some err) →
      ∃ err1, (prioUnmarshal host (range1 (parseStruct [] fields envKeyConnector))
          (range2 (parseStruct [] fields envKeyConnector)) envMap cfgMap σ).1 = some err1 ∧
        err = .Wrap err1 "unmarshalling aggregated values") ∧
    (∀ err1, (prioUnmarshal host (range1 (parseStruct [] fields envKeyConnector))
          (range2 (parseStruct [] fields envKeyConnector)) envMap cfgMap σ).1 = some err1 →
      (UnmarshalMap host range1 range2 envMap (ptrTo fields) paths σ).1 =
        .returns (some (.Wrap err1 "unmarshalling aggregated values"))) := by
  rw [ptrTo, UnmarshalMap_struct host range1 range2 envMap fields paths σ cfgMap hcfg]
  refine ⟨rfl, ?_, ?_, ?_⟩
  · intro h
    cases hr : (prioUnmarshal host (range1 (parseStruct [] fields envKeyConnector))
          (range2 (parseStruct [] fields envKeyConnector)) envMap cfgMap σ).1 with
    | none => rfl
    | some e =>
      rw [hr] at h
      simp at h
  · intro err h
    cases hr : (prioUnmarshal host (range1 (parseStruct [] fields envKeyConnector))
          (range2 (parseStruct [] fields envKeyConnector)) envMap cfgMap σ).1 with
    | none =>
      rw [hr] at h
      simp at h
    | some e =>
      rw [hr] at h
      simp only [Outcome.returns.injEq, Option.some.injEq] at h
      exact ⟨e, rfl, h.symm⟩
  · intro err1 h
    rw [h]

/-- The error `prioUnmarshal` returns is a parse error of `strconv` raised for a
registered entry, an unsupported-type error for an entry of a non-scalar kind, or a
`RequiredKeyNotPresent` error naming the key of a required entry. -/
theorem prioUnmarshal_err (host : Host) (order1 order2 : List (String × envEntry))
    (envMap cfgMap : GoMap String String) (σ : Store) (err : Err)
    (h : (prioUnmarshal host order1 order2 envMap cfgMap σ).1 = some err) :
    IsCoercionError err ∨
    (∃ p, (p ∈ order1 ∨ p ∈ order2) ∧ p.2.Value.kind ∉ scalarKinds) ∨
    (∃ k e, (k, e) ∈ order2 ∧ e.IsRequired = true ∧ err = .RequiredKeyNotPresentError [k]) := by
  rcases prioUnmarshal_cases host order1 order2 envMap cfgMap σ with
    ⟨err1, σ1, pm1, hp, hr⟩ | ⟨σ1, pm1, r, σ2, pm2, hp, hf, hr⟩
  · rw [hr] at h
    simp only [Option.some.injEq] at h
    subst h
    obtain ⟨pre, k, e, post, σx, pmx, hL, _, hfail, _, _⟩ :=
      primaryPass_err host envMap cfgMap order1 σ [] err1 σ1 pm1 hp
    rcases hfail.primaryCause with hc | ⟨_, hk⟩
    · exact Or.inl hc
    · exact Or.inr (Or.inl ⟨(k, e), Or.inl (by rw [hL]; simp), hk⟩)
  · rw [hr] at h
    simp only at h
    subst h
    obtain ⟨pre, k, e, post, σx, pmx, hL, _, hfail, _, _⟩ :=
      fallbackPass_err host order2 σ1 pm1 err σ2 pm2 hf
    rcases hfail.fallbackCause with ⟨hq, he⟩ | hc | ⟨_, hk⟩
    · exact Or.inr (Or.inr ⟨k, e, by rw [hL]; simp, hq, he⟩)
    · exact Or.inl hc
    · exact Or.inr (Or.inl ⟨(k, e), Or.inr (by rw [hL]; simp), hk⟩)

/-- On the entry map of a struct, `prioUnmarshal` returns parse errors and
`RequiredKeyNotPresent` errors only. -/
theorem prioUnmarshal_err_struct (host : Host) (fields : Fields)
    (order1 order2 : List (String × envEntry))
    (h1 : order1.Perm (parseStruct [] fields envKeyConnector))
    (h2 : order2.Perm (parseStruct [] fields envKeyConnector))
    (envMap cfgMap : GoMap String String) (σ : Store) (err : Err)
    (h : (prioUnmarshal host order1 order2 envMap cfgMap σ).1 = some err) :
    IsCoercionError err ∨
    (∃ k e, (k, e) ∈ parseStruct [] fields envKeyConnector ∧ e.IsRequired = true ∧
      err = .RequiredKeyNotPresentError [k]) := by
  rcases prioUnmarshal_err host order1 order2 envMap cfgMap σ err h with
    hc | ⟨p, hp, hk⟩ | ⟨k, e, hm, hq, he⟩
  · exact Or.inl hc
  · have hmem : p ∈ parseStruct [] fields envKeyConnector := by
      rcases hp with hp | hp
      · exact h1.mem_iff.1 hp
      · exact h2.mem_iff.1 hp
    exact absurd (parseStruct_scalar [] fields envKeyConnector p hmem) hk
  · exact Or.inr ⟨k, e, h2.mem_iff.1 hm, hq, he⟩

/-! ## The target check and the errors of UnmarshalMap -/

/-- Every other target that is not a non-nil pointer to a struct is rejected with a
`TargetNotPtrToStruct` error that carries its type; the memory is untouched and the result
does not depend on the host, so no file is read. -/
theorem UnmarshalMap_rejects (host : Host)
    (range1 range2 : GoMap String envEntry → List (String × envEntry))
    (envMap : GoMap String String) (t : Typ) (isNil : Bool) (paths : List String) (σ : Store)
    (h : isNil = true ∨ ∀ fields, t ≠ .Ptr (.Struct fields)) :
    UnmarshalMap host range1 range2 envMap (.value t isNil) paths σ =
      (.returns (some (NewTargetNotPtrToStructError t)), σ) := by
  unfold UnmarshalMap
  split
  · rename_i heq
    cases heq
  · rename_i fields heq
    cases heq
    rcases h with h | h
    · cases h
    · exact absurd rfl (h fields)
  · rename_i t' b heq
    cases heq
    rfl

theorem readCfgFile_err (host : Host) (path : String) (err : Err)
    (h : readCfgFile host path = .error err) : ∃ msg, Cause err = .HostError msg := by
  unfold readCfgFile at h
  split at h
  · cases h
    exact ⟨_, rfl⟩
  · split at h
    · cases h
      exact ⟨_, rfl⟩
    · cases h

theorem parseCfgFile_err (host : Host) (path : String) (err : Err)
    (h : parseCfgFile host path = .error err) : ∃ msg, Cause err = .HostError msg := by
  unfold parseCfgFile at h
  split at h
  · rename_i e he
    cases h
    obtain ⟨msg, hm⟩ := readCfgFile_err host path e he
    exact ⟨msg, by rw [Cause_wrap, hm]⟩
  · cases h

theorem parseCfgFilesFrom_err (host : Host) :
    ∀ (paths : List String) (result : GoMap String String) (err : Err),
      parseCfgFilesFrom host paths result = .error err → ∃ msg, Cause err = .HostError msg := by
  intro paths
  induction paths with
  | nil =>
    intro result err h
    simp [parseCfgFilesFrom] at h
  | cons path rest ih =>
    intro result err h
    simp only [parseCfgFilesFrom] at h
    split at h
    · rename_i e he
      cases h
      obtain ⟨msg, hm⟩ := parseCfgFile_err host path e he
      exact ⟨msg, by rw [Cause_wrap, hm]⟩
    · exact ih _ err h

/-- For a non-nil pointer to a struct `UnmarshalMap` returns, and what it returns is never
a `TargetNotPtrToStruct` error nor an `UnsupportedFieldType` error. -/
theorem UnmarshalMap_accepts (host : Host)
    (range1 range2 : GoMap String envEntry → List (String × envEntry))
    (hr1 : ∀ m, (range1 m).Perm m) (hr2 : ∀ m, (range2 m).Perm m)
    (envMap : GoMap String String) (fields : Fields) (paths : List String) (σ : Store) :
    ∃ r, (UnmarshalMap host range1 range2 envMap (ptrTo fields) paths σ).1 = .returns r ∧
      IsTargetNotPtrToStructError r = false ∧ IsUnsupportedFieldTypeError r = false := by
  cases hcfg : parseCfgFiles host paths with
  | error err =>
    obtain ⟨msg, hm⟩ := parseCfgFilesFrom_err host paths [] err hcfg
    refine ⟨some (.Wrap err "parsing cfg files"), by simp [ptrTo, UnmarshalMap, hcfg], ?_, ?_⟩
    · simp [IsTargetNotPtrToStructError, Cause_wrap, hm]
    · simp [IsUnsupportedFieldTypeError, Cause_wrap, hm]
  | ok cfgMap =>
    obtain ⟨_, _, _, hUerr⟩ :=
      UnmarshalMap_result host range1 range2 envMap fields paths σ cfgMap hcfg
    cases hp : (prioUnmarshal host (range1 (parseStruct [] fields envKeyConnector))
          (range2 (parseStruct [] fields envKeyConnector)) envMap cfgMap σ).1 with
    | none =>
      refine ⟨none, ?_, rfl, rfl⟩
      rw [ptrTo, UnmarshalMap_struct host range1 range2 envMap fields paths σ cfgMap hcfg, hp]
    | some err1 =>
      refine ⟨_, hUerr err1 hp, ?_, ?_⟩
      · rcases prioUnmarshal_err_struct host fields _ _ (hr1 _) (hr2 _) envMap cfgMap σ err1 hp
          with ⟨f, n, c, hc⟩ | ⟨k, e, _, _, he⟩
        · simp [IsTargetNotPtrToStructError, Cause_wrap, hc]
        · simp [IsTargetNotPtrToStructError, Cause_wrap, he, Cause]
      · rcases prioUnmarshal_err_struct host fields _ _ (hr1 _) (hr2 _) envMap cfgMap σ err1 hp
          with ⟨f, n, c, hc⟩ | ⟨k, e, _, _, he⟩
        · simp [IsUnsupportedFieldTypeError, Cause_wrap, hc]
        · simp [IsUnsupportedFieldTypeError, Cause_wrap, he, Cause]

/-- In an entry map where every field has one key, two entries at the same address are the
same pair. -/
theorem one_key_same (fields : Fields)
    (hone : ∀ p ∈ parseStruct [] fields envKeyConnector,
      ∀ q ∈ parseStruct [] fields envKeyConnector,
        p.2.Value.addr = q.2.Value.addr → p.1 = q.1)
    (K K' : String) (e : envEntry) (hK : (K, e) ∈ parseStruct [] fields envKeyConnector)
    (hK' : (K', e) ∈ parseStruct [] fields envKeyConnector) : K' = K :=
  hone (K', e) hK' (K, e) hK rfl

/-! ## flattenMap and the flat keys of the specification -/

theorem GoMap.get?_iff_mem {κ β : Type} [DecidableEq κ] (m : GoMap κ β)
    (h : (GoMap.keys m).Nodup) (k : κ) (v : β) :
    GoMap.get? m k = some v ↔ (k, v) ∈ m := by
  induction m with
  | nil => simp [GoMap.get?]
  | cons hd tl ih =>
    obtain ⟨k1, v1⟩ := hd
    simp only [GoMap.keys, List.map_cons, List.nodup_cons] at h
    by_cases hk : k1 = k
    · subst hk
      simp only [GoMap.get?, if_true, Option.some.injEq, List.mem_cons, Prod.mk.injEq,
        true_and]
      constructor
      · intro hv
        exact Or.inl hv.symm
      · rintro (hv | hmem)
        · exact hv.symm
        · exact absurd (List.mem_map.2 ⟨(k1, v), hmem, rfl⟩) h.1
    · simp only [GoMap.get?, hk, if_false, List.mem_cons, Prod.mk.injEq]
      rw [ih h.2]
      constructor
      · intro hmem
        exact Or.inr hmem
      · rintro (⟨hk2, _⟩ | hmem)
        · exact absurd hk2.symm hk
        · exact hmem

theorem flattenMapFrom_nil (host : Host) (connector : String) (flatMap : GoMap String String) :
    flattenMapFrom host connector .nil flatMap = flatMap := by
  rw [flattenMapFrom]

theorem flattenMapFrom_cons (host : Host) (connector : String) (k : String) (v : Iface)
    (rest : IfaceMap) (flatMap : GoMap String String) :
    flattenMapFrom host connector (.cons k v rest) flatMap =
      flattenMapFrom host connector rest (flattenStep host connector k v flatMap) := by
  cases v <;> rfl

theorem leafPathsOf_nil (host : Host) : leafPathsOf host .nil = [] := by
  rw [leafPathsOf]

theorem leafPathsOf_cons (host : Host) (k : String) (v : Iface) (rest : IfaceMap) :
    leafPathsOf host (.cons k v rest) = entryPaths host k v ++ leafPathsOf host rest := by
  cases v <;> rfl

theorem leafPathsOf_ne_nil (host : Host) : ∀ (m : IfaceMap) (ps : List String × String),
    ps ∈ leafPathsOf host m → ps.1 ≠ []
  | .nil, ps, h => by
    rw [leafPathsOf_nil] at h
    cases h
  | .cons k v rest, ps, h => by
    rw [leafPathsOf_cons] at h
    rcases List.mem_append.1 h with h | h
    · cases v <;> simp [entryPaths] at h
      all_goals first
        | (rw [h]; simp)
        | (obtain ⟨a, b, _, hab⟩ := h
           rw [← hab]
           simp)
    · exact leafPathsOf_ne_nil host rest ps h

theorem flatKeysOf_nil (host : Host) : flatKeysOf host .nil = [] := by
  rw [flatKeysOf, leafPathsOf_nil]
  rfl

theorem FormatInt_decimal (i : Int) : strconv.FormatInt i = decimal i := by
  cases i with
  | ofNat n => rfl
  | negSucc n =>
    have h : Int.negSucc n < 0 := Int.negSucc_lt_zero n
    simp only [strconv.FormatInt, decimal, h, if_true]
    rfl

theorem flatKeysOf_cons (host : Host) (k : String) (v : Iface) (rest : IfaceMap) :
    flatKeysOf host (.cons k v rest) = entryShare host k v ++ flatKeysOf host rest := by
  rw [flatKeysOf, leafPathsOf_cons, List.map_append]
  congr 1
  cases v <;> simp [entryShare, entryPaths, joinKeys]
  rename_i m
  simp only [flatKeysOf, List.map_map]
  apply List.map_congr_left
  intro ps hps
  simp only [Function.comp]
  rw [joinKeys_cons k ps.1 (leafPathsOf_ne_nil host m ps hps)]

theorem GoMap.foldl_set_append {β : Type} (f : String → String) :
    ∀ (m acc : GoMap String β),
      (GoMap.keys (acc ++ m.map (fun kv => (f kv.1, kv.2)))).Nodup →
      m.foldl (fun result kv => GoMap.set result (f kv.1) kv.2) acc =
        acc ++ m.map (fun kv => (f kv.1, kv.2)) := by
  intro m
  induction m with
  | nil => intro acc _; simp
  | cons hd tl ih =>
    intro acc h
    simp only [List.foldl_cons, List.map_cons]
    have hfresh : f hd.1 ∉ GoMap.keys acc := by
      simp only [GoMap.keys, List.map_append, List.map_cons] at h
      have := (List.nodup_append.1 h).2.2
      intro hmem
      exact this hmem (List.mem_cons_self _ _)
    rw [GoMap.set_fresh _ _ _ hfresh, ih]
    · simp
    · simpa using h

/-- Without colliding flat keys `flattenMap` lists exactly the flat keys of the
specification. -/
theorem flattenMapFrom_flat (host : Host) : ∀ (m : IfaceMap) (acc : GoMap String String),
    (GoMap.keys (acc ++ flatKeysOf host m)).Nodup →
    flattenMapFrom host envKeyConnector m acc = acc ++ flatKeysOf host m
  | .nil, acc, _ => by
    rw [flattenMapFrom_nil, flatKeysOf_nil]
    simp
  | .cons k v rest, acc, h => by
    rw [flatKeysOf_cons, ← List.append_assoc] at h
    rw [flatKeysOf_cons, ← List.append_assoc, flattenMapFrom_cons]
    have hk : (GoMap.keys (acc ++ entryShare host k v)).Nodup := by
      simp only [GoMap.keys, List.map_append] at h ⊢
      exact (List.nodup_append.1 h).1
    have hstep : flattenStep host envKeyConnector k v acc = acc ++ entryShare host k v := by
      have hfresh : ∀ s, entryShare host k v = [(k, s)] →
          GoMap.set acc k s = acc ++ [(k, s)] := by
        intro s hs
        apply GoMap.set_fresh
        rw [hs] at hk
        simp only [GoMap.keys, List.map_append, List.map_cons, List.map_nil] at hk
        intro hmem
        exact (List.nodup_append.1 hk).2.2 hmem (List.mem_singleton_self _)
      cases v with
      | map m =>
        have hinner : (GoMap.keys ([] ++ flatKeysOf host m)).Nodup := by
          simp only [entryShare, GoMap.keys, List.map_append, List.map_map,
            List.nil_append] at hk ⊢
          have h2 := (List.nodup_append.1 hk).2.1
          have h3 : (List.map (fun s => k ++ envKeyConnector ++ s)
              (List.map Prod.fst (flatKeysOf host m))).Nodup := by
            simpa [List.map_map, Function.comp] using h2
          exact List.Nodup.of_map _ h3
        have hsub := flattenMapFrom_flat host m [] hinner
        simp only [List.nil_append] at hsub
        simp only [flattenStep, entryShare]
        rw [hsub]
        exact GoMap.foldl_set_append (fun s => k ++ envKeyConnector ++ s) _ acc hk
      | bool b => exact hfresh _ rfl
      | int64 i =>
        show GoMap.set acc k (strconv.FormatInt i) = _
        rw [FormatInt_decimal]
        exact hfresh _ rfl
      | float64 f => exact hfresh _ rfl
      | string s => exact hfresh _ rfl
      | nil => simp [flattenStep, entryShare]
      | slice => simp [flattenStep, entryShare]
      | other => simp [flattenStep, entryShare]
    rw [hstep]
    exact flattenMapFrom_flat host rest _ h

/-! ## parseCfgFiles: later files overwrite earlier ones -/

theorem GoMap.get?_of_not_mem {κ β : Type} [DecidableEq κ] (m : GoMap κ β) (k : κ)
    (h : k ∉ GoMap.keys m) : GoMap.get? m k = none := by
  induction m with
  | nil => rfl
  | cons hd tl ih =>
    obtain ⟨k1, v1⟩ := hd
    simp only [GoMap.keys, List.map_cons, List.mem_cons, not_or] at h
    have hne : ¬ k1 = k := fun hk => h.1 hk.symm
    simp only [GoMap.get?, hne, if_false]
    exact ih h.2

theorem GoMap.mem_keys_iff {κ β : Type} [DecidableEq κ] (m : GoMap κ β) (k : κ) :
    k ∈ GoMap.keys m ↔ GoMap.get? m k ≠ none := by
  induction m with
  | nil => simp [GoMap.keys, GoMap.get?]
  | cons hd tl ih =>
    obtain ⟨k1, v1⟩ := hd
    by_cases hk : k1 = k
    · simp [GoMap.keys, GoMap.get?, hk]
    · have hk2 : ¬ k = k1 := fun h => hk h.symm
      simp only [GoMap.keys, List.map_cons, List.mem_cons, hk2, false_or, GoMap.get?, hk,
        if_false]
      exact ih

theorem GoMap.get?_merge {κ β : Type} [DecidableEq κ] :
    ∀ (m result : GoMap κ β), (GoMap.keys m).Nodup → ∀ k,
      GoMap.get? (m.foldl (fun result kv => GoMap.set result kv.1 kv.2) result) k =
        match GoMap.get? m k with
        | some v => some v
        | none => GoMap.get? result k := by
  intro m
  induction m with
  | nil => intro result _ k; rfl
  | cons hd tl ih =>
    intro result h k
    obtain ⟨k1, v1⟩ := hd
    simp only [GoMap.keys, List.map_cons, List.nodup_cons] at h
    simp only [List.foldl_cons]
    rw [ih _ h.2 k]
    by_cases hk : k1 = k
    · subst hk
      rw [GoMap.get?_of_not_mem tl k1 h.1, GoMap.get?_set_self]
      simp [GoMap.get?]
    · rw [GoMap.get?_set_other _ _ _ _ hk]
      simp [GoMap.get?, hk]

theorem GoMap.nodup_merge {κ β : Type} [DecidableEq κ] (m result : GoMap κ β)
    (h : (GoMap.keys result).Nodup) :
    (GoMap.keys (m.foldl (fun result kv => GoMap.set result kv.1 kv.2) result)).Nodup :=
  foldl_inv (fun r => (GoMap.keys r).Nodup) _ m result h
    (fun acc x _ hacc => GoMap.nodup_set acc x.1 x.2 hacc)

theorem flattenMapFrom_nodup (host : Host) (connector : String) :
    ∀ (m : IfaceMap) (flatMap : GoMap String String), (GoMap.keys flatMap).Nodup →
      (GoMap.keys (flattenMapFrom host connector m flatMap)).Nodup
  | .nil, flatMap, h => by
    rw [flattenMapFrom_nil]
    exact h
  | .cons k v rest, flatMap, h => by
    rw [flattenMapFrom_cons]
    apply flattenMapFrom_nodup host connector rest
    cases v with
    | map m =>
      exact foldl_inv (fun r => (GoMap.keys r).Nodup) _ _ flatMap h
        (fun acc x _ hacc => GoMap.nodup_set acc _ x.2 hacc)
    | bool b => exact GoMap.nodup_set _ _ _ h
    | int64 i => exact GoMap.nodup_set _ _ _ h
    | float64 f => exact GoMap.nodup_set _ _ _ h
    | string s => exact GoMap.nodup_set _ _ _ h
    | nil => exact h
    | slice => exact h
    | other => exact h

theorem parseCfgFile_nodup (host : Host) (path : String) (m : GoMap String String)
    (h : parseCfgFile host path = .ok m) : (GoMap.keys m).Nodup := by
  unfold parseCfgFile at h
  cases hr : readCfgFile host path with
  | error err => rw [hr] at h; cases h
  | ok nestedMap =>
    rw [hr] at h
    simp only [Except.ok.injEq] at h
    rw [← h]
    exact flattenMapFrom_nodup host envKeyConnector nestedMap [] (by simp [GoMap.keys])

theorem lastValue_nil (k : String) : lastValue [] k = none := rfl

theorem lastValue_cons (m : GoMap String String) (files : List (GoMap String String))
    (k : String) :
    lastValue (m :: files) k =
      match lastValue files k with
      | some v => some v
      | none => GoMap.get? m k := by
  simp only [lastValue, List.reverse_cons, List.findSome?_append]
  cases List.findSome? (fun m => GoMap.get? m k) files.reverse with
  | none => simp [List.findSome?]; cases GoMap.get? m k <;> rfl
  | some v => simp

theorem parseCfgFilesFrom_merge (host : Host) :
    ∀ (paths : List String) (files : List (GoMap String String))
      (result : GoMap String String),
      List.Forall₂ (fun path m => parseCfgFile host path = .ok m) paths files →
      (GoMap.keys result).Nodup →
      ∃ r, parseCfgFilesFrom host paths result = .ok r ∧ (GoMap.keys r).Nodup ∧
        ∀ k, GoMap.get? r k =
          match lastValue files k with
          | some v => some v
          | none => GoMap.get? result k := by
  intro paths
  induction paths with
  | nil =>
    intro files result hf hnd
    cases hf
    exact ⟨result, rfl, hnd, fun k => rfl⟩
  | cons path rest ih =>
    intro files result hf hnd
    cases hf with
    | cons hhead htail =>
      rename_i m files
      obtain ⟨r, hr, hrn, hget⟩ := ih files _ htail (GoMap.nodup_merge m result hnd)
      refine ⟨r, ?_, hrn, ?_⟩
      · simp only [parseCfgFilesFrom, hhead]
        exact hr
      · intro k
        rw [hget k, lastValue_cons]
        cases lastValue files k with
        | some v => rfl
        | none =>
          simp only
          rw [GoMap.get?_merge m result (parseCfgFile_nodup host path m hhead) k]
          cases GoMap.get? m k <;> rfl

/-- A field one of whose keys is in the environment map or in the file map is never the
one reported as missing. -/
theorem prio_satisfied (host : Host) (M order1 order2 : List (String × envEntry))
    (envMap cfgMap : GoMap String String) (σ : Store)
    (hM : AddrInj M) (hnd : (GoMap.keys M).Nodup) (h1 : order1.Perm M) (h2 : order2.Perm M)
    (A : String) (e : envEntry) (hmem : (A, e) ∈ M)
    (hpres : envMap.get? A ≠ none ∨ cfgMap.get? A ≠ none)
    (err : Err) (keys : List String)
    (herr : (prioUnmarshal host order1 order2 envMap cfgMap σ).1 = some err)
    (hcause : Cause err = .RequiredKeyNotPresentError keys) :
    ∀ K, (K, e) ∈ M → K ∉ keys := by
  intro K hK hKin
  have hreq : IsRequiredKeyNotPresentError
      (prioUnmarshal host order1 order2 envMap cfgMap σ).1 = true := by
    rw [herr]
    simp only [IsRequiredKeyNotPresentError, hcause]
  obtain ⟨σ1, pm1, pm2, hp, hf⟩ :=
    prioUnmarshal_primary_done host order1 order2 envMap cfgMap σ (Or.inr hreq)
  rw [herr] at hf
  have hs1 : Sep e order1 := hM.sep hmem (fun p hp => h1.mem_iff.1 hp)
  have hpm1 : pm1.get? e ≠ none := by
    intro hnone
    have := primaryPass_unsatisfied host envMap cfgMap e order1 σ σ1 pm1 hp hs1 hnone A
      (h1.mem_iff.2 hmem)
    rcases hpres with h | h
    · exact h this.1
    · exact h this.2
  obtain ⟨pre, k, e2, post, σx, pmx, hsplit, hpre, hfail, _, _⟩ :=
    fallbackPass_err host order2 σ1 pm1 err _ pm2 hf
  have hin : (k, e2) ∈ M := h2.mem_iff.1 (by rw [hsplit]; simp)
  have hspre : Sep e pre := hM.sep hmem
    (fun p hp => h2.mem_iff.1 (by rw [hsplit]; exact List.mem_append_left _ hp))
  have hfr := fallbackPass_frame host e pre σ1 pm1 none σx pmx hpre hspre
    (fun _ => Or.inl hpm1)
  rcases hfail.fallbackCause with ⟨_, he⟩ | ⟨f, n, c, hc⟩ | ⟨hc, _⟩
  · rw [he] at hcause
    simp only [Cause, Err.RequiredKeyNotPresentError.injEq] at hcause
    rw [← hcause] at hKin
    simp only [List.mem_singleton] at hKin
    rw [hKin] at hK
    have hee : e = e2 := GoMap.unique_of_nodup M hnd k e e2 hK hin
    have hnone : pmx.get? e2 = none := hfail.1
    rw [← hee, hfr.2] at hnone
    exact hpm1 hnone
  · rw [hc] at hcause
    cases hcause
  · rw [hc] at hcause
    cases hcause

/-! ## The order of the two loops when every field has one key -/

theorem fallbackPass_ok (host : Host) :
    ∀ (L : List (String × envEntry)) (σ : Store) (pm : GoMap envEntry Bool) (r : Option Err)
      (σ' : Store) (pm' : GoMap envEntry Bool),
      fallbackPass host L σ pm = (r, σ', pm') →
      (∀ k e, (k, e) ∈ L → pm.get? e = none →
        e.IsRequired = false ∧
          (e.Default = "" ∨ coerce host e.Value.kind e.Default ≠ none)) →
      r = none := by
  intro L
  induction L with
  | nil =>
    intro σ pm r σ' pm' h _
    simp only [fallbackPass, Prod.mk.injEq] at h
    exact h.1.symm
  | cons hd tl ih =>
    intro σ pm r σ' pm' h hall
    obtain ⟨k, e⟩ := hd
    rcases fallbackPass_cons host k e tl σ pm r σ' pm' h with
      ⟨σ1, pm1, hstep, hrest⟩ | ⟨err, hfail, _, _, _⟩
    · apply ih σ1 pm1 r σ' pm' hrest
      intro k2 e2 hmem hnone
      apply hall k2 e2 (List.mem_cons_of_mem _ hmem)
      rcases hstep with ⟨_, _, hpm⟩ | ⟨_, _, _, _, hpm⟩ | ⟨x, _, _, _, _, _, hpm⟩
      · rw [hpm] at hnone
        exact hnone
      · rw [hpm] at hnone
        exact hnone
      · rw [hpm] at hnone
        by_cases hee : e = e2
        · rw [hee, GoMap.get?_set_self] at hnone
          cases hnone
        · rw [GoMap.get?_set_other _ _ _ _ hee] at hnone
          exact hnone
    · exfalso
      obtain ⟨hnone, hcase⟩ := hfail
      have hc := hall k e (List.mem_cons_self _ _) hnone
      rcases hcase with ⟨hreq, _⟩ | ⟨err0, _, hdef, hco, _, _⟩
      · rw [hc.1] at hreq
        cases hreq
      · rcases hc.2 with h0 | h0
        · exact hdef h0
        · exact h0 hco

/-- The function `prioUnmarshal` leaves alone what is stored where no entry points,
whatever it returns. -/
theorem prio_untouched (host : Host) (order1 order2 : List (String × envEntry))
    (envMap cfgMap : GoMap String String) (σ : Store) (a : List Nat)
    (h1 : ∀ p ∈ order1, p.2.Value.addr ≠ a) (h2 : ∀ p ∈ order2, p.2.Value.addr ≠ a) :
    (prioUnmarshal host order1 order2 envMap cfgMap σ).2 a = σ a := by
  have hp1 : ∀ r σ1 pm1, primaryPass host envMap cfgMap order1 σ [] = (r, σ1, pm1) →
      σ1 a = σ a := fun r σ1 pm1 hp =>
    (primaryPass_frame host envMap cfgMap ⟨⟨a, .String⟩, false, ""⟩ order1 σ []
      r σ1 pm1 hp (fun p hp _ => h1 p hp)
      (fun k v hmem _ => absurd rfl (h1 _ hmem))).1
  rcases prioUnmarshal_cases host order1 order2 envMap cfgMap σ with
    ⟨err, σ1, pm1, hp, hr⟩ | ⟨σ1, pm1, r, σ2, pm2, hp, hf, hr⟩
  · rw [hr]
    exact hp1 _ σ1 pm1 hp
  · have hf1 := fallbackPass_frame host ⟨⟨a, .String⟩, false, ""⟩ order2 σ1 pm1 r σ2 pm2 hf
      (fun p hp _ => h2 p hp)
      (fun hex => by
        obtain ⟨k, hk⟩ := hex
        exact absurd rfl (h2 _ hk))
    rw [hr]
    show σ2 a = σ a
    rw [hf1.1]
    exact hp1 _ σ1 pm1 hp

/-- When every field has one key, a successful `prioUnmarshal` leaves in each bound field
its settled value, and no required field is without a value. -/
theorem prio_settled (host : Host) (M order1 order2 : List (String × envEntry))
    (envMap cfgMap : GoMap String String) (σ : Store)
    (hM : AddrInj M) (h1 : order1.Perm M) (h2 : order2.Perm M)
    (hone : ∀ p ∈ M, ∀ q ∈ M, p.2.Value.addr = q.2.Value.addr → p.1 = q.1)
    (hok : (prioUnmarshal host order1 order2 envMap cfgMap σ).1 = none)
    (k : String) (e : envEntry) (hmem : (k, e) ∈ M) :
    settledValue host envMap cfgMap σ k e =
      some ((prioUnmarshal host order1 order2 envMap cfgMap σ).2 e.Value.addr) ∧
    (envMap.get? k = none → cfgMap.get? k = none → e.IsRequired = false) := by
  obtain ⟨σ1, pm1, pm2, hp, hf⟩ :=
    prioUnmarshal_primary_done host order1 order2 envMap cfgMap σ (Or.inl hok)
  rw [hok] at hf
  have hkey : ∀ k2, (k2, e) ∈ M → k2 = k := fun k2 hk2 => hone (k2, e) hk2 (k, e) hmem rfl
  cases henv : envMap.get? k with
  | some v =>
    obtain ⟨k2, v2, hk2, hv2, hc⟩ := prio_env host M order1 order2 envMap cfgMap σ σ1 _ pm1
      pm2 _ hM h1 h2 hp hf k e v hmem henv
    rw [hkey k2 hk2, henv] at hv2
    cases hv2
    refine ⟨?_, fun h => by cases h⟩
    simp only [settledValue, henv]
    exact hc
  | none =>
    have henv2 : ∀ k2, (k2, e) ∈ M → envMap.get? k2 = none := by
      intro k2 hk2
      rw [hkey k2 hk2]
      exact henv
    cases hcfg : cfgMap.get? k with
    | some v =>
      obtain ⟨k2, v2, hk2, hv2, hc⟩ := prio_cfg host M order1 order2 envMap cfgMap σ σ1 _ pm1
        pm2 _ hM h1 h2 hp hf k e v hmem henv2 hcfg
      rw [hkey k2 hk2, hcfg] at hv2
      cases hv2
      refine ⟨?_, fun _ h => by cases h⟩
      simp only [settledValue, henv, hcfg]
      exact hc
    | none =>
      have habs : ∀ k2, (k2, e) ∈ M → envMap.get? k2 = none ∧ cfgMap.get? k2 = none := by
        intro k2 hk2
        rw [hkey k2 hk2]
        exact ⟨henv, hcfg⟩
      have hd := prio_default host M order1 order2 envMap cfgMap σ σ1 _ pm1 pm2 hM h1 h2 hp hf
        k e hmem habs
      have hab := prio_absent host M order1 envMap cfgMap σ σ1 pm1 none hM h1 hp k e hmem habs
      constructor
      · simp only [settledValue, henv, hcfg]
        by_cases hdef : e.Default = ""
        · simp only [hdef, if_true]
          rw [hd.2 hdef]
        · simp only [hdef, if_false]
          exact hd.1 hdef
      · intro _ _
        cases hreq : e.IsRequired with
        | false => rfl
        | true =>
          exact absurd hab.2 (fallbackPass_required host e hreq order2 σ1 pm1 _ pm2 hf
            ⟨k, h2.mem_iff.2 hmem⟩)

/-- When every field has one key, whether `prioUnmarshal` returns nil does not depend on
the order in which the loops visit the entry map. -/
theorem prio_success_any_order (host : Host)
    (M order1 order2 order3 order4 : List (String × envEntry))
    (envMap cfgMap : GoMap String String) (σ : Store)
    (hM : AddrInj M) (h1 : order1.Perm M) (h2 : order2.Perm M) (h3 : order3.Perm M)
    (h4 : order4.Perm M)
    (hone : ∀ p ∈ M, ∀ q ∈ M, p.2.Value.addr = q.2.Value.addr → p.1 = q.1)
    (hok : (prioUnmarshal host order1 order2 envMap cfgMap σ).1 = none) :
    (prioUnmarshal host order3 order4 envMap cfgMap σ).1 = none := by
  have hset := prio_settled host M order1 order2 envMap cfgMap σ hM h1 h2 hone hok
  rcases prioUnmarshal_cases host order3 order4 envMap cfgMap σ with
    ⟨err, σ1, pm1, hp, _⟩ | ⟨σ1, pm1, r, σ2, pm2, hp, hf, hr⟩
  · exfalso
    have := primaryPass_ok host envMap cfgMap order3 σ [] (some err) σ1 pm1 hp
      (fun k e v hmem hv => by
        have hs := (hset k e (h3.mem_iff.1 hmem)).1
        rcases hv with hv | ⟨hv1, hv2⟩
        · simp only [settledValue, hv] at hs
          rw [hs]
          simp
        · simp only [settledValue, hv1, hv2] at hs
          rw [hs]
          simp)
    cases this
  · rw [hr]
    apply fallbackPass_ok host order4 σ1 pm1 r σ2 pm2 hf
    intro k e hmem hnone
    have hmemM : (k, e) ∈ M := h4.mem_iff.1 hmem
    have hs3 : Sep e order3 := hM.sep hmemM (fun p hp => h3.mem_iff.1 hp)
    have habs := primaryPass_unsatisfied host envMap cfgMap e order3 σ σ1 pm1 hp hs3 hnone k
      (h3.mem_iff.2 hmemM)
    have hs := hset k e hmemM
    refine ⟨hs.2 habs.1 habs.2, ?_⟩
    by_cases hdef : e.Default = ""
    · exact Or.inl hdef
    · right
      have hs1 := hs.1
      simp only [settledValue, habs.1, habs.2, hdef, if_false] at hs1
      rw [hs1]
      simp

/-! ## Fields that are neither scalars nor structs -/

theorem Fields.dropTags_struct (tag : Tag) (inner rest : Fields) :
    Fields.dropTags (.cons tag (.Struct inner) rest) =
      .cons tag (.Struct (Fields.dropTags inner)) (Fields.dropTags rest) := by
  rw [Fields.dropTags]

theorem Fields.dropTags_other (tag : Tag) (typ : Typ) (rest : Fields)
    (h : typ.Kind ≠ .Struct) :
    Fields.dropTags (.cons tag typ rest) =
      .cons (if typ.Kind ∈ scalarKinds then tag else ⟨[], []⟩) typ
        (Fields.dropTags rest) := by
  cases typ <;> first | rfl | exact absurd rfl h

theorem foldl_keep {α β : Type} (acc : β) : ∀ (l : List α), l.foldl (fun r _ => r) acc = acc
  | [] => rfl
  | _ :: tl => by
    simp only [List.foldl_cons]
    exact foldl_keep acc tl

/-- The entry map does not depend on the annotation of a field that is neither a scalar nor
a struct. -/
theorem parseStructFrom_dropTags : ∀ (fs : Fields) (v : List Nat) (connector : String)
    (i : Nat) (acc : GoMap String envEntry),
    parseStructFrom v connector i (Fields.dropTags fs) acc =
      parseStructFrom v connector i fs acc
  | .nil, v, connector, i, acc => by
    rw [Fields.dropTags]
  | .cons tag typ rest, v, connector, i, acc => by
    by_cases hs : typ.Kind = .Struct
    · cases typ with
      | Struct inner =>
        rw [Fields.dropTags_struct, parseStructFrom_cons, parseStructFrom_cons,
          parseStructFrom_dropTags rest]
        have hsub : subEntries (v ++ [i]) (.Struct (Fields.dropTags inner)) =
            subEntries (v ++ [i]) (.Struct inner) := by
          simp only [subEntries]
          exact parseStructFrom_dropTags inner _ _ _ _
        rw [hsub]
        rfl
      | _ => simp [Typ.Kind] at hs
    · rw [Fields.dropTags_other tag typ rest hs, parseStructFrom_cons, parseStructFrom_cons,
        parseStructFrom_dropTags rest]
      by_cases hk : typ.Kind ∈ scalarKinds
      · simp only [hk, if_true]
      · simp only [hs, hk, if_false]
        rw [foldl_keep, foldl_keep]

theorem setVal_unsupported (host : Host) (v : Value) (str : String) (σ : Store) :
    IsUnsupportedFieldTypeError (setVal host v str σ).1 = true ↔ v.kind ∉ scalarKinds := by
  constructor
  · intro h
    cases hs : setVal host v str σ with
    | mk r σ1 =>
      rw [hs] at h
      cases r with
      | none => cases h
      | some err =>
        rcases setVal_err host v str σ σ1 err hs with ⟨f, c, m, he⟩ | ⟨_, hk⟩
        · rw [he] at h
          simp [IsUnsupportedFieldTypeError, Cause] at h
        · exact hk
  · intro h
    obtain ⟨addr, kind⟩ := v
    cases kind <;> simp [scalarKinds] at h <;>
      simp [setVal, IsUnsupportedFieldTypeError, NewUnsupportedFieldTypeError, Cause]

/-- The function `UnmarshalMap` leaves alone what is stored where no scalar field of the
target struct is. -/
theorem UnmarshalMap_untouched (host : Host)
    (range1 range2 : GoMap String envEntry → List (String × envEntry))
    (hr1 : ∀ m, (range1 m).Perm m) (hr2 : ∀ m, (range2 m).Perm m)
    (envMap : GoMap String String) (fields : Fields) (paths : List String) (σ : Store)
    (a : List Nat) (ha : Fields.leaf fields 0 a = none) :
    (UnmarshalMap host range1 range2 envMap (ptrTo fields) paths σ).2 a = σ a := by
  cases hcfg : parseCfgFiles host paths with
  | error err => simp [ptrTo, UnmarshalMap, hcfg]
  | ok cfgMap =>
    rw [(UnmarshalMap_result host range1 range2 envMap fields paths σ cfgMap hcfg).1]
    have hno : ∀ p ∈ parseStruct [] fields envKeyConnector, p.2.Value.addr ≠ a := by
      intro p hp hpa
      obtain ⟨q, hq, hleaf⟩ := parseStruct_leaf [] fields envKeyConnector p hp
      simp only [List.nil_append] at hq
      rw [← hq, hpa, ha] at hleaf
      cases hleaf
    exact prio_untouched host _ _ envMap cfgMap σ a
      (fun p hp => hno p ((hr1 _).mem_iff.1 hp)) (fun p hp => hno p ((hr2 _).mem_iff.1 hp))

/-! ## environToMap -/

theorem strings.cutEq_none : ∀ (l : List Char), strings.cutEq l = none → '=' ∉ l
  | [], _ => by simp
  | c :: cs, h => by
    by_cases hc : c = '='
    · simp [strings.cutEq, hc] at h
    · simp only [strings.cutEq, hc, if_false] at h
      cases hcs : strings.cutEq cs with
      | none =>
        have := strings.cutEq_none cs hcs
        simp only [List.mem_cons, not_or]
        exact ⟨fun h => hc h.symm, this⟩
      | some p =>
        rw [hcs] at h
        cases h

theorem strings.cutEq_some : ∀ (l a b : List Char), strings.cutEq l = some (a, b) →
    l = a ++ '=' :: b ∧ '=' ∉ a
  | [], a, b, h => by simp [strings.cutEq] at h
  | c :: cs, a, b, h => by
    by_cases hc : c = '='
    · simp only [strings.cutEq, hc, if_true, Option.some.injEq, Prod.mk.injEq] at h
      rw [← h.1, ← h.2, hc]
      simp
    · simp only [strings.cutEq, hc, if_false] at h
      cases hcs : strings.cutEq cs with
      | none =>
        rw [hcs] at h
        cases h
      | some p =>
        obtain ⟨a1, b1⟩ := p
        rw [hcs] at h
        simp only [Option.some.injEq, Prod.mk.injEq] at h
        obtain ⟨h1, h2⟩ := strings.cutEq_some cs a1 b1 hcs
        rw [← h.1, ← h.2, h1]
        simp only [List.cons_append, List.mem_cons, not_or, true_and]
        exact ⟨fun h => hc h.symm, h2⟩

theorem strings.cutEq_split : ∀ (a b : List Char), '=' ∉ a →
    strings.cutEq (a ++ '=' :: b) = some (a, b)
  | [], b, _ => by simp [strings.cutEq]
  | c :: cs, b, h => by
    simp only [List.mem_cons, not_or] at h
    have hc : ¬ c = '=' := fun h1 => h.1 h1.symm
    have ih := strings.cutEq_split cs b h.2
    show strings.cutEq (c :: (cs ++ '=' :: b)) = some (c :: cs, b)
    simp only [strings.cutEq, hc, if_false, ih]

theorem entryValue_iff (v N val : String) :
    entryValue v N = some val ↔ v = N ++ "=" ++ val ∧ N ≠ "" ∧ '=' ∉ N.toList := by
  constructor
  · intro h
    simp only [entryValue, strings.SplitN] at h
    cases hc : strings.cutEq v.toList with
    | none =>
      rw [hc] at h
      simp at h
    | some p =>
      obtain ⟨a, b⟩ := p
      rw [hc] at h
      simp only at h
      obtain ⟨h1, h2⟩ := strings.cutEq_some _ a b hc
      by_cases he : String.mk a = ""
      · simp [he] at h
      · simp only [he, if_false] at h
        by_cases hn : String.mk a = N
        · simp only [hn, if_true, Option.some.injEq] at h
          refine ⟨?_, ?_, ?_⟩
          · apply String.ext
            rw [← hn, ← h]
            simp only [String.data_append]
            rw [show v.data = v.toList from rfl, h1]
            simp
          · rw [← hn]
            exact he
          · rw [← hn]
            exact h2
        · simp [hn] at h
  · rintro ⟨hv, hne, hno⟩
    have hl : v.toList = N.toList ++ '=' :: val.toList := by
      rw [hv]
      simp [String.toList, String.data_append]
    simp only [entryValue, strings.SplitN, hl, strings.cutEq_split _ _ hno]
    have h1 : String.mk N.toList = N := rfl
    have h2 : String.mk val.toList = val := rfl
    rw [h1, h2]
    simp [hne]

theorem environ_step (m : GoMap String String) (v N : String) :
    GoMap.get? (match strings.SplitN v with
      | p0 :: p1 :: _ => if p0 = "" then m else m.set p0 p1
      | _ => m) N =
    match entryValue v N with
    | some x => some x
    | none => GoMap.get? m N := by
  simp only [entryValue]
  cases strings.SplitN v with
  | nil => rfl
  | cons p0 t =>
    cases t with
    | nil => rfl
    | cons p1 t2 =>
      simp only
      by_cases he : p0 = ""
      · simp [he]
      · by_cases hn : p0 = N
        · subst hn
          simp [he, GoMap.get?_set_self]
        · simp [he, hn, GoMap.get?_set_other _ _ _ _ hn]

theorem lastEntryValue_cons (v : String) (environ : List String) (N : String) :
    lastEntryValue (v :: environ) N =
      match lastEntryValue environ N with
      | some x => some x
      | none => entryValue v N := by
  simp only [lastEntryValue, List.reverse_cons, List.findSome?_append]
  cases List.findSome? (fun v => entryValue v N) environ.reverse with
  | none => simp [List.findSome?]; cases entryValue v N <;> rfl
  | some x => simp

theorem lastEntryValue_none (environ : List String) (N : String)
    (h : lastEntryValue environ N = none) : ∀ v ∈ environ, entryValue v N = none := by
  intro v hv
  simp only [lastEntryValue, List.findSome?_eq_none_iff, List.mem_reverse] at h
  exact h v hv

theorem environ_fold : ∀ (environ : List String) (m : GoMap String String) (N : String),
    GoMap.get? (environ.foldl (fun m v =>
      match strings.SplitN v with
      | p0 :: p1 :: _ => if p0 = "" then m else m.set p0 p1
      | _ => m) m) N =
      match lastEntryValue environ N with
      | some x => some x
      | none => GoMap.get? m N
  | [], m, N => rfl
  | v :: rest, m, N => by
    simp only [List.foldl_cons]
    rw [environ_fold rest _ N, lastEntryValue_cons]
    cases lastEntryValue rest N with
    | some x => rfl
    | none =>
      simp only
      rw [environ_step]

theorem lastEntryValue_iff : ∀ (environ : List String) (N val : String),
    lastEntryValue environ N = some val ↔
      ∃ pre post, environ = pre ++ (N ++ "=" ++ val) :: post ∧ N ≠ "" ∧ '=' ∉ N.toList ∧
        ∀ v ∈ post, ∀ val2, v ≠ N ++ "=" ++ val2
  | [], N, val => by
    simp [lastEntryValue]
  | v :: rest, N, val => by
    have ih := lastEntryValue_iff rest N
    rw [lastEntryValue_cons]
    cases hl : lastEntryValue rest N with
    | some x =>
      simp only [Option.some.injEq]
      constructor
      · intro hx
        obtain ⟨pre, post, hsplit, h1, h2, h3⟩ := (ih val).1 (by rw [hl, hx])
        exact ⟨v :: pre, post, by rw [hsplit]; rfl, h1, h2, h3⟩
      · rintro ⟨pre, post, hsplit, h1, h2, h3⟩
        cases pre with
        | nil =>
          simp only [List.nil_append, List.cons.injEq] at hsplit
          obtain ⟨pre2, post2, hsplit2, _, _, _⟩ := (ih x).1 hl
          exfalso
          apply h3 (N ++ "=" ++ x) _ x rfl
          rw [← hsplit.2, hsplit2]
          simp
        | cons p pre2 =>
          simp only [List.cons_append, List.cons.injEq] at hsplit
          have := (ih val).2 ⟨pre2, post, hsplit.2, h1, h2, h3⟩
          rw [hl] at this
          exact Option.some.inj this
    | none =>
      simp only
      rw [entryValue_iff]
      constructor
      · rintro ⟨hv, h1, h2⟩
        refine ⟨[], rest, by rw [hv]; rfl, h1, h2, ?_⟩
        intro w hw val2 hw2
        have hnone := lastEntryValue_none rest N hl w hw
        rw [(entryValue_iff w N val2).2 ⟨hw2, h1, h2⟩] at hnone
        cases hnone
      · rintro ⟨pre, post, hsplit, h1, h2, h3⟩
        cases pre with
        | nil =>
          simp only [List.nil_append, List.cons.injEq] at hsplit
          exact ⟨hsplit.1, h1, h2⟩
        | cons p pre2 =>
          simp only [List.cons_append, List.cons.injEq] at hsplit
          exfalso
          have hmem : (N ++ "=" ++ val) ∈ rest := by
            rw [hsplit.2]
            simp
          have hnone := lastEntryValue_none rest N hl _ hmem
          rw [(entryValue_iff _ N val).2 ⟨rfl, h1, h2⟩] at hnone
          cases hnone

/-- A key of a bound field whose environment value does not coerce makes `prioUnmarshal`
fail with a parse error, for every order of iteration. -/
theorem prio_env_bad (host : Host) (fields : Fields)
    (order1 order2 : List (String × envEntry)) (envMap cfgMap : GoMap String String)
    (σ : Store) (K : String) (e : envEntry) (s : String)
    (h1 : order1.Perm (parseStruct [] fields envKeyConnector))
    (hK : (K, e) ∈ parseStruct [] fields envKeyConnector)
    (henv : envMap.get? K = some s) (hbad : coerce host e.Value.kind s = none) :
    ∃ err, (prioUnmarshal host order1 order2 envMap cfgMap σ).1 = some err ∧
      IsCoercionError err := by
  rcases prioUnmarshal_cases host order1 order2 envMap cfgMap σ with
    ⟨err, σ1, pm1, hp, hr⟩ | ⟨σ1, pm1, r, σ2, pm2, hp, _, _⟩
  · refine ⟨err, by rw [hr], ?_⟩
    obtain ⟨pre, k, e2, post, σx, pmx, hL, _, hfail, _, _⟩ :=
      primaryPass_err host envMap cfgMap order1 σ [] err σ1 pm1 hp
    rcases hfail.primaryCause with hc | ⟨_, hk⟩
    · exact hc
    · exfalso
      have hmem : (k, e2) ∈ parseStruct [] fields envKeyConnector :=
        h1.mem_iff.1 (by rw [hL]; simp)
      exact hk (parseStruct_scalar [] fields envKeyConnector (k, e2) hmem)
  · exfalso
    exact primaryPass_must_fail host envMap cfgMap K e s henv hbad order1 σ [] none σ1 pm1
      (h1.mem_iff.2 hK) hp rfl

theorem coerce_empty (host : Host) (k : Kind) (hk : k ∈ Kind.Bool :: intKinds) :
    coerce host k "" = none := by
  rcases List.mem_cons.1 hk with hb | hi
  · rw [hb]
    rfl
  · exact coerce_int_none host k "" _ hi rfl

theorem coerce_float_none (host : Host) (k : Kind) (s : String) (c : StrconvErr)
    (hk : k ∈ [Kind.Float32, Kind.Float64]) (hbad : host.ParseFloat s = .error c) :
    coerce host k s = none := by
  simp only [List.mem_cons, List.mem_singleton, List.not_mem_nil, or_false] at hk
  rcases hk with hk | hk <;> rw [hk] <;> simp [coerce, setVal, hbad]

/-! ## Fields that are not settable -/

theorem setValOn_settable (settable : List Nat → Bool) (host : Host) (v : Value)
    (str : String) (σ : Store) (h : settable v.addr = true) :
    setValOn settable host v str σ =
      (.returns (setVal host v str σ).1, (setVal host v str σ).2) := by
  obtain ⟨addr, kind⟩ := v
  simp only at h
  cases kind <;> simp only [setValOn, setVal, h, if_true]
  all_goals first
    | rfl
    | (cases strconv.ParseBool str <;> rfl)
    | (cases strconv.ParseInt str <;> rfl)
    | (cases host.ParseFloat str <;> rfl)

theorem setValOn_err (settable : List Nat → Bool) (host : Host) (v : Value)
    (str : String) (σ σ1 : Store) (err : Err) (h : setVal host v str σ = (some err, σ1)) :
    setValOn settable host v str σ = (.returns (some err), σ1) := by
  obtain ⟨addr, kind⟩ := v
  cases kind <;> simp only [setValOn, setVal] at h ⊢
  all_goals first
    | exact congrArg (fun p : Option Err × Store => (Outcome.returns p.1, p.2)) h
    | (cases hp : strconv.ParseBool str <;> rw [hp] at h <;> simp only [] at h ⊢ <;>
        first
          | exact congrArg (fun p : Option Err × Store => (Outcome.returns p.1, p.2)) h
          | cases h)
    | (cases hp : strconv.ParseInt str <;> rw [hp] at h <;> simp only [] at h ⊢ <;>
        first
          | exact congrArg (fun p : Option Err × Store => (Outcome.returns p.1, p.2)) h
          | cases h)
    | (cases hp : host.ParseFloat str <;> rw [hp] at h <;> simp only [] at h ⊢ <;>
        first
          | exact congrArg (fun p : Option Err × Store => (Outcome.returns p.1, p.2)) h
          | cases h)
    | cases h

theorem setValOn_blocked (settable : List Nat → Bool) (host : Host) (v : Value)
    (str : String) (σ σ1 : Store) (hs : settable v.addr = false)
    (h : setVal host v str σ = (none, σ1)) :
    ∃ msg, setValOn settable host v str σ = (.panics msg, σ) := by
  obtain ⟨addr, kind⟩ := v
  simp only at hs
  cases kind <;> simp only [setValOn, setVal, hs] at h ⊢
  all_goals first
    | exact ⟨_, rfl⟩
    | cases h
    | (cases hp : strconv.ParseBool str <;> rw [hp] at h <;> simp only [] at h ⊢ <;>
        first | exact ⟨_, rfl⟩ | cases h)
    | (cases hp : strconv.ParseInt str <;> rw [hp] at h <;> simp only [] at h ⊢ <;>
        first | exact ⟨_, rfl⟩ | cases h)
    | (cases hp : host.ParseFloat str <;> rw [hp] at h <;> simp only [] at h ⊢ <;>
        first | exact ⟨_, rfl⟩ | cases h)

theorem setValOn_cases (settable : List Nat → Bool) (host : Host) (v : Value)
    (str : String) (σ : Store) :
    (∃ err, setVal host v str σ = (some err, σ) ∧
      setValOn settable host v str σ = (.returns (some err), σ)) ∨
    (∃ x, setVal host v str σ = (none, σ.set v.addr x) ∧ settable v.addr = true ∧
      setValOn settable host v str σ = (.returns none, σ.set v.addr x)) ∨
    (∃ x msg, setVal host v str σ = (none, σ.set v.addr x) ∧ settable v.addr = false ∧
      setValOn settable host v str σ = (.panics msg, σ)) := by
  rcases setVal_store host v str σ with ⟨x, _, hs⟩ | ⟨_, err, hs⟩
  · cases hS : settable v.addr with
    | true =>
      right; left
      refine ⟨x, hs, rfl, ?_⟩
      rw [setValOn_settable settable host v str σ hS, hs]
    | false =>
      right; right
      obtain ⟨msg, hm⟩ := setValOn_blocked settable host v str σ _ hS hs
      exact ⟨x, msg, hs, rfl, hm⟩
  · left
    exact ⟨err, hs, setValOn_err settable host v str σ σ err hs⟩

/-- The first loop on fields that need not be settable either returns what the first loop
returns, or panics at an entry whose field is not settable. -/
theorem primaryPassOn_cases (settable : List Nat → Bool) (host : Host)
    (envMap cfgMap : GoMap String String) :
    ∀ (L : List (String × envEntry)) (σ : Store) (pm : GoMap envEntry Bool),
      (∃ r σ' pm', primaryPassOn settable host envMap cfgMap L σ pm = (.returns r, σ', pm') ∧
        primaryPass host envMap cfgMap L σ pm = (r, σ', pm')) ∨
      (∃ msg σ' pm' p,
        primaryPassOn settable host envMap cfgMap L σ pm = (.panics msg, σ', pm') ∧
        p ∈ L ∧ settable p.2.Value.addr = false ∧
        ∀ a, (∀ q ∈ L, q.2.Value.addr ≠ a) → σ' a = σ a) := by
  intro L
  induction L with
  | nil =>
    intro σ pm
    left
    exact ⟨none, σ, pm, rfl, rfl⟩
  | cons hd tl ih =>
    intro σ pm
    obtain ⟨k, e⟩ := hd
    have hcont : ∀ σ1 pm1, (∀ a, a ≠ e.Value.addr → σ1 a = σ a) →
        primaryPassOn settable host envMap cfgMap ((k, e) :: tl) σ pm =
          primaryPassOn settable host envMap cfgMap tl σ1 pm1 →
        primaryPass host envMap cfgMap ((k, e) :: tl) σ pm =
          primaryPass host envMap cfgMap tl σ1 pm1 →
        (∃ r σ' pm', primaryPassOn settable host envMap cfgMap ((k, e) :: tl) σ pm =
            (.returns r, σ', pm') ∧
          primaryPass host envMap cfgMap ((k, e) :: tl) σ pm = (r, σ', pm')) ∨
        (∃ msg σ' pm' p,
          primaryPassOn settable host envMap cfgMap ((k, e) :: tl) σ pm =
            (.panics msg, σ', pm') ∧
          p ∈ (k, e) :: tl ∧ settable p.2.Value.addr = false ∧
          ∀ a, (∀ q ∈ (k, e) :: tl, q.2.Value.addr ≠ a) → σ' a = σ a) := by
      intro σ1 pm1 hfr hOn hPl
      rcases ih σ1 pm1 with ⟨r, σ', pm', h1, h2⟩ | ⟨msg, σ', pm', p, h1, hp, hs, hframe⟩
      · left
        exact ⟨r, σ', pm', by rw [hOn, h1], by rw [hPl, h2]⟩
      · right
        refine ⟨msg, σ', pm', p, by rw [hOn, h1], List.mem_cons_of_mem _ hp, hs,
          fun a ha => ?_⟩
        rw [hframe a (fun q hq => ha q (List.mem_cons_of_mem _ hq)),
          hfr a (fun h => ha (k, e) (List.mem_cons_self _ _) h.symm)]
    cases henv : envMap.get? k with
    | some v =>
      rcases setValOn_cases settable host e.Value v σ with
        ⟨err, hs, hOn⟩ | ⟨x, hs, hS, hOn⟩ | ⟨x, msg, hs, hS, hOn⟩
      · left
        exact ⟨some (.Wrap err ("setting value of env var " ++ k)), σ, pm,
          by simp only [primaryPassOn, henv, hOn, Bool.false_eq_true, if_false, if_true],
            by simp only [primaryPass, henv, hs, Bool.false_eq_true, if_false, if_true]⟩
      · exact hcont (σ.set e.Value.addr x) (pm.set e true)
          (fun a ha => Store.set_other σ _ a x ha)
          (by simp only [primaryPassOn, henv, hOn, Bool.false_eq_true, if_false,
            if_true]) (by simp only [primaryPass, henv, hs, Bool.false_eq_true, if_false, if_true])
      · right
        exact ⟨msg, σ, pm, (k, e), by simp only [primaryPassOn, henv, hOn, Bool.false_eq_true,
          if_false, if_true],
          List.mem_cons_self _ _, hS, fun a _ => rfl⟩
    | none =>
      cases hcfg : cfgMap.get? k with
      | none =>
        exact hcont σ pm (fun _ _ => rfl) (by simp only [primaryPassOn, henv, hcfg,
          Bool.false_eq_true, if_false, if_true])
          (by simp only [primaryPass, henv, hcfg, Bool.false_eq_true, if_false, if_true])
      | some v =>
        by_cases hpm : (!((pm.get? e).getD false)) = true
        · rcases setValOn_cases settable host e.Value v σ with
            ⟨err, hs, hOn⟩ | ⟨x, hs, hS, hOn⟩ | ⟨x, msg, hs, hS, hOn⟩
          · left
            exact ⟨some (.Wrap err ("setting value from config file of env var " ++ k)), σ, pm,
              by simp only [primaryPassOn, henv, hcfg, hpm, if_true, hOn, Bool.false_eq_true,
                if_false, if_true],
              by simp only [primaryPass, henv, hcfg, hpm, if_true, hs, Bool.false_eq_true, if_false,
                if_true]⟩
          · exact hcont (σ.set e.Value.addr x) (pm.set e false)
              (fun a ha => Store.set_other σ _ a x ha)
              (by simp only [primaryPassOn, henv, hcfg, hpm, if_true, hOn, Bool.false_eq_true,
                if_false, if_true])
              (by simp only [primaryPass, henv, hcfg, hpm, if_true, hs, Bool.false_eq_true,
                if_false, if_true])
          · right
            exact ⟨msg, σ, pm, (k, e),
              by simp only [primaryPassOn, henv, hcfg, hpm, if_true, hOn, Bool.false_eq_true,
                if_false, if_true],
              List.mem_cons_self _ _, hS, fun a _ => rfl⟩
        · exact hcont σ pm (fun _ _ => rfl)
            (by simp only [primaryPassOn, henv, hcfg, hpm, if_false, Bool.false_eq_true, if_false,
              if_true])
            (by simp only [primaryPass, henv, hcfg, hpm, if_false, Bool.false_eq_true, if_false,
              if_true])

/-- The second loop on fields that need not be settable either returns what the second
loop returns, or panics at an entry whose field is not settable. -/
theorem fallbackPassOn_cases (settable : List Nat → Bool) (host : Host) :
    ∀ (L : List (String × envEntry)) (σ : Store) (pm : GoMap envEntry Bool),
      (∃ r σ' pm', fallbackPassOn settable host L σ pm = (.returns r, σ', pm') ∧
        fallbackPass host L σ pm = (r, σ', pm')) ∨
      (∃ msg σ' pm' p, fallbackPassOn settable host L σ pm = (.panics msg, σ', pm') ∧
        p ∈ L ∧ settable p.2.Value.addr = false ∧
        ∀ a, (∀ q ∈ L, q.2.Value.addr ≠ a) → σ' a = σ a) := by
  intro L
  induction L with
  | nil =>
    intro σ pm
    left
    exact ⟨none, σ, pm, rfl, rfl⟩
  | cons hd tl ih =>
    intro σ pm
    obtain ⟨k, e⟩ := hd
    have hcont : ∀ σ1 pm1, (∀ a, a ≠ e.Value.addr → σ1 a = σ a) →
        fallbackPassOn settable host ((k, e) :: tl) σ pm =
          fallbackPassOn settable host tl σ1 pm1 →
        fallbackPass host ((k, e) :: tl) σ pm = fallbackPass host tl σ1 pm1 →
        (∃ r σ' pm', fallbackPassOn settable host ((k, e) :: tl) σ pm =
            (.returns r, σ', pm') ∧
          fallbackPass host ((k, e) :: tl) σ pm = (r, σ', pm')) ∨
        (∃ msg σ' pm' p,
          fallbackPassOn settable host ((k, e) :: tl) σ pm = (.panics msg, σ', pm') ∧
          p ∈ (k, e) :: tl ∧ settable p.2.Value.addr = false ∧
          ∀ a, (∀ q ∈ (k, e) :: tl, q.2.Value.addr ≠ a) → σ' a = σ a) := by
      intro σ1 pm1 hfr hOn hPl
      rcases ih σ1 pm1 with ⟨r, σ', pm', h1, h2⟩ | ⟨msg, σ', pm', p, h1, hp, hs, hframe⟩
      · left
        exact ⟨r, σ', pm', by rw [hOn, h1], by rw [hPl, h2]⟩
      · right
        refine ⟨msg, σ', pm', p, by rw [hOn, h1], List.mem_cons_of_mem _ hp, hs,
          fun a ha => ?_⟩
        rw [hframe a (fun q hq => ha q (List.mem_cons_of_mem _ hq)),
          hfr a (fun h => ha (k, e) (List.mem_cons_self _ _) h.symm)]
    by_cases hin : (pm.get? e).isSome = true
    · exact hcont σ pm (fun _ _ => rfl) (by simp only [fallbackPassOn, hin, if_true,
      Bool.false_eq_true, if_false, if_true])
        (by simp only [fallbackPass, hin, if_true, Bool.false_eq_true, if_false, if_true])
    · by_cases hreq : e.IsRequired = true
      · left
        exact ⟨some (NewRequiredKeyNotPresentError [k]), σ, pm,
          by simp only [fallbackPassOn, hin, if_false, hreq, if_true, Bool.false_eq_true, if_false,
            if_true],
          by simp only [fallbackPass, hin, if_false, hreq, if_true, Bool.false_eq_true, if_false,
            if_true]⟩
      · by_cases hdef : e.Default = ""
        · exact hcont σ pm (fun _ _ => rfl)
            (by simp only [fallbackPassOn, hin, if_false, hreq, hdef, if_true, Bool.false_eq_true,
              if_false, if_true])
            (by simp only [fallbackPass, hin, if_false, hreq, hdef, if_true, Bool.false_eq_true,
              if_false, if_true])
        · rcases setValOn_cases settable host e.Value e.Default σ with
            ⟨err, hs, hOn⟩ | ⟨x, hs, hS, hOn⟩ | ⟨x, msg, hs, hS, hOn⟩
          · left
            exact ⟨some (.Wrap err ("setting default value of env var " ++ k)), σ, pm,
              by simp only [fallbackPassOn, hin, if_false, hreq, hdef, hOn, Bool.false_eq_true,
                if_false, if_true],
              by simp only [fallbackPass, hin, if_false, hreq, hdef, hs, Bool.false_eq_true,
                if_false, if_true]⟩
          · exact hcont (σ.set e.Value.addr x) (pm.set e true)
              (fun a ha => Store.set_other σ _ a x ha)
              (by simp only [fallbackPassOn, hin, if_false, hreq, hdef, hOn, Bool.false_eq_true,
                if_false, if_true])
              (by simp only [fallbackPass, hin, if_false, hreq, hdef, hs, Bool.false_eq_true,
                if_false, if_true])
          · right
            exact ⟨msg, σ, pm, (k, e),
              by simp only [fallbackPassOn, hin, if_false, hreq, hdef, hOn, Bool.false_eq_true,
                if_false, if_true],
              List.mem_cons_self _ _, hS, fun a _ => rfl⟩

theorem primaryPass_untouched (host : Host) (envMap cfgMap : GoMap String String)
    (L : List (String × envEntry)) (σ : Store) (pm : GoMap envEntry Bool) (r : Option Err)
    (σ' : Store) (pm' : GoMap envEntry Bool) (a : List Nat)
    (h : primaryPass host envMap cfgMap L σ pm = (r, σ', pm'))
    (hno : ∀ p ∈ L, p.2.Value.addr ≠ a) : σ' a = σ a :=
  (primaryPass_frame host envMap cfgMap ⟨⟨a, .String⟩, false, ""⟩ L σ pm r σ' pm' h
    (fun p hp _ => hno p hp) (fun _ _ hmem _ => absurd rfl (hno _ hmem))).1

theorem fallbackPass_untouched (host : Host)
    (L : List (String × envEntry)) (σ : Store) (pm : GoMap envEntry Bool) (r : Option Err)
    (σ' : Store) (pm' : GoMap envEntry Bool) (a : List Nat)
    (h : fallbackPass host L σ pm = (r, σ', pm'))
    (hno : ∀ p ∈ L, p.2.Value.addr ≠ a) : σ' a = σ a :=
  (fallbackPass_frame host ⟨⟨a, .String⟩, false, ""⟩ L σ pm r σ' pm' h
    (fun p hp _ => hno p hp)
    (fun hex => by
      obtain ⟨k, hk⟩ := hex
      exact absurd rfl (hno _ hk))).1

/-- The function `prioUnmarshal` on fields that need not be settable either returns what
`prioUnmarshal` returns, with the same memory, or panics at an entry whose field is not
settable. -/
theorem prioUnmarshalOn_cases (settable : List Nat → Bool) (host : Host)
    (order1 order2 : List (String × envEntry)) (envMap cfgMap : GoMap String String)
    (σ : Store) :
    (∃ r σ', prioUnmarshalOn settable host order1 order2 envMap cfgMap σ = (.returns r, σ') ∧
      prioUnmarshal host order1 order2 envMap cfgMap σ = (r, σ')) ∨
    (∃ msg σ' p,
      prioUnmarshalOn settable host order1 order2 envMap cfgMap σ = (.panics msg, σ') ∧
      (p ∈ order1 ∨ p ∈ order2) ∧ settable p.2.Value.addr = false ∧
      ∀ a, (∀ q ∈ order1, q.2.Value.addr ≠ a) → (∀ q ∈ order2, q.2.Value.addr ≠ a) →
        σ' a = σ a) := by
  rcases primaryPassOn_cases settable host envMap cfgMap order1 σ [] with
    ⟨r, σ1, pm1, hOn, hPl⟩ | ⟨msg, σ1, pm1, p, hOn, hp, hS, hfr⟩
  · cases r with
    | some err =>
      left
      exact ⟨some err, σ1, by simp only [prioUnmarshalOn, hOn],
        by simp only [prioUnmarshal, hPl]⟩
    | none =>
      rcases fallbackPassOn_cases settable host order2 σ1 pm1 with
        ⟨r2, σ2, pm2, hOn2, hPl2⟩ | ⟨msg, σ2, pm2, p, hOn2, hp, hS, hfr⟩
      · left
        exact ⟨r2, σ2, by simp only [prioUnmarshalOn, hOn, hOn2],
          by simp only [prioUnmarshal, hPl, hPl2]⟩
      · right
        refine ⟨msg, σ2, p, by simp only [prioUnmarshalOn, hOn, hOn2], Or.inr hp, hS,
          fun a h1 h2 => ?_⟩
        rw [hfr a h2]
        exact primaryPass_untouched host envMap cfgMap order1 σ [] none σ1 pm1 a hPl h1
  · right
    exact ⟨msg, σ1, p, by simp only [prioUnmarshalOn, hOn], Or.inl hp, hS,
      fun a h1 _ => hfr a h1⟩

/-- On a pointer to a struct, `UnmarshalMap` on fields that need not be settable either
does what `UnmarshalMap` does, or panics because a bound field is not settable. -/
theorem UnmarshalMapOn_cases (settable : List Nat → Bool) (host : Host)
    (range1 range2 : GoMap String envEntry → List (String × envEntry))
    (hr1 : ∀ m, (range1 m).Perm m) (hr2 : ∀ m, (range2 m).Perm m)
    (envMap : GoMap String String) (fields : Fields) (paths : List String) (σ : Store) :
    UnmarshalMapOn settable host range1 range2 envMap (ptrTo fields) paths σ =
      UnmarshalMap host range1 range2 envMap (ptrTo fields) paths σ ∨
    (∃ msg p,
      (UnmarshalMapOn settable host range1 range2 envMap (ptrTo fields) paths σ).1 =
        .panics msg ∧
      p ∈ parseStruct [] fields envKeyConnector ∧ settable p.2.Value.addr = false) := by
  cases hcfg : parseCfgFiles host paths with
  | error err =>
    left
    simp only [ptrTo, UnmarshalMapOn, UnmarshalMap, hcfg]
  | ok cfgMap =>
    rcases prioUnmarshalOn_cases settable host (range1 (parseStruct [] fields envKeyConnector))
        (range2 (parseStruct [] fields envKeyConnector)) envMap cfgMap σ with
      ⟨r, σ', hOn, hPl⟩ | ⟨msg, σ', p, hOn, hp, hS, _⟩
    · left
      simp only [ptrTo, UnmarshalMapOn, UnmarshalMap, hcfg, hOn, hPl]
      cases r <;> rfl
    · right
      refine ⟨msg, p, by simp only [ptrTo, UnmarshalMapOn, hcfg, hOn], ?_, hS⟩
      rcases hp with hp | hp
      · exact (hr1 _).mem_iff.1 hp
      · exact (hr2 _).mem_iff.1 hp

/-- When every bound field is settable, `UnmarshalMap` on fields that need not be settable
does what `UnmarshalMap` does. -/
theorem UnmarshalMapOn_settable (settable : List Nat → Bool) (host : Host)
    (range1 range2 : GoMap String envEntry → List (String × envEntry))
    (hr1 : ∀ m, (range1 m).Perm m) (hr2 : ∀ m, (range2 m).Perm m)
    (envMap : GoMap String String) (fields : Fields) (paths : List String) (σ : Store)
    (hset : ∀ p ∈ parseStruct [] fields envKeyConnector, settable p.2.Value.addr = true) :
    UnmarshalMapOn settable host range1 range2 envMap (ptrTo fields) paths σ =
      UnmarshalMap host range1 range2 envMap (ptrTo fields) paths σ := by
  rcases UnmarshalMapOn_cases settable host range1 range2 hr1 hr2 envMap fields paths σ with
    h | ⟨_, p, _, hp, hS⟩
  · exact h
  · rw [hset p hp] at hS
    cases hS

/-- What `UnmarshalMap` on fields that need not be settable returns, when it returns, is
what `UnmarshalMap` returns. -/
theorem UnmarshalMapOn_returns (settable : List Nat → Bool) (host : Host)
    (range1 range2 : GoMap String envEntry → List (String × envEntry))
    (hr1 : ∀ m, (range1 m).Perm m) (hr2 : ∀ m, (range2 m).Perm m)
    (envMap : GoMap String String) (fields : Fields) (paths : List String) (σ : Store)
    (r : Option Err)
    (h : (UnmarshalMapOn settable host range1 range2 envMap (ptrTo fields) paths σ).1 =
      .returns r) :
    UnmarshalMapOn settable host range1 range2 envMap (ptrTo fields) paths σ =
      UnmarshalMap host range1 range2 envMap (ptrTo fields) paths σ := by
  rcases UnmarshalMapOn_cases settable host range1 range2 hr1 hr2 envMap fields paths σ with
    h2 | ⟨_, _, hp, _, _⟩
  · exact h2
  · rw [hp] at h
    cases h

theorem prioUnmarshalOn_settable (settable : List Nat → Bool) (host : Host)
    (order1 order2 : List (String × envEntry)) (envMap cfgMap : GoMap String String)
    (σ : Store) (h1 : ∀ p ∈ order1, settable p.2.Value.addr = true)
    (h2 : ∀ p ∈ order2, settable p.2.Value.addr = true) :
    prioUnmarshalOn settable host order1 order2 envMap cfgMap σ =
      (.returns (prioUnmarshal host order1 order2 envMap cfgMap σ).1,
        (prioUnmarshal host order1 order2 envMap cfgMap σ).2) := by
  rcases prioUnmarshalOn_cases settable host order1 order2 envMap cfgMap σ with
    ⟨r, σ', hOn, hPl⟩ | ⟨_, _, p, _, hp, hS, _⟩
  · rw [hOn, hPl]
  · rcases hp with hp | hp
    · rw [h1 p hp] at hS
      cases hS
    · rw [h2 p hp] at hS
      cases hS

theorem prioUnmarshalOn_returns (settable : List Nat → Bool) (host : Host)
    (order1 order2 : List (String × envEntry)) (envMap cfgMap : GoMap String String)
    (σ : Store) (r : Option Err)
    (h : (prioUnmarshalOn settable host order1 order2 envMap cfgMap σ).1 = .returns r) :
    prioUnmarshal host order1 order2 envMap cfgMap σ =
      (r, (prioUnmarshalOn settable host order1 order2 envMap cfgMap σ).2) := by
  rcases prioUnmarshalOn_cases settable host order1 order2 envMap cfgMap σ with
    ⟨r2, σ', hOn, hPl⟩ | ⟨_, _, _, hOn, _, _, _⟩
  · rw [hOn] at h ⊢
    simp only [Outcome.returns.injEq] at h
    rw [hPl, h]
  · rw [hOn] at h
    cases h

/-- The function `UnmarshalMap` on fields that need not be settable leaves alone what is
stored where no scalar field of the target struct is, also when it panics. -/
theorem UnmarshalMapOn_untouched (settable : List Nat → Bool) (host : Host)
    (range1 range2 : GoMap String envEntry → List (String × envEntry))
    (hr1 : ∀ m, (range1 m).Perm m) (hr2 : ∀ m, (range2 m).Perm m)
    (envMap : GoMap String String) (fields : Fields) (paths : List String) (σ : Store)
    (a : List Nat) (ha : Fields.leaf fields 0 a = none) :
    (UnmarshalMapOn settable host range1 range2 envMap (ptrTo fields) paths σ).2 a = σ a := by
  have hno : ∀ p ∈ parseStruct [] fields envKeyConnector, p.2.Value.addr ≠ a := by
    intro p hp hpa
    obtain ⟨q, hq, hleaf⟩ := parseStruct_leaf [] fields envKeyConnector p hp
    simp only [List.nil_append] at hq
    rw [← hq, hpa, ha] at hleaf
    cases hleaf
  cases hcfg : parseCfgFiles host paths with
  | error err => simp only [ptrTo, UnmarshalMapOn, hcfg]
  | ok cfgMap =>
    rcases prioUnmarshalOn_cases settable host (range1 (parseStruct [] fields envKeyConnector))
        (range2 (parseStruct [] fields envKeyConnector)) envMap cfgMap σ with
      ⟨r, σ', hOn, hPl⟩ | ⟨msg, σ', p, hOn, _, _, hfr⟩
    · have hpl := prio_untouched host _ _ envMap cfgMap σ a
        (fun p hp => hno p ((hr1 _).mem_iff.1 hp)) (fun p hp => hno p ((hr2 _).mem_iff.1 hp))
      rw [hPl] at hpl
      simp only [ptrTo, UnmarshalMapOn, hcfg, hOn]
      cases r <;> exact hpl
    · simp only [ptrTo, UnmarshalMapOn, hcfg, hOn]
      exact hfr a (fun p hp => hno p ((hr1 _).mem_iff.1 hp))
        (fun p hp => hno p ((hr2 _).mem_iff.1 hp))

/-! ## C1: precedence of the environment over the file -/

/-- C1 (as stated) fails: in `struct { A string "env:\"K,K2\"" }` the key `K` is bound to
field `A`; with `K=e1`, `K2=e2` in the environment and `K=f` in the file map the call
succeeds when `K` is visited before `K2`, and `A` then holds `e2`, not the environment
value `e1` of `K`. -/
theorem precedence_counterexample :
    ("K", (⟨⟨[0], .String⟩, false, ""⟩ : envEntry)) ∈ parseStruct [] twoKeys envKeyConnector ∧
    GoMap.get? [("K", "e1"), ("K2", "e2")] "K" = some "e1" ∧
    GoMap.get? [("K", "f")] "K" = some "f" ∧
    (prioUnmarshal Host.bare (listed (parseStruct [] twoKeys envKeyConnector))
      (listed (parseStruct [] twoKeys envKeyConnector))
      [("K", "e1"), ("K2", "e2")] [("K", "f")] emptyStrings).1 = none ∧
    (prioUnmarshal Host.bare (listed (parseStruct [] twoKeys envKeyConnector))
      (listed (parseStruct [] twoKeys envKeyConnector))
      [("K", "e1"), ("K2", "e2")] [("K", "f")] emptyStrings).2 [0] = .string "e2" ∧
    coerce Host.bare .String "e1" = some (.string "e1") := by
  refine ⟨by decide, by decide, by decide, by rfl, by decide, by decide⟩

/-- C1 (amended): for every target struct, every key `K` bound to a field and every
environment map that contains `K` (whatever the file map holds for `K`), after a successful
`prioUnmarshal` the field holds the coerced environment value of a key bound to that field
and present in the environment map; it is the value of `K` itself as soon as no other key
of the field is in the environment map with a different value. -/
theorem precedence_env_over_file (host : Host) (fields : Fields)
    (order1 order2 : List (String × envEntry)) (envMap cfgMap : GoMap String String)
    (σ : Store) (K : String) (e : envEntry) (ev : String)
    (h1 : order1.Perm (parseStruct [] fields envKeyConnector))
    (h2 : order2.Perm (parseStruct [] fields envKeyConnector))
    (hK : (K, e) ∈ parseStruct [] fields envKeyConnector)
    (henv : envMap.get? K = some ev)
    (hok : (prioUnmarshal host order1 order2 envMap cfgMap σ).1 = none) :
    (∃ K' ev', (K', e) ∈ parseStruct [] fields envKeyConnector ∧ envMap.get? K' = some ev' ∧
      coerce host e.Value.kind ev' =
        some ((prioUnmarshal host order1 order2 envMap cfgMap σ).2 e.Value.addr)) ∧
    ((∀ p ∈ parseStruct [] fields envKeyConnector, p.2 = e →
        envMap.get? p.1 = none ∨ envMap.get? p.1 = some ev) →
      coerce host e.Value.kind ev =
        some ((prioUnmarshal host order1 order2 envMap cfgMap σ).2 e.Value.addr)) := by
  obtain ⟨σ1, pm1, pm2, hp, hf⟩ :=
    prioUnmarshal_primary_done host order1 order2 envMap cfgMap σ (Or.inl hok)
  have hex := prio_env host _ order1 order2 envMap cfgMap σ σ1 _ pm1 pm2 _
    (parseStruct_addrInj [] fields envKeyConnector) h1 h2 hp hf K e ev hK henv
  refine ⟨hex, fun hsame => ?_⟩
  obtain ⟨K', ev', hK', hev', hc⟩ := hex
  rcases hsame (K', e) hK' rfl with h | h
  · rw [hev'] at h
    cases h
  · rw [hev'] at h
    cases h
    exact hc

/-- C1, witness: the first two fields of the test struct with `VAR` in both maps. -/
theorem precedence_env_over_file_witness :
    (prioUnmarshal Host.bare (listed (parseStruct [] varAndMissing envKeyConnector))
      (listed (parseStruct [] varAndMissing envKeyConnector))
      [("VAR", "Something")] [("VAR", "Other")] emptyStrings).1 = none ∧
    coerce Host.bare .String "Something" =
      some ((prioUnmarshal Host.bare (listed (parseStruct [] varAndMissing envKeyConnector))
        (listed (parseStruct [] varAndMissing envKeyConnector))
        [("VAR", "Something")] [("VAR", "Other")] emptyStrings).2 [0]) :=
  ⟨by rfl,
   (precedence_env_over_file Host.bare varAndMissing
      (listed (parseStruct [] varAndMissing envKeyConnector))
      (listed (parseStruct [] varAndMissing envKeyConnector))
      [("VAR", "Something")] [("VAR", "Other")] emptyStrings "VAR" ⟨⟨[0], .String⟩, false, ""⟩
      "Something" (List.Perm.refl _) (List.Perm.refl _) (by decide) (by decide) (by rfl)).2
      (by decide)⟩

/-! ## C2: default fallback -/

/-- C2 (as stated) fails for a field that has a default and is also required: with `A`
in neither map, `UnmarshalMap` returns `RequiredKeyNotPresent` for `A`, and the field keeps
its old value instead of the default `x`. -/
theorem default_fallback_counterexample :
    ("A", (⟨⟨[0], .String⟩, true, "x"⟩ : envEntry)) ∈
      parseStruct [] requiredWithDefault envKeyConnector ∧
    (UnmarshalMap Host.bare listed listed [] (ptrTo requiredWithDefault) [] emptyStrings).1 =
      .returns (some (.Wrap (.RequiredKeyNotPresentError ["A"])
        "unmarshalling aggregated values")) ∧
    (UnmarshalMap Host.bare listed listed [] (ptrTo requiredWithDefault) [] emptyStrings).2 [0] =
      .string "" ∧
    coerce Host.bare .String "x" = some (.string "x") := by
  refine ⟨by decide, by rfl, by decide, by decide⟩

/-- C2 (amended): for every bound field that is not required and has a non-empty default,
none of whose keys is in the environment map or the file map, `UnmarshalMap` never returns
a `RequiredKeyNotPresent` error naming one of the field's keys, and whenever it returns
without error the field holds the default coerced to the field's type. -/
theorem default_fallback (host : Host)
    (range1 range2 : GoMap String envEntry → List (String × envEntry))
    (envMap : GoMap String String) (fields : Fields) (paths : List String) (σ : Store)
    (cfgMap : GoMap String String) (K : String) (e : envEntry)
    (hr1 : ∀ m, (range1 m).Perm m) (hr2 : ∀ m, (range2 m).Perm m)
    (hcfg : parseCfgFiles host paths = .ok cfgMap)
    (hK : (K, e) ∈ parseStruct [] fields envKeyConnector)
    (hreq : e.IsRequired = false) (hdef : e.Default ≠ "")
    (habs : ∀ p ∈ parseStruct [] fields envKeyConnector, p.2 = e →
      envMap.get? p.1 = none ∧ cfgMap.get? p.1 = none) :
    (∀ err keys, (UnmarshalMap host range1 range2 envMap (ptrTo fields) paths σ).1 =
        .returns (some err) → Cause err = .RequiredKeyNotPresentError keys →
      ∀ p ∈ parseStruct [] fields envKeyConnector, p.2 = e → p.1 ∉ keys) ∧
    ((UnmarshalMap host range1 range2 envMap (ptrTo fields) paths σ).1 = .returns none →
      coerce host e.Value.kind e.Default =
        some ((UnmarshalMap host range1 range2 envMap (ptrTo fields) paths σ).2
          e.Value.addr)) := by
  obtain ⟨hU2, hUok, hUerr, _⟩ :=
    UnmarshalMap_result host range1 range2 envMap fields paths σ cfgMap hcfg
  have h1 := hr1 (parseStruct [] fields envKeyConnector)
  have h2 := hr2 (parseStruct [] fields envKeyConnector)
  constructor
  · intro err keys herr hcause p hp hpe hmem
    obtain ⟨err1, hp1, he⟩ := hUerr err herr
    rw [he, Cause_wrap] at hcause
    rcases prioUnmarshal_err_struct host fields _ _ h1 h2 envMap cfgMap σ err1 hp1 with
      ⟨f, n, c, hc⟩ | ⟨k, e', hm, hq, he'⟩
    · rw [hc] at hcause
      cases hcause
    · rw [he'] at hcause
      simp only [Cause, Err.RequiredKeyNotPresentError.injEq] at hcause
      rw [← hcause] at hmem
      simp only [List.mem_singleton] at hmem
      have hpk : (k, e) ∈ parseStruct [] fields envKeyConnector := by
        rw [← hmem, ← hpe]
        exact hp
      have := GoMap.unique_of_nodup _ (parseStruct_nodup [] fields envKeyConnector) k e e' hpk hm
      rw [this, hq] at hreq
      cases hreq
  · intro hok
    have hok' := hUok hok
    obtain ⟨σ1, pm1, pm2, hp, hf⟩ := prioUnmarshal_primary_done host _ _ envMap cfgMap σ
      (Or.inl hok')
    rw [hok'] at hf
    rw [hU2]
    exact (prio_default host _ _ _ envMap cfgMap σ σ1 _ pm1 pm2
      (parseStruct_addrInj [] fields envKeyConnector) h1 h2 hp hf K e hK
      (fun K' hK' => habs (K', e) hK' rfl)).1 hdef

/-- C2, witness: the second case of `TestUnmarshalMap`; `MISSING_VAR` is absent and
`MissingVar` ends as `missing`. -/
theorem default_fallback_witness :
    (UnmarshalMap Host.bare listed listed
      [("VAR", "Something"), ("REQUIRED_VAR", "Here"), ("REQUIRED_MISSING_VAR", "All good")]
      (ptrTo testStruct) [] emptyStrings).1 = .returns none ∧
    coerce Host.bare .String "missing" =
      some ((UnmarshalMap Host.bare listed listed
        [("VAR", "Something"), ("REQUIRED_VAR", "Here"), ("REQUIRED_MISSING_VAR", "All good")]
        (ptrTo testStruct) [] emptyStrings).2 [1]) :=
  ⟨by rfl,
   (default_fallback Host.bare listed listed
      [("VAR", "Something"), ("REQUIRED_VAR", "Here"), ("REQUIRED_MISSING_VAR", "All good")]
      testStruct [] emptyStrings [] "MISSING_VAR" ⟨⟨[1], .String⟩, false, "missing"⟩
      (fun _ => List.Perm.refl _) (fun _ => List.Perm.refl _) (by rfl) (by decide) (by rfl)
      (by decide) (by decide)).2 (by rfl)⟩

/-! ## C3: a required key without a value -/

/-- C3 (as stated) fails in two ways.  With a second field whose default does not parse
and which the second loop visits first, the call fails with the parse error of that
default, which is not a `RequiredKeyNotPresent` error, although no coercion failed in the
first loop.  With a later field declared under the same key `K`, the required field is
not in the entry map at all and the call returns nil. -/
theorem required_without_value_counterexample :
    ((UnmarshalMap Host.bare listed listed [] (ptrTo badDefaultThenRequired) []
        emptyStrings).1 =
      .returns (some (.Wrap (.Wrap (.Wrap (.NumError "ParseInt" "abc" .ErrSyntax)
        "casting value as int") "setting default value of env var A")
        "unmarshalling aggregated values")) ∧
     IsRequiredKeyNotPresentError (some (.Wrap (.Wrap (.Wrap
        (.NumError "ParseInt" "abc" .ErrSyntax)
        "casting value as int") "setting default value of env var A")
        "unmarshalling aggregated values")) = false) ∧
    (parseStruct [] sharedKey envKeyConnector = [("K", ⟨⟨[1], .String⟩, false, ""⟩)] ∧
     (UnmarshalMap Host.bare listed listed [] (ptrTo sharedKey) [] emptyStrings).1 =
      .returns none) := by
  refine ⟨⟨by rfl, by decide⟩, by decide, by rfl⟩

/-- When every bound field is settable and the files parse, a required field without a
value makes `UnmarshalMap` return a RequiredKeyNotPresent error, provided no coercion
fails. -/
theorem UnmarshalMap_required_missing (host : Host)
    (range1 range2 : GoMap String envEntry → List (String × envEntry))
    (envMap : GoMap String String) (fields : Fields) (paths : List String) (σ : Store)
    (cfgMap : GoMap String String) (K : String) (e : envEntry)
    (hr1 : ∀ m, (range1 m).Perm m) (hr2 : ∀ m, (range2 m).Perm m)
    (hcfg : parseCfgFiles host paths = .ok cfgMap)
    (hK : (K, e) ∈ parseStruct [] fields envKeyConnector)
    (hreq : e.IsRequired = true)
    (hsingle : ∀ p ∈ parseStruct [] fields envKeyConnector, p.2 = e → p.1 = K)
    (henv : envMap.get? K = none) (hfile : cfgMap.get? K = none)
    (hprim : ∀ p ∈ parseStruct [] fields envKeyConnector, ∀ v,
      (envMap.get? p.1 = some v ∨ (envMap.get? p.1 = none ∧ cfgMap.get? p.1 = some v)) →
      coerce host p.2.Value.kind v ≠ none)
    (hdefault : ∀ p ∈ parseStruct [] fields envKeyConnector, p.2.IsRequired = false →
      p.2.Default ≠ "" → coerce host p.2.Value.kind p.2.Default ≠ none) :
    (∃ err, (UnmarshalMap host range1 range2 envMap (ptrTo fields) paths σ).1 =
        .returns (some err) ∧ IsRequiredKeyNotPresentError (some err) = true) ∧
    ((∀ p ∈ parseStruct [] fields envKeyConnector, p.2.IsRequired = true →
        (∀ q ∈ parseStruct [] fields envKeyConnector, q.2 = p.2 →
          envMap.get? q.1 = none ∧ cfgMap.get? q.1 = none) → p.2 = e) →
      ∃ err, (UnmarshalMap host range1 range2 envMap (ptrTo fields) paths σ).1 =
        .returns (some err) ∧ Cause err = .RequiredKeyNotPresentError [K]) := by
  obtain ⟨_, _, _, hUerr⟩ :=
    UnmarshalMap_result host range1 range2 envMap fields paths σ cfgMap hcfg
  have h1 := hr1 (parseStruct [] fields envKeyConnector)
  have h2 := hr2 (parseStruct [] fields envKeyConnector)
  have hM := parseStruct_addrInj [] fields envKeyConnector
  have hnd := parseStruct_nodup [] fields envKeyConnector
  -- the first loop runs to the end
  rcases prioUnmarshal_cases host (range1 (parseStruct [] fields envKeyConnector))
      (range2 (parseStruct [] fields envKeyConnector)) envMap cfgMap σ with
    ⟨err1, σ1, pm1, hp, _⟩ | ⟨σ1, pm1, r, σ2, pm2, hp, hf, hr⟩
  · have := primaryPass_ok host envMap cfgMap _ σ [] _ σ1 pm1 hp
      (fun k e' v hm hv => hprim (k, e') (h1.mem_iff.1 hm) v hv)
    cases this
  · have habs : ∀ k', (k', e) ∈ parseStruct [] fields envKeyConnector →
        envMap.get? k' = none ∧ cfgMap.get? k' = none := by
      intro k' hk'
      have hk : k' = K := hsingle (k', e) hk' rfl
      rw [hk]
      exact ⟨henv, hfile⟩
    obtain ⟨_, hpm⟩ := prio_absent host _ _ envMap cfgMap σ σ1 pm1 none hM h1 hp K e hK habs
    -- the second loop cannot return nil
    cases r with
    | none =>
      exact absurd hpm (fallbackPass_required host e hreq _ σ1 pm1 σ2 pm2 hf
        ⟨K, h2.mem_iff.2 hK⟩)
    | some err1 =>
      obtain ⟨pre, k, e', post, σx, pmx, hL, hpre, hfail, _, _⟩ :=
        fallbackPass_err host _ σ1 pm1 err1 σ2 pm2 hf
      have hmem : (k, e') ∈ parseStruct [] fields envKeyConnector :=
        h2.mem_iff.1 (by rw [hL]; simp)
      have hU := hUerr err1 (by rw [hr])
      obtain ⟨hpmx, hcase⟩ := hfail
      rcases hcase with ⟨hq, he⟩ | ⟨err0, hq, hd, hc, _, _⟩
      · subst he
        refine ⟨⟨_, hU, by simp [IsRequiredKeyNotPresentError, Cause,
          NewRequiredKeyNotPresentError]⟩, fun honly => ?_⟩
        refine ⟨_, hU, ?_⟩
        -- the entry that failed has no key in either map
        have hsub : ∀ p ∈ pre, p ∈ parseStruct [] fields envKeyConnector := by
          intro p hp'
          exact h2.mem_iff.1 (by rw [hL]; simp [hp'])
        have hsep_pre : Sep e' pre := hM.sep hmem hsub
        have hpm1 : pm1.get? e' = none := by
          by_contra hne
          have := fallbackPass_frame host e' pre σ1 pm1 none σx pmx hpre hsep_pre
            (fun _ => Or.inl hne)
          rw [this.2] at hpmx
          exact hne hpmx
        have hsep1 : Sep e' (range1 (parseStruct [] fields envKeyConnector)) :=
          hM.sep hmem (fun p hp' => h1.mem_iff.1 hp')
        have hun := primaryPass_unsatisfied host envMap cfgMap e' _ σ σ1 pm1 hp hsep1 hpm1
        have hee : e' = e := honly (k, e') hmem hq (fun q hq' hqe => by
          have hqe' : q.2 = e' := hqe
          have hq2 : (q.1, e') ∈ range1 (parseStruct [] fields envKeyConnector) := by
            rw [← hqe']
            exact h1.mem_iff.2 hq'
          exact hun q.1 hq2)
        have hkK : k = K := hsingle (k, e') hmem hee
        rw [hkK]
        simp [Cause, NewRequiredKeyNotPresentError]
      · exact absurd hc (hdefault (k, e') hmem hq hd)

/-- C3 (amended): for every target struct all of whose bound fields are settable (exported)
and whose entry map binds key `K` to a field with `required=true` that has no other key,
if every configuration file parses, `K` is in neither the environment map nor the file
map, no coercion fails in the first loop and every non-empty default of a non-required
bound field coerces, then `UnmarshalMap` returns an error for which
`IsRequiredKeyNotPresentError` is true; when that field is the only required bound field
without a key in either map, the cause of the error has `Keys = [K]`. -/
theorem required_without_value (settable : List Nat → Bool) (host : Host)
    (range1 range2 : GoMap String envEntry → List (String × envEntry))
    (envMap : GoMap String String) (fields : Fields) (paths : List String) (σ : Store)
    (cfgMap : GoMap String String) (K : String) (e : envEntry)
    (hr1 : ∀ m, (range1 m).Perm m) (hr2 : ∀ m, (range2 m).Perm m)
    (hset : ∀ p ∈ parseStruct [] fields envKeyConnector, settable p.2.Value.addr = true)
    (hcfg : parseCfgFiles host paths = .ok cfgMap)
    (hK : (K, e) ∈ parseStruct [] fields envKeyConnector)
    (hreq : e.IsRequired = true)
    (hsingle : ∀ p ∈ parseStruct [] fields envKeyConnector, p.2 = e → p.1 = K)
    (henv : envMap.get? K = none) (hfile : cfgMap.get? K = none)
    (hprim : ∀ p ∈ parseStruct [] fields envKeyConnector, ∀ v,
      (envMap.get? p.1 = some v ∨ (envMap.get? p.1 = none ∧ cfgMap.get? p.1 = some v)) →
      coerce host p.2.Value.kind v ≠ none)
    (hdefault : ∀ p ∈ parseStruct [] fields envKeyConnector, p.2.IsRequired = false →
      p.2.Default ≠ "" → coerce host p.2.Value.kind p.2.Default ≠ none) :
    (∃ err, (UnmarshalMapOn settable host range1 range2 envMap (ptrTo fields) paths σ).1 =
        .returns (some err) ∧ IsRequiredKeyNotPresentError (some err) = true) ∧
    ((∀ p ∈ parseStruct [] fields envKeyConnector, p.2.IsRequired = true →
        (∀ q ∈ parseStruct [] fields envKeyConnector, q.2 = p.2 →
          envMap.get? q.1 = none ∧ cfgMap.get? q.1 = none) → p.2 = e) →
      ∃ err, (UnmarshalMapOn settable host range1 range2 envMap (ptrTo fields) paths σ).1 =
        .returns (some err) ∧ Cause err = .RequiredKeyNotPresentError [K]) := by
  rw [UnmarshalMapOn_settable settable host range1 range2 hr1 hr2 envMap fields paths σ hset]
  exact UnmarshalMap_required_missing host range1 range2 envMap fields paths σ cfgMap K e
    hr1 hr2 hcfg hK hreq hsingle henv hfile hprim hdefault

/-- C3, witness: the third case of `TestUnmarshalMap`, all of whose fields are exported;
`REQUIRED_MISSING_VAR` is absent and the error names exactly that key. -/
theorem required_without_value_witness :
    GoMap.get? [("VAR", "Something"), ("MISSING_VAR", "Not missing"), ("REQUIRED_VAR", "Here")]
      "REQUIRED_MISSING_VAR" = none ∧
    ∃ err, (UnmarshalMapOn (fun _ => true) Host.bare listed listed
        [("VAR", "Something"), ("MISSING_VAR", "Not missing"), ("REQUIRED_VAR", "Here")]
        (ptrTo testStruct) [] emptyStrings).1 = .returns (some err) ∧
      Cause err = .RequiredKeyNotPresentError ["REQUIRED_MISSING_VAR"] :=
  ⟨by decide,
   (required_without_value (fun _ => true) Host.bare listed listed
      [("VAR", "Something"), ("MISSING_VAR", "Not missing"), ("REQUIRED_VAR", "Here")]
      testStruct [] emptyStrings [] "REQUIRED_MISSING_VAR" ⟨⟨[3], .String⟩, true, ""⟩
      (fun _ => List.Perm.refl _) (fun _ => List.Perm.refl _) (fun _ _ => rfl) (by rfl)
      (by decide) (by rfl) (by decide) (by decide) (by decide)
      (fun p hp v _ => by
        have hall : ∀ q ∈ parseStruct [] testStruct envKeyConnector,
            q.2.Value.kind = .String := by decide
        have hk := hall p hp
        rw [hk, coerce_string]
        simp)
      (fun p hp _ _ => by
        have hall : ∀ q ∈ parseStruct [] testStruct envKeyConnector,
            q.2.Value.kind = .String := by decide
        have hk := hall p hp
        rw [hk, coerce_string]
        simp)).2 (by decide)⟩

/-! ## C4: where the final value of a field comes from -/

/-- C4: for every target struct in which each bound field has exactly one key, and for all
environment and file maps and all iteration orders, after a successful `prioUnmarshal` the
field bound to key `K` holds the coerced environment value of `K` if `K` is in the
environment map, else the coerced file value of `K` if `K` is in the file map, else its
coerced default if that is non-empty, else the value it had before the call; a string
field holds the chosen raw string verbatim. -/
theorem source_of_final_value (host : Host) (fields : Fields)
    (order1 order2 : List (String × envEntry)) (envMap cfgMap : GoMap String String)
    (σ : Store) (K : String) (e : envEntry)
    (h1 : order1.Perm (parseStruct [] fields envKeyConnector))
    (h2 : order2.Perm (parseStruct [] fields envKeyConnector))
    (hone : ∀ p ∈ parseStruct [] fields envKeyConnector,
      ∀ q ∈ parseStruct [] fields envKeyConnector,
        p.2.Value.addr = q.2.Value.addr → p.1 = q.1)
    (hK : (K, e) ∈ parseStruct [] fields envKeyConnector)
    (hok : (prioUnmarshal host order1 order2 envMap cfgMap σ).1 = none) :
    (∀ v, envMap.get? K = some v → coerce host e.Value.kind v =
      some ((prioUnmarshal host order1 order2 envMap cfgMap σ).2 e.Value.addr)) ∧
    (∀ v, envMap.get? K = none → cfgMap.get? K = some v → coerce host e.Value.kind v =
      some ((prioUnmarshal host order1 order2 envMap cfgMap σ).2 e.Value.addr)) ∧
    (envMap.get? K = none → cfgMap.get? K = none → e.Default ≠ "" →
      coerce host e.Value.kind e.Default =
        some ((prioUnmarshal host order1 order2 envMap cfgMap σ).2 e.Value.addr)) ∧
    (envMap.get? K = none → cfgMap.get? K = none → e.Default = "" →
      (prioUnmarshal host order1 order2 envMap cfgMap σ).2 e.Value.addr = σ e.Value.addr) ∧
    (∀ s, coerce host .String s = some (.string s)) := by
  obtain ⟨σ1, pm1, pm2, hp, hf⟩ :=
    prioUnmarshal_primary_done host order1 order2 envMap cfgMap σ (Or.inl hok)
  have hM := parseStruct_addrInj [] fields envKeyConnector
  have hkey := one_key_same fields hone K
  rw [hok] at hf
  refine ⟨?_, ?_, ?_, ?_, ?_⟩
  · intro v hv
    obtain ⟨K', v', hK', hv', hc⟩ := prio_env host _ order1 order2 envMap cfgMap σ σ1 _ pm1 pm2 _
      hM h1 h2 hp hf K e v hK hv
    rw [hkey K' e hK hK', hv] at hv'
    cases hv'
    exact hc
  · intro v hv hc
    obtain ⟨K', v', hK', hv', hc'⟩ := prio_cfg host _ order1 order2 envMap cfgMap σ σ1 _ pm1 pm2
      _ hM h1 h2 hp hf K e v hK (fun K' hK' => by rw [hkey K' e hK hK']; exact hv) hc
    rw [hkey K' e hK hK', hc] at hv'
    cases hv'
    exact hc'
  · intro hv hc hd
    exact (prio_default host _ order1 order2 envMap cfgMap σ σ1 _ pm1 pm2 hM h1 h2 hp hf K e hK
      (fun K' hK' => by rw [hkey K' e hK hK']; exact ⟨hv, hc⟩)).1 hd
  · intro hv hc hd
    exact (prio_default host _ order1 order2 envMap cfgMap σ σ1 _ pm1 pm2 hM h1 h2 hp hf K e hK
      (fun K' hK' => by rw [hkey K' e hK hK']; exact ⟨hv, hc⟩)).2 hd
  · intro s
    simp [coerce, setVal, Value.SetString, Store.set]

/-- C4, witness: the first two fields of the test struct, `VAR` in the environment and
`MISSING_VAR` nowhere; the second field ends with its default. -/
theorem source_of_final_value_witness :
    (prioUnmarshal Host.bare (listed (parseStruct [] varAndMissing envKeyConnector))
      (listed (parseStruct [] varAndMissing envKeyConnector))
      [("VAR", "Something")] [] emptyStrings).1 = none ∧
    coerce Host.bare .String "missing" =
      some ((prioUnmarshal Host.bare (listed (parseStruct [] varAndMissing envKeyConnector))
        (listed (parseStruct [] varAndMissing envKeyConnector))
        [("VAR", "Something")] [] emptyStrings).2 [1]) :=
  ⟨by rfl,
   (source_of_final_value Host.bare varAndMissing
      (listed (parseStruct [] varAndMissing envKeyConnector))
      (listed (parseStruct [] varAndMissing envKeyConnector))
      [("VAR", "Something")] [] emptyStrings "MISSING_VAR" ⟨⟨[1], .String⟩, false, "missing"⟩
      (List.Perm.refl _) (List.Perm.refl _) (by decide) (by decide) (by rfl)).2.2.1
      (by decide) (by decide) (by decide)⟩

/-! ## C5: nested key composition -/

/-- C5: for every target struct without key collisions, `parseStruct` binds a scalar leaf
field under exactly the keys obtained by choosing one declared key name at each level on
the way from the root to the leaf and joining the names with `_`, outermost first, and it
registers no other key. -/
theorem nested_key_composition (fields : Fields)
    (hnd : (GoMap.keys (qualifiedKeysFrom [] 0 fields)).Nodup) (K : String) (e : envEntry) :
    (K, e) ∈ parseStruct [] fields envKeyConnector ↔
      ∃ path, (path, e) ∈ leafKeyPathsFrom [] 0 fields ∧ K = joinKeys path := by
  have h := parseStructFrom_qualified fields [] 0 [] (by simpa using hnd)
  rw [parseStruct, h]
  simp only [List.nil_append, qualifiedKeysFrom, List.mem_map, Prod.mk.injEq]
  constructor
  · rintro ⟨pe, hpe, hk, he⟩
    exact ⟨pe.1, by rw [← he]; exact hpe, hk.symm⟩
  · rintro ⟨path, hp, hk⟩
    exact ⟨(path, e), hp, hk.symm, rfl⟩

/-- C5, witness: the nesting scenario; the string field is bound to `SUPER_SUB_X` and
`UnmarshalMap` sets it from that environment entry. -/
theorem nested_key_composition_witness :
    (GoMap.keys (qualifiedKeysFrom [] 0 superSubX)).Nodup ∧
    ("SUPER_SUB_X", (⟨⟨[0, 0, 0], .String⟩, false, ""⟩ : envEntry)) ∈
      parseStruct [] superSubX envKeyConnector ∧
    parseStruct [] superSubX envKeyConnector =
      [("SUPER_SUB_X", ⟨⟨[0, 0, 0], .String⟩, false, ""⟩)] ∧
    (UnmarshalMap Host.bare listed listed [("SUPER_SUB_X", "subsubstr")] (ptrTo superSubX) []
      emptyStrings).1 = .returns none ∧
    (UnmarshalMap Host.bare listed listed [("SUPER_SUB_X", "subsubstr")] (ptrTo superSubX) []
      emptyStrings).2 [0, 0, 0] = .string "subsubstr" :=
  ⟨by decide,
   (nested_key_composition superSubX (by decide) "SUPER_SUB_X"
      ⟨⟨[0, 0, 0], .String⟩, false, ""⟩).2 ⟨["SUPER", "SUB", "X"], by decide, by decide⟩,
   by decide, by rfl, by decide⟩

/-! ## C6: no rollback when a required key is missing -/

/-- C6: whenever `prioUnmarshal` fails with a `RequiredKeyNotPresent` error, on a target in
which each bound field has one key, every bound field whose key is in the environment map
holds its coerced environment value, and every bound field whose key is only in the file
map holds its coerced file value, for every iteration order of the two loops. -/
theorem no_rollback_on_required_failure (host : Host) (fields : Fields)
    (order1 order2 : List (String × envEntry)) (envMap cfgMap : GoMap String String)
    (σ : Store) (K : String) (e : envEntry)
    (h1 : order1.Perm (parseStruct [] fields envKeyConnector))
    (h2 : order2.Perm (parseStruct [] fields envKeyConnector))
    (hone : ∀ p ∈ parseStruct [] fields envKeyConnector,
      ∀ q ∈ parseStruct [] fields envKeyConnector,
        p.2.Value.addr = q.2.Value.addr → p.1 = q.1)
    (hK : (K, e) ∈ parseStruct [] fields envKeyConnector)
    (hfail : IsRequiredKeyNotPresentError
      (prioUnmarshal host order1 order2 envMap cfgMap σ).1 = true) :
    (∀ v, envMap.get? K = some v → coerce host e.Value.kind v =
      some ((prioUnmarshal host order1 order2 envMap cfgMap σ).2 e.Value.addr)) ∧
    (∀ v, envMap.get? K = none → cfgMap.get? K = some v → coerce host e.Value.kind v =
      some ((prioUnmarshal host order1 order2 envMap cfgMap σ).2 e.Value.addr)) := by
  obtain ⟨σ1, pm1, pm2, hp, hf⟩ :=
    prioUnmarshal_primary_done host order1 order2 envMap cfgMap σ (Or.inr hfail)
  have hM := parseStruct_addrInj [] fields envKeyConnector
  have hkey := one_key_same fields hone K
  refine ⟨?_, ?_⟩
  · intro v hv
    obtain ⟨K', v', hK', hv', hc⟩ := prio_env host _ order1 order2 envMap cfgMap σ σ1 _ pm1 pm2 _
      hM h1 h2 hp hf K e v hK hv
    rw [hkey K' e hK hK', hv] at hv'
    cases hv'
    exact hc
  · intro v hv hc
    obtain ⟨K', v', hK', hv', hc'⟩ := prio_cfg host _ order1 order2 envMap cfgMap σ σ1 _ pm1 pm2
      _ hM h1 h2 hp hf K e v hK (fun K' hK' => by rw [hkey K' e hK hK']; exact hv) hc
    rw [hkey K' e hK hK', hc] at hv'
    cases hv'
    exact hc'

/-- C6, witness: the third case of `TestUnmarshalMap`; `REQUIRED_MISSING_VAR` is missing,
the call fails, and `Var` holds `Something` all the same. -/
theorem no_rollback_on_required_failure_witness :
    IsRequiredKeyNotPresentError
      (prioUnmarshal Host.bare (listed (parseStruct [] testStruct envKeyConnector))
        (listed (parseStruct [] testStruct envKeyConnector))
        [("VAR", "Something"), ("MISSING_VAR", "Not missing"), ("REQUIRED_VAR", "Here")] []
        emptyStrings).1 = true ∧
    coerce Host.bare .String "Something" =
      some ((prioUnmarshal Host.bare (listed (parseStruct [] testStruct envKeyConnector))
        (listed (parseStruct [] testStruct envKeyConnector))
        [("VAR", "Something"), ("MISSING_VAR", "Not missing"), ("REQUIRED_VAR", "Here")] []
        emptyStrings).2 [0]) :=
  ⟨by decide,
   (no_rollback_on_required_failure Host.bare testStruct
      (listed (parseStruct [] testStruct envKeyConnector))
      (listed (parseStruct [] testStruct envKeyConnector))
      [("VAR", "Something"), ("MISSING_VAR", "Not missing"), ("REQUIRED_VAR", "Here")] []
      emptyStrings "VAR" ⟨⟨[0], .String⟩, false, ""⟩
      (List.Perm.refl _) (List.Perm.refl _) (by decide) (by decide) (by decide)).1
      "Something" (by decide)⟩

/-! ## C7: defaults and the required-key failure -/

/-- C7 (as stated) fails: with an empty environment and no file, the second loop visits
the required key `B` first and returns at once; the non-required field `A` with default
`x` and no key in either map still holds its old value when the call returns. -/
theorem defaults_before_failure_counterexample :
    ("A", (⟨⟨[1], .String⟩, false, "x"⟩ : envEntry)) ∈
      parseStruct [] requiredThenDefault envKeyConnector ∧
    (UnmarshalMap Host.bare listed listed [] (ptrTo requiredThenDefault) [] emptyStrings).1 =
      .returns (some (.Wrap (.RequiredKeyNotPresentError ["B"])
        "unmarshalling aggregated values")) ∧
    (UnmarshalMap Host.bare listed listed [] (ptrTo requiredThenDefault) [] emptyStrings).2 [1] =
      .string "" ∧
    coerce Host.bare .String "x" = some (.string "x") := by
  refine ⟨by decide, by rfl, by decide, by decide⟩

/-- C7 (amended): whenever `UnmarshalMap` fails with a `RequiredKeyNotPresent` error naming
key `Kf`, a non-required bound field that has a non-empty default and no key in the
environment or file map holds its coerced default if the second loop visited one of its
keys before `Kf`, and still holds the value it had before the call otherwise; this for
every iteration order. -/
theorem defaults_before_failure (host : Host)
    (range1 range2 : GoMap String envEntry → List (String × envEntry))
    (envMap : GoMap String String) (fields : Fields) (paths : List String) (σ : Store)
    (cfgMap : GoMap String String) (K : String) (e : envEntry) (err : Err)
    (Kf : String) (ef : envEntry) (pre post : List (String × envEntry))
    (hr1 : ∀ m, (range1 m).Perm m) (hr2 : ∀ m, (range2 m).Perm m)
    (hcfg : parseCfgFiles host paths = .ok cfgMap)
    (hK : (K, e) ∈ parseStruct [] fields envKeyConnector)
    (hdef : e.Default ≠ "")
    (habs : ∀ p ∈ parseStruct [] fields envKeyConnector, p.2 = e →
      envMap.get? p.1 = none ∧ cfgMap.get? p.1 = none)
    (hfail : (UnmarshalMap host range1 range2 envMap (ptrTo fields) paths σ).1 =
      .returns (some err))
    (hcause : Cause err = .RequiredKeyNotPresentError [Kf])
    (hsplit : range2 (parseStruct [] fields envKeyConnector) = pre ++ (Kf, ef) :: post) :
    ((∃ p ∈ pre, p.2 = e) → coerce host e.Value.kind e.Default =
      some ((UnmarshalMap host range1 range2 envMap (ptrTo fields) paths σ).2 e.Value.addr)) ∧
    ((∀ p ∈ pre, p.2 ≠ e) →
      (UnmarshalMap host range1 range2 envMap (ptrTo fields) paths σ).2 e.Value.addr =
        σ e.Value.addr) := by
  obtain ⟨hU2, _, hUerr, _⟩ :=
    UnmarshalMap_result host range1 range2 envMap fields paths σ cfgMap hcfg
  have h1 := hr1 (parseStruct [] fields envKeyConnector)
  have h2 := hr2 (parseStruct [] fields envKeyConnector)
  have hM := parseStruct_addrInj [] fields envKeyConnector
  have hnd := perm_keys_nodup (parseStruct_nodup [] fields envKeyConnector) h2
  obtain ⟨err1, hp1, he⟩ := hUerr err hfail
  rw [he, Cause_wrap] at hcause
  obtain ⟨σ1, pm1, pm2, hp, hf⟩ := prioUnmarshal_primary_done host _ _ envMap cfgMap σ
    (Or.inr (by rw [hp1]; simp [IsRequiredKeyNotPresentError, hcause]))
  rw [hp1] at hf
  obtain ⟨pre', k, e', post', σx, pmx, hL, hpre, hfl, hσ, _⟩ :=
    fallbackPass_err host _ σ1 pm1 err1 _ pm2 hf
  have hk : k = Kf := by
    rcases hfl.fallbackCause with ⟨_, hc⟩ | ⟨f, n, c, hc⟩ | ⟨hc, _⟩
    · rw [hc] at hcause
      simp only [Cause, Err.RequiredKeyNotPresentError.injEq, List.cons.injEq,
        and_true] at hcause
      exact hcause
    · rw [hc] at hcause
      cases hcause
    · rw [hc] at hcause
      cases hcause
  subst hk
  rw [hL] at hsplit hnd
  obtain ⟨hpp, _, _⟩ := split_unique k pre' pre e' ef post' post hsplit hnd
  subst hpp
  have hsub : ∀ p ∈ pre', p ∈ parseStruct [] fields envKeyConnector := by
    intro p hp'
    exact h2.mem_iff.1 (by rw [hL]; simp [hp'])
  have hsep : Sep e pre' := hM.sep hK hsub
  obtain ⟨ha1, ha2⟩ := prio_absent host _ _ envMap cfgMap σ σ1 pm1 none hM h1 hp K e hK
    (fun K' hK' => habs (K', e) hK' rfl)
  rw [hU2, hσ]
  constructor
  · rintro ⟨p, hp', hpe⟩
    exact fallbackPass_default host e pre' σ1 pm1 σx pmx hpre hsep
      ⟨p.1, by rw [← hpe]; exact hp'⟩ ha2 hdef
  · intro hno
    have := fallbackPass_frame host e pre' σ1 pm1 none σx pmx hpre hsep
      (fun ⟨k', hk'⟩ => absurd rfl (hno (k', e) hk'))
    rw [this.1, ha1]

/-- C7, witness: with the two fields declared the other way round, the key `A` is visited
before the failing key `B`, and `A` holds its default when the call returns the error. -/
theorem defaults_before_failure_witness :
    (UnmarshalMap Host.bare listed listed [] (ptrTo defaultThenRequired) [] emptyStrings).1 =
      .returns (some (.Wrap (.RequiredKeyNotPresentError ["B"])
        "unmarshalling aggregated values")) ∧
    coerce Host.bare .String "x" =
      some ((UnmarshalMap Host.bare listed listed [] (ptrTo defaultThenRequired) []
        emptyStrings).2 [0]) :=
  ⟨by rfl,
   (defaults_before_failure Host.bare listed listed [] defaultThenRequired [] emptyStrings []
      "A" ⟨⟨[0], .String⟩, false, "x"⟩
      (.Wrap (.RequiredKeyNotPresentError ["B"]) "unmarshalling aggregated values")
      "B" ⟨⟨[1], .String⟩, true, ""⟩ [("A", ⟨⟨[0], .String⟩, false, "x"⟩)] []
      (fun _ => List.Perm.refl _) (fun _ => List.Perm.refl _) (by rfl) (by decide) (by decide)
      (by decide) (by rfl) (by rfl) (by decide)).1 (by decide)⟩

/-! ## C8: integer coercion -/

/-- C8 (code as it is): `setVal` on an int8 field accepts the raw string `300`, which
is outside the int8 range, and stores the wrapped value 44; it returns no error. -/
theorem setVal_int8_overflow_wraps (host : Host) (addr : List Nat) (σ : Store) :
    setVal host ⟨addr, .Int8⟩ "300" σ = (none, σ.set addr (.int 44)) := by
  have hp : strconv.ParseInt "300" = .ok 300 := by rfl
  have hw : wrapInt 8 300 = 44 := by decide
  rw [setVal_int host ⟨addr, .Int8⟩ "300" σ (by simp [intKinds]), hp]
  simp only [Kind.bits, hw]

/-! ## C9: a type mismatch aborts the call -/

/-- C9 (as stated) fails in two ways.  When another key with a bad value is visited
first, the error is the one for that key (`M` here) and does not mention `N`.  When the
field has a second key, the value of that key can already be stored when the bad value
of `N` is met: the field then holds 5, not the 0 it had before the call. -/
theorem type_mismatch_counterexample :
    ((UnmarshalMap Host.bare listed listed [("M", "y"), ("N", "not-a-number")]
        (ptrTo twoInts) [] zeroInts).1 =
      .returns (some (.Wrap (.Wrap (.Wrap (.NumError "ParseInt" "y" .ErrSyntax)
        "casting value as int") "setting value of env var M")
        "unmarshalling aggregated values")) ∧
     Err.Error Host.bare (.Wrap (.Wrap (.Wrap (.NumError "ParseInt" "y" .ErrSyntax)
        "casting value as int") "setting value of env var M")
        "unmarshalling aggregated values") =
      "unmarshalling aggregated values: setting value of env var M: casting value as int: strconv.ParseInt: parsing \"y\": invalid syntax") ∧
    ((UnmarshalMap Host.bare listed listed [("N2", "5"), ("N", "abc")]
        (ptrTo intTwoKeys) [] zeroInts).1 =
      .returns (some (.Wrap (.Wrap (.Wrap (.NumError "ParseInt" "abc" .ErrSyntax)
        "casting value as int") "setting value of env var N")
        "unmarshalling aggregated values")) ∧
     (UnmarshalMap Host.bare listed listed [("N2", "5"), ("N", "abc")]
        (ptrTo intTwoKeys) [] zeroInts).2 [0] = .int 5 ∧
     zeroInts [0] = .int 0) := by
  refine ⟨⟨by rfl, by decide⟩, by rfl, by decide, by decide⟩

/-- When every bound field is settable and the files parse, an environment value that does
not parse as an integer for an integer field makes `UnmarshalMap` return a parse error. -/
theorem UnmarshalMap_type_mismatch (host : Host)
    (range1 range2 : GoMap String envEntry → List (String × envEntry))
    (envMap : GoMap String String) (fields : Fields) (paths : List String) (σ : Store)
    (cfgMap : GoMap String String) (N : String) (e : envEntry) (s : String) (perr : Err)
    (hr1 : ∀ m, (range1 m).Perm m) (hr2 : ∀ m, (range2 m).Perm m)
    (hcfg : parseCfgFiles host paths = .ok cfgMap)
    (hN : (N, e) ∈ parseStruct [] fields envKeyConnector)
    (hint : e.Value.kind ∈ intKinds)
    (henv : envMap.get? N = some s)
    (hbad : strconv.ParseInt s = .error perr) :
    (∃ err, (UnmarshalMap host range1 range2 envMap (ptrTo fields) paths σ).1 =
        .returns (some err) ∧ IsCoercionError err ∧
        IsRequiredKeyNotPresentError (some err) = false ∧
        IsTargetNotPtrToStructError (some err) = false ∧
        IsUnsupportedFieldTypeError (some err) = false) ∧
    ((∀ p ∈ parseStruct [] fields envKeyConnector, p.1 ≠ N → ∀ v,
        (envMap.get? p.1 = some v ∨ (envMap.get? p.1 = none ∧ cfgMap.get? p.1 = some v)) →
        coerce host p.2.Value.kind v ≠ none) →
      (UnmarshalMap host range1 range2 envMap (ptrTo fields) paths σ).1 =
        .returns (some (.Wrap (.Wrap (.Wrap perr "casting value as int")
          ("setting value of env var " ++ N)) "unmarshalling aggregated values")) ∧
      Err.Error host (.Wrap (.Wrap (.Wrap perr "casting value as int")
          ("setting value of env var " ++ N)) "unmarshalling aggregated values") =
        "unmarshalling aggregated values" ++ ": " ++ (("setting value of env var " ++ N) ++
          ": " ++ ("casting value as int" ++ ": " ++ Err.Error host perr))) ∧
    ((∀ p ∈ parseStruct [] fields envKeyConnector, p.2 = e → p.1 = N) →
      (UnmarshalMap host range1 range2 envMap (ptrTo fields) paths σ).2 e.Value.addr =
        σ e.Value.addr) := by
  obtain ⟨hU2, _, _, hUerr⟩ :=
    UnmarshalMap_result host range1 range2 envMap fields paths σ cfgMap hcfg
  have h1 := hr1 (parseStruct [] fields envKeyConnector)
  have h2 := hr2 (parseStruct [] fields envKeyConnector)
  have hM := parseStruct_addrInj [] fields envKeyConnector
  have hnd := parseStruct_nodup [] fields envKeyConnector
  have hco : coerce host e.Value.kind s = none := coerce_int_none host _ s perr hint hbad
  rcases prioUnmarshal_cases host (range1 (parseStruct [] fields envKeyConnector))
      (range2 (parseStruct [] fields envKeyConnector)) envMap cfgMap σ with
    ⟨err1, σ1, pm1, hp, hr⟩ | ⟨σ1, pm1, r, σ2, pm2, hp, _, _⟩
  · have hp1 : (prioUnmarshal host (range1 (parseStruct [] fields envKeyConnector))
        (range2 (parseStruct [] fields envKeyConnector)) envMap cfgMap σ).1 = some err1 := by
      rw [hr]
    have hU := hUerr err1 hp1
    obtain ⟨pre, k, e', post, σx, pmx, hL, hpre, hfail, hσ, _⟩ :=
      primaryPass_err host envMap cfgMap _ σ [] err1 σ1 pm1 hp
    have hmem : (k, e') ∈ parseStruct [] fields envKeyConnector :=
      h1.mem_iff.1 (by rw [hL]; simp)
    refine ⟨?_, ?_, ?_⟩
    · rcases hfail.primaryCause with ⟨f, n, c, hc⟩ | ⟨_, hk⟩
      · exact ⟨_, hU, ⟨f, n, c, by rw [Cause_wrap, hc]⟩,
          by simp [IsRequiredKeyNotPresentError, Cause_wrap, hc],
          by simp [IsTargetNotPtrToStructError, Cause_wrap, hc],
          by simp [IsUnsupportedFieldTypeError, Cause_wrap, hc]⟩
      · exact absurd (parseStruct_scalar [] fields envKeyConnector (k, e') hmem) hk
    · intro hothers
      refine ⟨?_, by simp [Err.Error]⟩
      rw [hU]
      have hkN : k = N := by
        by_contra hne
        rcases hfail with ⟨v, _, a1, a2, _⟩ | ⟨v, _, a1, a2, _, a4, _⟩
        · exact hothers (k, e') hmem hne v (Or.inl a1) a2
        · exact hothers (k, e') hmem hne v (Or.inr ⟨a1, a2⟩) a4
      subst hkN
      have hee : e' = e := GoMap.unique_of_nodup _ hnd k e' e hmem hN
      subst hee
      rcases hfail with ⟨v, err0, a1, _, a3, a4⟩ | ⟨v, _, a1, _⟩
      · rw [henv] at a1
        cases a1
        rw [setVal_int host e'.Value s σx hint, hbad] at a3
        simp only [Prod.mk.injEq, Option.some.injEq, and_true] at a3
        rw [a4, ← a3]
      · rw [henv] at a1
        cases a1
    · intro hsingle
      rw [hU2, hr]
      have hsep : Sep e (range1 (parseStruct [] fields envKeyConnector)) :=
        hM.sep hN (fun p hp' => h1.mem_iff.1 hp')
      exact (primaryPass_frame host envMap cfgMap e _ σ [] _ σ1 pm1 hp hsep
        (fun k' v hk' hv => by
          have hk : k' = N := hsingle (k', e) (h1.mem_iff.1 hk') rfl
          subst hk
          rcases hv with hv | ⟨hv, _⟩
          · rw [henv] at hv
            cases hv
            exact hco
          · rw [henv] at hv
            cases hv)).1
  · exact absurd rfl (primaryPass_must_fail host envMap cfgMap N e s henv hco _ σ [] none σ1 pm1
      (h1.mem_iff.2 hN) hp)

/-- C9 (amended): for every target struct all of whose bound fields are settable
(exported), every integer field bound to key `N` and every environment map whose value for
`N` does not parse as a base-10 64-bit integer, if every configuration file parses, then
`UnmarshalMap` returns, for every iteration order, an error that is a parse error of
`strconv`, which is none of `RequiredKeyNotPresent`, `TargetNotPtrToStruct`,
`UnsupportedFieldType`, whatever the file map and the default hold; the error is the
`ParseInt` error for the value of `N`, wrapped with the message naming `N`, provided every
value that the sources hold for another registered key coerces; and the field keeps the
value it had before the call provided `N` is its only key. -/
theorem type_mismatch_aborts (settable : List Nat → Bool) (host : Host)
    (range1 range2 : GoMap String envEntry → List (String × envEntry))
    (envMap : GoMap String String) (fields : Fields) (paths : List String) (σ : Store)
    (cfgMap : GoMap String String) (N : String) (e : envEntry) (s : String) (perr : Err)
    (hr1 : ∀ m, (range1 m).Perm m) (hr2 : ∀ m, (range2 m).Perm m)
    (hset : ∀ p ∈ parseStruct [] fields envKeyConnector, settable p.2.Value.addr = true)
    (hcfg : parseCfgFiles host paths = .ok cfgMap)
    (hN : (N, e) ∈ parseStruct [] fields envKeyConnector)
    (hint : e.Value.kind ∈ intKinds)
    (henv : envMap.get? N = some s)
    (hbad : strconv.ParseInt s = .error perr) :
    (∃ err, (UnmarshalMapOn settable host range1 range2 envMap (ptrTo fields) paths σ).1 =
        .returns (some err) ∧ IsCoercionError err ∧
        IsRequiredKeyNotPresentError (some err) = false ∧
        IsTargetNotPtrToStructError (some err) = false ∧
        IsUnsupportedFieldTypeError (some err) = false) ∧
    ((∀ p ∈ parseStruct [] fields envKeyConnector, p.1 ≠ N → ∀ v,
        (envMap.get? p.1 = some v ∨ (envMap.get? p.1 = none ∧ cfgMap.get? p.1 = some v)) →
        coerce host p.2.Value.kind v ≠ none) →
      (UnmarshalMapOn settable host range1 range2 envMap (ptrTo fields) paths σ).1 =
        .returns (some (.Wrap (.Wrap (.Wrap perr "casting value as int")
          ("setting value of env var " ++ N)) "unmarshalling aggregated values")) ∧
      Err.Error host (.Wrap (.Wrap (.Wrap perr "casting value as int")
          ("setting value of env var " ++ N)) "unmarshalling aggregated values") =
        "unmarshalling aggregated values" ++ ": " ++ (("setting value of env var " ++ N) ++
          ": " ++ ("casting value as int" ++ ": " ++ Err.Error host perr))) ∧
    ((∀ p ∈ parseStruct [] fields envKeyConnector, p.2 = e → p.1 = N) →
      (UnmarshalMapOn settable host range1 range2 envMap (ptrTo fields) paths σ).2
        e.Value.addr = σ e.Value.addr) := by
  rw [UnmarshalMapOn_settable settable host range1 range2 hr1 hr2 envMap fields paths σ hset]
  exact UnmarshalMap_type_mismatch host range1 range2 envMap fields paths σ cfgMap N e s perr
    hr1 hr2 hcfg hN hint henv hbad

/-- C9, witness: the scenario of the specification, with a valid default in addition and
an exported field; the call fails with the error for `N` and the field keeps its value. -/
theorem type_mismatch_aborts_witness :
    strconv.ParseInt "not-a-number" =
      .error (.NumError "ParseInt" "not-a-number" .ErrSyntax) ∧
    (UnmarshalMapOn (fun _ => true) Host.bare listed listed [("N", "not-a-number")]
      (ptrTo oneInt) [] zeroInts).1 =
      .returns (some (.Wrap (.Wrap (.Wrap (.NumError "ParseInt" "not-a-number" .ErrSyntax)
        "casting value as int") ("setting value of env var " ++ "N"))
        "unmarshalling aggregated values")) ∧
    (UnmarshalMapOn (fun _ => true) Host.bare listed listed [("N", "not-a-number")]
      (ptrTo oneInt) [] zeroInts).2 [0] = zeroInts [0] :=
  have h := type_mismatch_aborts (fun _ => true) Host.bare listed listed
    [("N", "not-a-number")] oneInt [] zeroInts [] "N" ⟨⟨[0], .Int⟩, false, "7"⟩
    "not-a-number" (.NumError "ParseInt" "not-a-number" .ErrSyntax)
    (fun _ => List.Perm.refl _) (fun _ => List.Perm.refl _) (fun _ _ => rfl) (by rfl)
    (by decide) (by decide) (by decide) (by rfl)
  have hall : ∀ p ∈ parseStruct [] oneInt envKeyConnector, p.1 = "N" := by decide
  ⟨by rfl, (h.2.1 (fun p hp hne => absurd (hall p hp) hne)).1, h.2.2 (by decide)⟩

/-! ## C10: the target check -/

/-- C10 (code as it is): for the nil interface value `UnmarshalMap` panics in
`reflect.Value.Type` instead of returning a `TargetNotPtrToStruct` error. -/
theorem UnmarshalMap_nil_panics (host : Host)
    (range1 range2 : GoMap String envEntry → List (String × envEntry))
    (envMap : GoMap String String) (paths : List String) (σ : Store) :
    UnmarshalMap host range1 range2 envMap .nil paths σ =
      (.panics "reflect: call of reflect.Value.Type on zero Value", σ) := by
  rfl

/-! ## C11: file flattening -/

/-- C11: for every nested map in which no two leaves have the same flat key, `flattenMap`
returns the map whose entries are exactly the `_`-joined key paths from the root to each
boolean, integer, floating-point or string leaf reached through nested objects only, each
with the string form of the leaf: `true` or `false` for a boolean, the base-10 decimal
string for an integer, the string itself for a string (and the host's `%g` for a
floating-point number); arrays, nulls and other values contribute nothing. -/
theorem flattenMap_joined_paths (host : Host) (nestedMap : IfaceMap)
    (hnd : (GoMap.keys (flatKeysOf host nestedMap)).Nodup) (K s : String) :
    (GoMap.get? (flattenMap host nestedMap envKeyConnector) K = some s ↔
      ∃ path, (path, s) ∈ leafPathsOf host nestedMap ∧ K = joinKeys path) ∧
    flattenMap host nestedMap envKeyConnector = flatKeysOf host nestedMap := by
  have h := flattenMapFrom_flat host nestedMap [] (by simpa using hnd)
  simp only [List.nil_append] at h
  rw [flattenMap, h]
  refine ⟨?_, rfl⟩
  rw [GoMap.get?_iff_mem _ hnd]
  simp only [flatKeysOf, List.mem_map, Prod.mk.injEq]
  constructor
  · rintro ⟨ps, hps, hk, hs⟩
    exact ⟨ps.1, by rw [← hs]; exact hps, hk.symm⟩
  · rintro ⟨path, hp, hk⟩
    exact ⟨(path, s), hp, hk.symm, rfl⟩

/-- C11, witness: the file of the specification, read by `parseCfgFile`, flattens to the
single entry `a_b: 5` (the array under `c` is dropped); and in a map with leaves of every
kind the booleans become `true` and `false`, the integers their decimal strings, the
string stays as it is, and the null, the array and the value of another type contribute
nothing. -/
theorem flattenMap_joined_paths_witness :
    (GoMap.keys (flatKeysOf Host.abFile nestedAB)).Nodup ∧
    readCfgFile Host.abFile "ab.json" = .ok nestedAB ∧
    parseCfgFile Host.abFile "ab.json" = .ok [("a_b", "5")] ∧
    GoMap.get? (flattenMap Host.abFile nestedAB envKeyConnector) "a_b" = some "5" ∧
    flattenMap Host.abFile nestedAB envKeyConnector = [("a_b", "5")] ∧
    (GoMap.keys (flatKeysOf Host.bare mixedLeaves)).Nodup ∧
    leafPathsOf Host.bare mixedLeaves =
      [(["on"], "true"), (["db", "ssl"], "false"), (["db", "port"], "5432"),
        (["db", "delta"], "-12"), (["db", "user"], "root")] ∧
    flattenMap Host.bare mixedLeaves envKeyConnector =
      [("on", "true"), ("db_ssl", "false"), ("db_port", "5432"), ("db_delta", "-12"),
        ("db_user", "root")] ∧
    GoMap.get? (flattenMap Host.bare mixedLeaves envKeyConnector) "db_ssl" = some "false" :=
  ⟨by decide, by rfl, by rfl,
   (flattenMap_joined_paths Host.abFile nestedAB (by decide) "a_b" "5").1.2
     ⟨["a", "b"], by decide, by decide⟩,
   by decide, by decide, by decide, by decide,
   (flattenMap_joined_paths Host.bare mixedLeaves (by decide) "db_ssl" "false").1.2
     ⟨["db", "ssl"], by decide, by decide⟩⟩

/-! ## C12: integers read from a file -/

/-- C12: the integer 1000000 written as a JSON number under key `K` in a configuration
file does not reach an int64 field bound to `K`: the file reader hands the number over as
a float64, `flattenMap` prints it with `%g` as `1e+06`, the integer parser rejects that
string, and `UnmarshalMap` returns the parse error and leaves the field at its old value,
although the environment map is empty and `1000000` itself parses to 1000000. -/
theorem file_integer_million_rejected :
    parseCfgFiles Host.millionFile ["config.json"] = .ok [("K", "1e+06")] ∧
    (UnmarshalMap Host.millionFile listed listed [] (ptrTo oneInt64) ["config.json"]
      zeroInts).1 =
      .returns (some (.Wrap (.Wrap (.Wrap (.NumError "ParseInt" "1e+06" .ErrSyntax)
        "casting value as int") "setting value from config file of env var K")
        "unmarshalling aggregated values")) ∧
    (UnmarshalMap Host.millionFile listed listed [] (ptrTo oneInt64) ["config.json"]
      zeroInts).2 [0] = .int 0 ∧
    strconv.ParseInt "1000000" = .ok 1000000 := by
  refine ⟨by rfl, by rfl, by rfl, by rfl⟩

/-! ## C13: file priority -/

/-- C13: for every list of configuration files that all parse, `parseCfgFiles` returns a
flat map without repeated keys in which a key is present iff one of the flattened files
contains it, and in which every key maps to the value given by the last file in the list
that contains the key. -/
theorem file_priority (host : Host) (paths : List String)
    (files : List (GoMap String String))
    (hparse : List.Forall₂ (fun path m => parseCfgFile host path = .ok m) paths files) :
    ∃ result, parseCfgFiles host paths = .ok result ∧ (GoMap.keys result).Nodup ∧
      (∀ k, GoMap.get? result k = lastValue files k) ∧
      (∀ k, k ∈ GoMap.keys result ↔ ∃ m ∈ files, k ∈ GoMap.keys m) := by
  obtain ⟨r, hr, hrn, hget⟩ := parseCfgFilesFrom_merge host paths files [] hparse
    (by simp [GoMap.keys])
  have hget2 : ∀ k, GoMap.get? r k = lastValue files k := by
    intro k
    rw [hget k]
    cases lastValue files k <;> rfl
  refine ⟨r, hr, hrn, hget2, ?_⟩
  intro k
  rw [GoMap.mem_keys_iff, hget2 k]
  simp only [lastValue]
  rw [Option.ne_none_iff_isSome, List.findSome?_isSome_iff]
  constructor
  · rintro ⟨m, hm, hs⟩
    exact ⟨m, List.mem_reverse.1 hm, (GoMap.mem_keys_iff m k).2
      (Option.ne_none_iff_isSome.2 hs)⟩
  · rintro ⟨m, hm, hk⟩
    exact ⟨m, List.mem_reverse.2 hm, Option.ne_none_iff_isSome.1
      ((GoMap.mem_keys_iff m k).1 hk)⟩

/-- C13, witness: `a.json` holds `X` and `Y`, `b.json` holds `Y` and `Z`; read in that
order, `Y` has the value of `b.json` and `X` is kept. -/
theorem file_priority_witness :
    List.Forall₂ (fun path m => parseCfgFile Host.twoFiles path = .ok m)
      ["a.json", "b.json"] [[("X", "1"), ("Y", "2")], [("Y", "3"), ("Z", "4")]] ∧
    (∃ result, parseCfgFiles Host.twoFiles ["a.json", "b.json"] = .ok result ∧
      (GoMap.keys result).Nodup ∧
      (∀ k, GoMap.get? result k =
        lastValue [[("X", "1"), ("Y", "2")], [("Y", "3"), ("Z", "4")]] k) ∧
      (∀ k, k ∈ GoMap.keys result ↔
        ∃ m ∈ [[("X", "1"), ("Y", "2")], [("Y", "3"), ("Z", "4")]], k ∈ GoMap.keys m)) ∧
    parseCfgFiles Host.twoFiles ["a.json", "b.json"] =
      .ok [("X", "1"), ("Y", "3"), ("Z", "4")] ∧
    lastValue [[("X", "1"), ("Y", "2")], [("Y", "3"), ("Z", "4")]] "Y" = some "3" :=
  ⟨List.Forall₂.cons (by rfl) (List.Forall₂.cons (by rfl) List.Forall₂.nil),
   file_priority Host.twoFiles ["a.json", "b.json"]
     [[("X", "1"), ("Y", "2")], [("Y", "3"), ("Z", "4")]]
     (List.Forall₂.cons (by rfl) (List.Forall₂.cons (by rfl) List.Forall₂.nil)),
   by rfl, by decide⟩

/-! ## C14: the environment is never downgraded across the keys of a field -/

/-- C14: for every field bound under a key `A` (and possibly more keys) and every order in
which the two loops visit the entry map: if `A` is in the environment map, then after a
successful `prioUnmarshal` the field holds the coerced environment value of one of its
keys; it holds the environment value of `A` when no other key of the field is in the
environment map, whatever the file map holds for the other keys; and when `A` is in the
environment map or in the file map, `prioUnmarshal` never returns a RequiredKeyNotPresent
error that names a key of the field. -/
theorem env_never_downgraded (host : Host) (fields : Fields)
    (order1 order2 : List (String × envEntry)) (envMap cfgMap : GoMap String String)
    (σ : Store) (A : String) (e : envEntry)
    (h1 : order1.Perm (parseStruct [] fields envKeyConnector))
    (h2 : order2.Perm (parseStruct [] fields envKeyConnector))
    (hA : (A, e) ∈ parseStruct [] fields envKeyConnector) :
    (∀ ev, envMap.get? A = some ev →
      (prioUnmarshal host order1 order2 envMap cfgMap σ).1 = none →
      ∃ K v, (K, e) ∈ parseStruct [] fields envKeyConnector ∧ envMap.get? K = some v ∧
        coerce host e.Value.kind v =
          some ((prioUnmarshal host order1 order2 envMap cfgMap σ).2 e.Value.addr)) ∧
    (∀ ev, envMap.get? A = some ev →
      (∀ p ∈ parseStruct [] fields envKeyConnector, p.2 = e → p.1 ≠ A →
        envMap.get? p.1 = none) →
      (prioUnmarshal host order1 order2 envMap cfgMap σ).1 = none →
      coerce host e.Value.kind ev =
        some ((prioUnmarshal host order1 order2 envMap cfgMap σ).2 e.Value.addr)) ∧
    ((envMap.get? A ≠ none ∨ cfgMap.get? A ≠ none) →
      ∀ err keys, (prioUnmarshal host order1 order2 envMap cfgMap σ).1 = some err →
        Cause err = .RequiredKeyNotPresentError keys →
        ∀ p ∈ parseStruct [] fields envKeyConnector, p.2 = e → p.1 ∉ keys) := by
  have hfirst : ∀ ev, envMap.get? A = some ev →
      (prioUnmarshal host order1 order2 envMap cfgMap σ).1 = none →
      ∃ K v, (K, e) ∈ parseStruct [] fields envKeyConnector ∧ envMap.get? K = some v ∧
        coerce host e.Value.kind v =
          some ((prioUnmarshal host order1 order2 envMap cfgMap σ).2 e.Value.addr) := by
    intro ev henv hok
    obtain ⟨σ1, pm1, pm2, hp, hf⟩ :=
      prioUnmarshal_primary_done host order1 order2 envMap cfgMap σ (Or.inl hok)
    exact prio_env host _ order1 order2 envMap cfgMap σ σ1 _ pm1 pm2 _
      (parseStruct_addrInj [] fields envKeyConnector) h1 h2 hp hf A e ev hA henv
  refine ⟨hfirst, ?_, ?_⟩
  · intro ev henv honly hok
    obtain ⟨K, v, hK, hv, hc⟩ := hfirst ev henv hok
    by_cases hKA : K = A
    · rw [hKA, henv] at hv
      cases hv
      exact hc
    · rw [honly (K, e) hK rfl hKA] at hv
      cases hv
  · intro hpres err keys herr hcause p hp hpe
    have hp2 : (p.1, e) ∈ parseStruct [] fields envKeyConnector := by
      rw [← hpe]
      exact hp
    exact prio_satisfied host _ order1 order2 envMap cfgMap σ
      (parseStruct_addrInj [] fields envKeyConnector)
      (parseStruct_nodup [] fields envKeyConnector) h1 h2 A e hA hpres err keys herr hcause
      p.1 hp2

/-- C14, witness: a required string field under the keys `A` and `B`, with `A` only in the
environment map and `B` only in the file map; the field ends with the environment value
of `A` whether the loops visit `A` before `B` or `B` before `A`. -/
theorem env_never_downgraded_witness :
    parseStruct [] requiredTwoKeys envKeyConnector =
      [("A", ⟨⟨[0], .String⟩, true, ""⟩), ("B", ⟨⟨[0], .String⟩, true, ""⟩)] ∧
    (prioUnmarshal Host.bare
      [("B", ⟨⟨[0], .String⟩, true, ""⟩), ("A", ⟨⟨[0], .String⟩, true, ""⟩)]
      [("B", ⟨⟨[0], .String⟩, true, ""⟩), ("A", ⟨⟨[0], .String⟩, true, ""⟩)]
      [("A", "env")] [("B", "file")] emptyStrings).1 = none ∧
    coerce Host.bare .String "env" =
      some ((prioUnmarshal Host.bare
        [("B", ⟨⟨[0], .String⟩, true, ""⟩), ("A", ⟨⟨[0], .String⟩, true, ""⟩)]
        [("B", ⟨⟨[0], .String⟩, true, ""⟩), ("A", ⟨⟨[0], .String⟩, true, ""⟩)]
        [("A", "env")] [("B", "file")] emptyStrings).2 [0]) ∧
    (prioUnmarshal Host.bare
      [("B", ⟨⟨[0], .String⟩, true, ""⟩), ("A", ⟨⟨[0], .String⟩, true, ""⟩)]
      [("B", ⟨⟨[0], .String⟩, true, ""⟩), ("A", ⟨⟨[0], .String⟩, true, ""⟩)]
      [("A", "env")] [("B", "file")] emptyStrings).2 [0] = .string "env" ∧
    (prioUnmarshal Host.bare (listed (parseStruct [] requiredTwoKeys envKeyConnector))
      (listed (parseStruct [] requiredTwoKeys envKeyConnector))
      [("A", "env")] [("B", "file")] emptyStrings).2 [0] = .string "env" ∧
    (prioUnmarshal Host.bare (listed (parseStruct [] requiredTwoKeys envKeyConnector))
      (listed (parseStruct [] requiredTwoKeys envKeyConnector))
      [] [("B", "file")] emptyStrings) = (none, emptyStrings.set [0] (.string "file")) :=
  ⟨by decide, by rfl,
   (env_never_downgraded Host.bare requiredTwoKeys
      [("B", ⟨⟨[0], .String⟩, true, ""⟩), ("A", ⟨⟨[0], .String⟩, true, ""⟩)]
      [("B", ⟨⟨[0], .String⟩, true, ""⟩), ("A", ⟨⟨[0], .String⟩, true, ""⟩)]
      [("A", "env")] [("B", "file")] emptyStrings "A" ⟨⟨[0], .String⟩, true, ""⟩
      (List.Perm.swap _ _ _) (List.Perm.swap _ _ _) (by decide)).2.1 "env" (by decide)
      (by decide) (by rfl),
   by decide, by decide, by rfl⟩

/-! ## C15: the order of iteration -/

/-- C15 (as stated) fails: in a struct whose two integer fields have one key each, the
error that `prioUnmarshal` returns names `M` when the loop visits `M` first and `N` when
it visits `N` first; and with a good value for `M` and a bad one for `N`, the field of `M`
holds 1 after the failed call when `M` is visited first and still 0 when `N` is. -/
theorem order_independence_counterexample :
    (∀ p ∈ parseStruct [] twoInts envKeyConnector,
      ∀ q ∈ parseStruct [] twoInts envKeyConnector,
        p.2.Value.addr = q.2.Value.addr → p.1 = q.1) ∧
    parseStruct [] twoInts envKeyConnector =
      [("M", ⟨⟨[0], .Int⟩, false, ""⟩), ("N", ⟨⟨[1], .Int⟩, false, ""⟩)] ∧
    (prioUnmarshal Host.bare
      [("M", ⟨⟨[0], .Int⟩, false, ""⟩), ("N", ⟨⟨[1], .Int⟩, false, ""⟩)]
      [("M", ⟨⟨[0], .Int⟩, false, ""⟩), ("N", ⟨⟨[1], .Int⟩, false, ""⟩)]
      [("M", "x"), ("N", "y")] [] zeroInts).1 =
      some (.Wrap (.Wrap (.NumError "ParseInt" "x" .ErrSyntax) "casting value as int")
        "setting value of env var M") ∧
    (prioUnmarshal Host.bare
      [("N", ⟨⟨[1], .Int⟩, false, ""⟩), ("M", ⟨⟨[0], .Int⟩, false, ""⟩)]
      [("N", ⟨⟨[1], .Int⟩, false, ""⟩), ("M", ⟨⟨[0], .Int⟩, false, ""⟩)]
      [("M", "x"), ("N", "y")] [] zeroInts).1 =
      some (.Wrap (.Wrap (.NumError "ParseInt" "y" .ErrSyntax) "casting value as int")
        "setting value of env var N") ∧
    (prioUnmarshal Host.bare
      [("M", ⟨⟨[0], .Int⟩, false, ""⟩), ("N", ⟨⟨[1], .Int⟩, false, ""⟩)]
      [("M", ⟨⟨[0], .Int⟩, false, ""⟩), ("N", ⟨⟨[1], .Int⟩, false, ""⟩)]
      [("M", "1"), ("N", "y")] [] zeroInts).2 [0] = .int 1 ∧
    (prioUnmarshal Host.bare
      [("N", ⟨⟨[1], .Int⟩, false, ""⟩), ("M", ⟨⟨[0], .Int⟩, false, ""⟩)]
      [("N", ⟨⟨[1], .Int⟩, false, ""⟩), ("M", ⟨⟨[0], .Int⟩, false, ""⟩)]
      [("M", "1"), ("N", "y")] [] zeroInts).2 [0] = .int 0 := by
  refine ⟨by decide, by decide, by rfl, by rfl, by rfl, by rfl⟩

/-- C15 (amended): for every target struct in which each bound field is reachable under
exactly one key, and for all environment and file maps, whether `prioUnmarshal` returns
nil is the same for every order in which the two loops visit the entry map, and when it
returns nil the final content of every field is the same for every such order. -/
theorem order_independent_success (host : Host) (fields : Fields)
    (order1 order2 order3 order4 : List (String × envEntry))
    (envMap cfgMap : GoMap String String) (σ : Store)
    (h1 : order1.Perm (parseStruct [] fields envKeyConnector))
    (h2 : order2.Perm (parseStruct [] fields envKeyConnector))
    (h3 : order3.Perm (parseStruct [] fields envKeyConnector))
    (h4 : order4.Perm (parseStruct [] fields envKeyConnector))
    (hone : ∀ p ∈ parseStruct [] fields envKeyConnector,
      ∀ q ∈ parseStruct [] fields envKeyConnector,
        p.2.Value.addr = q.2.Value.addr → p.1 = q.1) :
    ((prioUnmarshal host order1 order2 envMap cfgMap σ).1 = none ↔
      (prioUnmarshal host order3 order4 envMap cfgMap σ).1 = none) ∧
    ((prioUnmarshal host order1 order2 envMap cfgMap σ).1 = none →
      (prioUnmarshal host order1 order2 envMap cfgMap σ).2 =
        (prioUnmarshal host order3 order4 envMap cfgMap σ).2) := by
  have hM := parseStruct_addrInj [] fields envKeyConnector
  have hiff : (prioUnmarshal host order1 order2 envMap cfgMap σ).1 = none ↔
      (prioUnmarshal host order3 order4 envMap cfgMap σ).1 = none :=
    ⟨prio_success_any_order host _ order1 order2 order3 order4 envMap cfgMap σ hM h1 h2 h3 h4
      hone,
     prio_success_any_order host _ order3 order4 order1 order2 envMap cfgMap σ hM h3 h4 h1 h2
      hone⟩
  refine ⟨hiff, fun hok => ?_⟩
  have hok2 := hiff.1 hok
  funext a
  by_cases ha : ∃ p ∈ parseStruct [] fields envKeyConnector, p.2.Value.addr = a
  · obtain ⟨p, hp, hpa⟩ := ha
    have hA := (prio_settled host _ order1 order2 envMap cfgMap σ hM h1 h2 hone hok
      p.1 p.2 hp).1
    have hB := (prio_settled host _ order3 order4 envMap cfgMap σ hM h3 h4 hone hok2
      p.1 p.2 hp).1
    rw [hA, hpa] at hB
    exact Option.some.inj hB
  · have hno : ∀ p ∈ parseStruct [] fields envKeyConnector, p.2.Value.addr ≠ a :=
      fun p hp hpa => ha ⟨p, hp, hpa⟩
    rw [prio_untouched host order1 order2 envMap cfgMap σ a
        (fun p hp => hno p (h1.mem_iff.1 hp)) (fun p hp => hno p (h2.mem_iff.1 hp)),
      prio_untouched host order3 order4 envMap cfgMap σ a
        (fun p hp => hno p (h3.mem_iff.1 hp)) (fun p hp => hno p (h4.mem_iff.1 hp))]

/-- C15, witness: two integer fields with one key each and good values for both; visiting
`M` before `N` and `N` before `M` both succeed and leave 1 and 2 in the fields. -/
theorem order_independent_success_witness :
    (prioUnmarshal Host.bare (listed (parseStruct [] twoInts envKeyConnector))
      (listed (parseStruct [] twoInts envKeyConnector))
      [("M", "1"), ("N", "2")] [] zeroInts).1 = none ∧
    (prioUnmarshal Host.bare (listed (parseStruct [] twoInts envKeyConnector))
      (listed (parseStruct [] twoInts envKeyConnector))
      [("M", "1"), ("N", "2")] [] zeroInts).2 =
      (prioUnmarshal Host.bare
        [("N", ⟨⟨[1], .Int⟩, false, ""⟩), ("M", ⟨⟨[0], .Int⟩, false, ""⟩)]
        [("N", ⟨⟨[1], .Int⟩, false, ""⟩), ("M", ⟨⟨[0], .Int⟩, false, ""⟩)]
        [("M", "1"), ("N", "2")] [] zeroInts).2 ∧
    (prioUnmarshal Host.bare
      [("N", ⟨⟨[1], .Int⟩, false, ""⟩), ("M", ⟨⟨[0], .Int⟩, false, ""⟩)]
      [("N", ⟨⟨[1], .Int⟩, false, ""⟩), ("M", ⟨⟨[0], .Int⟩, false, ""⟩)]
      [("M", "1"), ("N", "2")] [] zeroInts).2 [0] = .int 1 ∧
    (prioUnmarshal Host.bare
      [("N", ⟨⟨[1], .Int⟩, false, ""⟩), ("M", ⟨⟨[0], .Int⟩, false, ""⟩)]
      [("N", ⟨⟨[1], .Int⟩, false, ""⟩), ("M", ⟨⟨[0], .Int⟩, false, ""⟩)]
      [("M", "1"), ("N", "2")] [] zeroInts).2 [1] = .int 2 :=
  ⟨by rfl,
   (order_independent_success Host.bare twoInts
      (listed (parseStruct [] twoInts envKeyConnector))
      (listed (parseStruct [] twoInts envKeyConnector))
      [("N", ⟨⟨[1], .Int⟩, false, ""⟩), ("M", ⟨⟨[0], .Int⟩, false, ""⟩)]
      [("N", ⟨⟨[1], .Int⟩, false, ""⟩), ("M", ⟨⟨[0], .Int⟩, false, ""⟩)]
      [("M", "1"), ("N", "2")] [] zeroInts (List.Perm.refl _) (List.Perm.refl _)
      (List.Perm.swap _ _ _) (List.Perm.swap _ _ _) (by decide)).2 (by rfl),
   by rfl, by rfl⟩

/-! ## C16: the fields that parseStruct covers -/

/-- C16 (as stated) fails: when the fully-qualified keys of two fields coincide, the later
field takes the key and the earlier field is left without any.  In the struct with a field
keyed `A_B` next to a struct keyed `A` with a child keyed `B`, the map has the one key
`A_B`, bound to the child, and no binding for the first field; likewise the first of two
fields that are both keyed `K` has no binding. -/
theorem walker_coverage_counterexample :
    (["A_B"], (⟨⟨[0], .String⟩, false, ""⟩ : envEntry)) ∈
      leafKeyPathsFrom [] 0 flatNextToNested ∧
    Fields.leaf flatNextToNested 0 [0] = some (.String, false, "") ∧
    parseStruct [] flatNextToNested envKeyConnector =
      [("A_B", ⟨⟨[1, 0], .String⟩, false, ""⟩)] ∧
    (∀ p ∈ parseStruct [] flatNextToNested envKeyConnector, p.2.Value.addr ≠ [0]) ∧
    Fields.leaf sharedKey 0 [0] = some (.String, true, "") ∧
    parseStruct [] sharedKey envKeyConnector = [("K", ⟨⟨[1], .String⟩, false, ""⟩)] ∧
    (∀ p ∈ parseStruct [] sharedKey envKeyConnector, p.2.Value.addr ≠ [0]) := by
  refine ⟨by decide, by decide, by decide, by decide, by decide, by decide, by decide⟩

/-- C16 (amended): for every target struct in which no two fully-qualified keys coincide,
every scalar leaf field that is annotated at every level is bound in the map returned by
`parseStruct` under each of its fully-qualified keys, hence under at least one; and in
every target struct, every binding of the map is a scalar field of the struct and two
bindings for the same field are the same binding. -/
theorem walker_coverage (fields : Fields) :
    ((GoMap.keys (qualifiedKeysFrom [] 0 fields)).Nodup →
      ∀ path e, (path, e) ∈ leafKeyPathsFrom [] 0 fields →
        (joinKeys path, e) ∈ parseStruct [] fields envKeyConnector ∧
        GoMap.get? (parseStruct [] fields envKeyConnector) (joinKeys path) = some e) ∧
    (∀ p ∈ parseStruct [] fields envKeyConnector,
      Fields.leaf fields 0 p.2.Value.addr =
        some (p.2.Value.kind, p.2.IsRequired, p.2.Default) ∧
      p.2.Value.kind ∈ scalarKinds) ∧
    (∀ p ∈ parseStruct [] fields envKeyConnector,
      ∀ q ∈ parseStruct [] fields envKeyConnector,
        p.2.Value.addr = q.2.Value.addr → p.2 = q.2) := by
  refine ⟨fun hnd path e hpe => ?_, fun p hp => ?_, parseStruct_addrInj [] fields envKeyConnector⟩
  · have h := parseStructFrom_qualified fields [] 0 [] (by simpa using hnd)
    have hmem : (joinKeys path, e) ∈ parseStruct [] fields envKeyConnector := by
      rw [parseStruct, h]
      simp only [List.nil_append, qualifiedKeysFrom, List.mem_map]
      exact ⟨(path, e), hpe, rfl⟩
    exact ⟨hmem, (GoMap.get?_iff_mem _ (parseStruct_nodup [] fields envKeyConnector) _ _).2
      hmem⟩
  · obtain ⟨q, hq, hleaf⟩ := parseStruct_leaf [] fields envKeyConnector p hp
    simp only [List.nil_append] at hq
    rw [hq]
    exact ⟨hleaf, parseStruct_scalar [] fields envKeyConnector p hp⟩

/-- C16, witness: the one field of the struct with the keys `K` and `K2` is bound under
both keys, by one and the same binding. -/
theorem walker_coverage_witness :
    (GoMap.keys (qualifiedKeysFrom [] 0 twoKeys)).Nodup ∧
    (["K2"], (⟨⟨[0], .String⟩, false, ""⟩ : envEntry)) ∈ leafKeyPathsFrom [] 0 twoKeys ∧
    (joinKeys ["K2"], (⟨⟨[0], .String⟩, false, ""⟩ : envEntry)) ∈
      parseStruct [] twoKeys envKeyConnector ∧
    parseStruct [] twoKeys envKeyConnector =
      [("K", ⟨⟨[0], .String⟩, false, ""⟩), ("K2", ⟨⟨[0], .String⟩, false, ""⟩)] :=
  ⟨by decide, by decide,
   ((walker_coverage twoKeys).1 (by decide) ["K2"] ⟨⟨[0], .String⟩, false, ""⟩
      (by decide)).1,
   by decide⟩

/-! ## C17: UnsupportedFieldType is unreachable -/

/-- C17: for every target that is a pointer to a struct (nil or not, its fields settable or
not), every environment map, every list of files and every order of iteration, what
`UnmarshalMap` returns is never an UnsupportedFieldType error (and it does return when
every bound field is settable): `parseStruct` binds only fields of the kinds bool, int,
int8, int16, int32, int64, float32, float64 and string, and these are exactly the kinds for
which `setVal` does not answer UnsupportedFieldType.  A field of any other kind except
struct is never registered and never the cause of an error, whatever its annotation says:
the entry map and the whole result of `UnmarshalMap` are those of the struct with the
annotation of every such field removed; and it is never modified: the call leaves alone
what is stored where no scalar field is, also when it panics. -/
theorem unsupported_unreachable (settable : List Nat → Bool) (host : Host)
    (range1 range2 : GoMap String envEntry → List (String × envEntry))
    (hr1 : ∀ m, (range1 m).Perm m) (hr2 : ∀ m, (range2 m).Perm m)
    (envMap : GoMap String String) (fields : Fields) (paths : List String) (σ : Store) :
    (∀ isNil r,
      (UnmarshalMapOn settable host range1 range2 envMap (.value (.Ptr (.Struct fields)) isNil)
        paths σ).1 = .returns r → IsUnsupportedFieldTypeError r = false) ∧
    ((∀ p ∈ parseStruct [] fields envKeyConnector, settable p.2.Value.addr = true) →
      ∃ r, (UnmarshalMapOn settable host range1 range2 envMap (ptrTo fields) paths σ).1 =
        .returns r) ∧
    (∀ p ∈ parseStruct [] fields envKeyConnector, p.2.Value.kind ∈ scalarKinds) ∧
    (∀ v str τ,
      IsUnsupportedFieldTypeError (setVal host v str τ).1 = true ↔ v.kind ∉ scalarKinds) ∧
    parseStruct [] (Fields.dropTags fields) envKeyConnector =
      parseStruct [] fields envKeyConnector ∧
    UnmarshalMapOn settable host range1 range2 envMap (ptrTo (Fields.dropTags fields)) paths σ =
      UnmarshalMapOn settable host range1 range2 envMap (ptrTo fields) paths σ ∧
    (∀ a, Fields.leaf fields 0 a = none →
      (UnmarshalMapOn settable host range1 range2 envMap (ptrTo fields) paths σ).2 a =
        σ a) := by
  have hdrop : parseStruct [] (Fields.dropTags fields) envKeyConnector =
      parseStruct [] fields envKeyConnector := by
    simp only [parseStruct]
    exact parseStructFrom_dropTags fields [] envKeyConnector 0 []
  refine ⟨fun isNil r hr => ?_, fun hset => ?_,
    fun p hp => parseStruct_scalar [] fields envKeyConnector p hp,
    fun v str τ => setVal_unsupported host v str τ, hdrop, ?_,
    fun a ha => UnmarshalMapOn_untouched settable host range1 range2 hr1 hr2 envMap fields
      paths σ a ha⟩
  · cases isNil with
    | false =>
      have heq := UnmarshalMapOn_returns settable host range1 range2 hr1 hr2 envMap fields
        paths σ r hr
      obtain ⟨r2, hr2', _, hu⟩ :=
        UnmarshalMap_accepts host range1 range2 hr1 hr2 envMap fields paths σ
      have hr3 : (UnmarshalMap host range1 range2 envMap (ptrTo fields) paths σ).1 =
          .returns r := by
        rw [← heq]
        exact hr
      rw [hr2'] at hr3
      simp only [Outcome.returns.injEq] at hr3
      rw [← hr3]
      exact hu
    | true =>
      have heq : UnmarshalMapOn settable host range1 range2 envMap
          (.value (.Ptr (.Struct fields)) true) paths σ =
          (.returns (some (NewTargetNotPtrToStructError (.Ptr (.Struct fields)))), σ) := rfl
      rw [heq] at hr
      simp only [Outcome.returns.injEq] at hr
      rw [← hr]
      simp [IsUnsupportedFieldTypeError, NewTargetNotPtrToStructError, Cause]
  · rw [UnmarshalMapOn_settable settable host range1 range2 hr1 hr2 envMap fields paths σ hset]
    obtain ⟨r, hr, _, _⟩ :=
      UnmarshalMap_accepts host range1 range2 hr1 hr2 envMap fields paths σ
    exact ⟨r, hr⟩
  · simp only [ptrTo, UnmarshalMapOn, hdrop]

/-- C17, witness: a slice field annotated `required=true` next to an integer field with a
default, and nothing in the environment or in a file.  With both fields exported the call
returns nil, only the integer field is bound and set, and the slice field is left alone.
With the integer field unexported the call panics in the setter, returns nothing, and
the slice field is still left alone. -/
theorem unsupported_unreachable_witness :
    (∀ m, (listed m).Perm m) ∧
    parseStruct [] sliceAndInt envKeyConnector = [("N", ⟨⟨[1], .Int⟩, false, "7"⟩)] ∧
    Fields.leaf sliceAndInt 0 [0] = none ∧
    (UnmarshalMapOn (fun _ => true) Host.bare listed listed [] (ptrTo sliceAndInt) []
      zeroInts).1 = .returns none ∧
    (UnmarshalMapOn (fun _ => true) Host.bare listed listed [] (ptrTo sliceAndInt) []
      zeroInts).2 [1] = .int 7 ∧
    (UnmarshalMapOn (fun _ => true) Host.bare listed listed [] (ptrTo sliceAndInt) []
      zeroInts).2 [0] = zeroInts [0] ∧
    (UnmarshalMapOn (fun _ => false) Host.bare listed listed [] (ptrTo sliceAndInt) []
      zeroInts).1 = .panics (setterPanic "SetInt") ∧
    (UnmarshalMapOn (fun _ => false) Host.bare listed listed [] (ptrTo sliceAndInt) []
      zeroInts).2 [0] = zeroInts [0] :=
  ⟨fun m => List.Perm.refl m, by decide, by decide, by rfl, by decide,
   (unsupported_unreachable (fun _ => true) Host.bare listed listed
      (fun m => List.Perm.refl m) (fun m => List.Perm.refl m) [] sliceAndInt [] zeroInts
      ).2.2.2.2.2.2 [0] (by decide),
   by rfl,
   (unsupported_unreachable (fun _ => false) Host.bare listed listed
      (fun m => List.Perm.refl m) (fun m => List.Perm.refl m) [] sliceAndInt [] zeroInts
      ).2.2.2.2.2.2 [0] (by decide)⟩

/-! ## C18: boolean coercion -/

/-- C18: for every raw string `s`, `setVal` on a boolean field stores true and returns nil
when `s` is one of `1`, `t`, `T`, `TRUE`, `true`, `True`, stores false and returns nil when
`s` is one of `0`, `f`, `F`, `FALSE`, `false`, `False`, and for every other string returns
the parse error of `strconv.ParseBool` and leaves the field unchanged; so it succeeds iff
`s` is one of these twelve literals. -/
theorem bool_coercion (host : Host) (addr : List Nat) (s : String) (σ : Store) :
    setVal host ⟨addr, .Bool⟩ s σ =
      (if s ∈ ["1", "t", "T", "TRUE", "true", "True"] then
        (none, σ.set addr (.bool true))
      else if s ∈ ["0", "f", "F", "FALSE", "false", "False"] then
        (none, σ.set addr (.bool false))
      else
        (some (.Wrap (.NumError "ParseBool" s .ErrSyntax) "casting value as bool"), σ)) ∧
    ((setVal host ⟨addr, .Bool⟩ s σ).1 = none ↔
      s ∈ ["1", "t", "T", "TRUE", "true", "True", "0", "f", "F", "FALSE", "false",
        "False"]) := by
  have heq : setVal host ⟨addr, .Bool⟩ s σ =
      (if s ∈ ["1", "t", "T", "TRUE", "true", "True"] then
        (none, σ.set addr (.bool true))
      else if s ∈ ["0", "f", "F", "FALSE", "false", "False"] then
        (none, σ.set addr (.bool false))
      else
        (some (.Wrap (.NumError "ParseBool" s .ErrSyntax) "casting value as bool"), σ)) := by
    simp only [setVal, strconv.ParseBool, Value.SetBool, List.mem_cons, List.mem_singleton,
      List.not_mem_nil, or_false]
    by_cases ht : s = "1" ∨ s = "t" ∨ s = "T" ∨ s = "true" ∨ s = "TRUE" ∨ s = "True"
    · have ht2 : s = "1" ∨ s = "t" ∨ s = "T" ∨ s = "TRUE" ∨ s = "true" ∨ s = "True" := by
        tauto
      rw [if_pos ht, if_pos ht2]
    · have ht2 : ¬ (s = "1" ∨ s = "t" ∨ s = "T" ∨ s = "TRUE" ∨ s = "true" ∨ s = "True") := by
        tauto
      rw [if_neg ht, if_neg ht2]
      by_cases hf : s = "0" ∨ s = "f" ∨ s = "F" ∨ s = "false" ∨ s = "FALSE" ∨ s = "False"
      · have hf2 : s = "0" ∨ s = "f" ∨ s = "F" ∨ s = "FALSE" ∨ s = "false" ∨ s = "False" := by
          tauto
        rw [if_pos hf, if_pos hf2]
      · have hf2 : ¬ (s = "0" ∨ s = "f" ∨ s = "F" ∨ s = "FALSE" ∨ s = "false" ∨
            s = "False") := by
          tauto
        rw [if_neg hf, if_neg hf2]
  refine ⟨heq, ?_⟩
  rw [heq]
  simp only [List.mem_cons, List.mem_singleton, List.not_mem_nil, or_false]
  by_cases ht : s = "1" ∨ s = "t" ∨ s = "T" ∨ s = "TRUE" ∨ s = "true" ∨ s = "True"
  · rw [if_pos ht]
    simp only [true_iff]
    tauto
  · rw [if_neg ht]
    by_cases hf : s = "0" ∨ s = "f" ∨ s = "F" ∨ s = "FALSE" ∨ s = "false" ∨ s = "False"
    · rw [if_pos hf]
      simp only [true_iff]
      tauto
    · rw [if_neg hf]
      constructor
      · intro h
        cases h
      · intro h
        exfalso
        tauto

/-- C18, examples: `true` and `F` are accepted; the empty string, `yes` and `tRuE` are
parse errors that leave the field as it was. -/
theorem bool_coercion_witness :
    setVal Host.bare ⟨[0], .Bool⟩ "true" emptyStrings =
      (none, emptyStrings.set [0] (.bool true)) ∧
    setVal Host.bare ⟨[0], .Bool⟩ "F" emptyStrings =
      (none, emptyStrings.set [0] (.bool false)) ∧
    setVal Host.bare ⟨[0], .Bool⟩ "" emptyStrings =
      (some (.Wrap (.NumError "ParseBool" "" .ErrSyntax) "casting value as bool"),
        emptyStrings) ∧
    setVal Host.bare ⟨[0], .Bool⟩ "yes" emptyStrings =
      (some (.Wrap (.NumError "ParseBool" "yes" .ErrSyntax) "casting value as bool"),
        emptyStrings) ∧
    setVal Host.bare ⟨[0], .Bool⟩ "tRuE" emptyStrings =
      (some (.Wrap (.NumError "ParseBool" "tRuE" .ErrSyntax) "casting value as bool"),
        emptyStrings) :=
  ⟨(bool_coercion Host.bare [0] "true" emptyStrings).1,
   (bool_coercion Host.bare [0] "F" emptyStrings).1,
   (bool_coercion Host.bare [0] "" emptyStrings).1,
   (bool_coercion Host.bare [0] "yes" emptyStrings).1,
   (bool_coercion Host.bare [0] "tRuE" emptyStrings).1⟩

/-! ## C19: environment parsing -/

/-- C19: for every list of entry strings, `environToMap` returns the map in which the name
`N` has the value `val` iff the list has an entry `N=val` whose name `N` is non-empty and
is the text before the first `=` of the entry (`val`, everything after that `=`, may be
empty or contain further `=`) and no later entry of the list is an entry for `N`; so
entries without `=` or with an empty name contribute nothing, and a name is in the map iff
some entry has it before its first `=`. -/
theorem environ_parsing (environ : List String) (N : String) :
    (∀ val, GoMap.get? (environToMap environ) N = some val ↔
      ∃ pre post, environ = pre ++ (N ++ "=" ++ val) :: post ∧ N ≠ "" ∧ '=' ∉ N.toList ∧
        ∀ v ∈ post, ∀ val2, v ≠ N ++ "=" ++ val2) ∧
    (GoMap.get? (environToMap environ) N ≠ none ↔
      ∃ v ∈ environ, ∃ val, v = N ++ "=" ++ val ∧ N ≠ "" ∧ '=' ∉ N.toList) := by
  have hget : GoMap.get? (environToMap environ) N = lastEntryValue environ N := by
    rw [environToMap, environ_fold environ [] N]
    cases lastEntryValue environ N <;> simp [GoMap.get?]
  rw [hget]
  refine ⟨fun val => lastEntryValue_iff environ N val, ?_⟩
  rw [Option.ne_none_iff_isSome, lastEntryValue, List.findSome?_isSome_iff]
  constructor
  · rintro ⟨v, hv, hs⟩
    obtain ⟨val, hval⟩ := Option.isSome_iff_exists.1 hs
    exact ⟨v, List.mem_reverse.1 hv, val, (entryValue_iff v N val).1 hval⟩
  · rintro ⟨v, hv, val, hval⟩
    exact ⟨v, List.mem_reverse.2 hv,
      Option.isSome_iff_exists.2 ⟨val, (entryValue_iff v N val).2 hval⟩⟩

/-- C19, examples: the second entry for `A` wins, the value of `B` keeps its further `=`,
the value of `C` is empty, and the entries without `=` or with an empty name are
skipped. -/
theorem environ_parsing_witness :
    environToMap ["A=1", "B=x=y", "novalue", "=hidden", "C=", "A=2"] =
      [("A", "2"), ("B", "x=y"), ("C", "")] ∧
    GoMap.get? (environToMap ["A=1", "B=x=y", "novalue", "=hidden", "C=", "A=2"]) "A" =
      some "2" ∧
    GoMap.get? (environToMap ["A=1", "B=x=y", "novalue", "=hidden", "C=", "A=2"]) "" = none :=
  ⟨by decide,
   ((environ_parsing ["A=1", "B=x=y", "novalue", "=hidden", "C=", "A=2"] "A").1 "2").2
     ⟨["A=1", "B=x=y", "novalue", "=hidden", "C="], [], by decide, by decide, by decide,
      by simp⟩,
   by decide⟩

/-! ## C20: an empty environment value counts as present -/

/-- C20 (as stated) fails for a field with a second key: with `K` empty and `K2` holding
`x` in the environment map, and `K` visited first, the call succeeds and the string field
holds `x`, not the empty string. -/
theorem empty_value_counterexample :
    parseStruct [] twoKeys envKeyConnector =
      [("K", ⟨⟨[0], .String⟩, false, ""⟩), ("K2", ⟨⟨[0], .String⟩, false, ""⟩)] ∧
    GoMap.get? [("K", ""), ("K2", "x")] "K" = some "" ∧
    (prioUnmarshal Host.bare (listed (parseStruct [] twoKeys envKeyConnector))
      (listed (parseStruct [] twoKeys envKeyConnector))
      [("K", ""), ("K2", "x")] [] oldStrings).1 = none ∧
    (prioUnmarshal Host.bare (listed (parseStruct [] twoKeys envKeyConnector))
      (listed (parseStruct [] twoKeys envKeyConnector))
      [("K", ""), ("K2", "x")] [] oldStrings).2 [0] = .string "x" := by
  refine ⟨by decide, by decide, by rfl, by decide⟩

/-- What `prioUnmarshal` does, every bound field being settable, with a key that the
environment map binds to the empty string. -/
theorem prio_empty_env_value (host : Host) (fields : Fields)
    (order1 order2 : List (String × envEntry)) (envMap cfgMap : GoMap String String)
    (σ : Store) (K : String) (e : envEntry)
    (h1 : order1.Perm (parseStruct [] fields envKeyConnector))
    (h2 : order2.Perm (parseStruct [] fields envKeyConnector))
    (hK : (K, e) ∈ parseStruct [] fields envKeyConnector)
    (henv : envMap.get? K = some "") :
    (e.Value.kind = .String →
      (∀ p ∈ parseStruct [] fields envKeyConnector, p.2 = e →
        envMap.get? p.1 = none ∨ envMap.get? p.1 = some "") →
      (prioUnmarshal host order1 order2 envMap cfgMap σ).1 = none →
      (prioUnmarshal host order1 order2 envMap cfgMap σ).2 e.Value.addr = .string "") ∧
    (∀ err keys, (prioUnmarshal host order1 order2 envMap cfgMap σ).1 = some err →
      Cause err = .RequiredKeyNotPresentError keys →
      ∀ p ∈ parseStruct [] fields envKeyConnector, p.2 = e → p.1 ∉ keys) ∧
    (e.Value.kind ∈ Kind.Bool :: intKinds →
      ∃ err, (prioUnmarshal host order1 order2 envMap cfgMap σ).1 = some err ∧
        IsCoercionError err) ∧
    (e.Value.kind ∈ [Kind.Float32, Kind.Float64] → (∃ c, host.ParseFloat "" = .error c) →
      ∃ err, (prioUnmarshal host order1 order2 envMap cfgMap σ).1 = some err ∧
        IsCoercionError err) := by
  have hM := parseStruct_addrInj [] fields envKeyConnector
  refine ⟨fun hstr hsame hok => ?_, fun err keys herr hcause p hp hpe => ?_, fun hk => ?_,
    fun hk hpf => ?_⟩
  · obtain ⟨σ1, pm1, pm2, hp, hf⟩ :=
      prioUnmarshal_primary_done host order1 order2 envMap cfgMap σ (Or.inl hok)
    obtain ⟨K2, v2, hK2, hv2, hc⟩ := prio_env host _ order1 order2 envMap cfgMap σ σ1 _ pm1
      pm2 _ hM h1 h2 hp hf K e "" hK henv
    have hv : v2 = "" := by
      rcases hsame (K2, e) hK2 rfl with h | h
      · rw [hv2] at h
        cases h
      · rw [hv2] at h
        exact Option.some.inj h
    rw [hv, hstr, coerce_string] at hc
    exact (Option.some.inj hc).symm
  · have hp2 : (p.1, e) ∈ parseStruct [] fields envKeyConnector := by
      rw [← hpe]
      exact hp
    exact prio_satisfied host _ order1 order2 envMap cfgMap σ hM
      (parseStruct_nodup [] fields envKeyConnector) h1 h2 K e hK
      (Or.inl (by rw [henv]; simp)) err keys herr hcause p.1 hp2
  · exact prio_env_bad host fields order1 order2 envMap cfgMap σ K e "" h1 hK henv
      (coerce_empty host _ hk)
  · obtain ⟨c, hc⟩ := hpf
    exact prio_env_bad host fields order1 order2 envMap cfgMap σ K e "" h1 hK henv
      (coerce_float_none host _ "" c hk hc)

/-- C20 (amended): for every bound field with key `K`, every environment map that holds
the empty string for `K`, every file map and every order of iteration: a string field
holds the empty string after a successful `prioUnmarshal`, provided no other key of the
field is in the environment map with a non-empty value; `prioUnmarshal` never returns a
RequiredKeyNotPresent error that names a key of the field; and for a bool or integer
field, and for a float field when the host's float parser rejects the empty string,
`prioUnmarshal` never returns nil, what it returns is a parse error, and it does return
one when every bound field is settable (exported), whatever the file map and the default
hold. -/
theorem empty_env_value_is_used (settable : List Nat → Bool) (host : Host) (fields : Fields)
    (order1 order2 : List (String × envEntry)) (envMap cfgMap : GoMap String String)
    (σ : Store) (K : String) (e : envEntry)
    (h1 : order1.Perm (parseStruct [] fields envKeyConnector))
    (h2 : order2.Perm (parseStruct [] fields envKeyConnector))
    (hK : (K, e) ∈ parseStruct [] fields envKeyConnector)
    (henv : envMap.get? K = some "") :
    (e.Value.kind = .String →
      (∀ p ∈ parseStruct [] fields envKeyConnector, p.2 = e →
        envMap.get? p.1 = none ∨ envMap.get? p.1 = some "") →
      (prioUnmarshalOn settable host order1 order2 envMap cfgMap σ).1 = .returns none →
      (prioUnmarshalOn settable host order1 order2 envMap cfgMap σ).2 e.Value.addr =
        .string "") ∧
    (∀ err keys,
      (prioUnmarshalOn settable host order1 order2 envMap cfgMap σ).1 = .returns (some err) →
      Cause err = .RequiredKeyNotPresentError keys →
      ∀ p ∈ parseStruct [] fields envKeyConnector, p.2 = e → p.1 ∉ keys) ∧
    ((e.Value.kind ∈ Kind.Bool :: intKinds ∨
        (e.Value.kind ∈ [Kind.Float32, Kind.Float64] ∧ ∃ c, host.ParseFloat "" = .error c)) →
      (∀ r, (prioUnmarshalOn settable host order1 order2 envMap cfgMap σ).1 = .returns r →
        ∃ err, r = some err ∧ IsCoercionError err) ∧
      ((∀ p ∈ parseStruct [] fields envKeyConnector, settable p.2.Value.addr = true) →
        ∃ err, (prioUnmarshalOn settable host order1 order2 envMap cfgMap σ).1 =
          .returns (some err) ∧ IsCoercionError err)) := by
  obtain ⟨hstring, hrequired, hint, hfloat⟩ :=
    prio_empty_env_value host fields order1 order2 envMap cfgMap σ K e h1 h2 hK henv
  refine ⟨fun hstr hsame hok => ?_, fun err keys herr hcause => ?_, fun hkind => ?_⟩
  · have hpl := prioUnmarshalOn_returns settable host order1 order2 envMap cfgMap σ none hok
    have := hstring hstr hsame (by rw [hpl])
    rw [hpl] at this
    exact this
  · have hpl := prioUnmarshalOn_returns settable host order1 order2 envMap cfgMap σ
      (some err) herr
    exact hrequired err keys (by rw [hpl]) hcause
  · have hfail : ∃ err, (prioUnmarshal host order1 order2 envMap cfgMap σ).1 = some err ∧
        IsCoercionError err := by
      rcases hkind with hk | ⟨hk, hpf⟩
      · exact hint hk
      · exact hfloat hk hpf
    obtain ⟨err, herr, hco⟩ := hfail
    constructor
    · intro r hr
      have hpl := prioUnmarshalOn_returns settable host order1 order2 envMap cfgMap σ r hr
      rw [hpl] at herr
      exact ⟨err, herr, hco⟩
    · intro hset
      refine ⟨err, ?_, hco⟩
      rw [prioUnmarshalOn_settable settable host order1 order2 envMap cfgMap σ
        (fun p hp => hset p (h1.mem_iff.1 hp)) (fun p hp => hset p (h2.mem_iff.1 hp)), herr]

/-- C20, witness: a required string field that holds `old`, with the empty string for its
key `A` in the environment map and values for both of its keys in the file map: the call
succeeds and the field holds the empty string.  An exported integer field with a default
and the empty string in the environment map makes the call fail with the parse error. -/
theorem empty_env_value_is_used_witness :
    (prioUnmarshalOn (fun _ => true) Host.bare
      (listed (parseStruct [] requiredTwoKeys envKeyConnector))
      (listed (parseStruct [] requiredTwoKeys envKeyConnector))
      [("A", "")] [("A", "file"), ("B", "file2")] oldStrings).1 = .returns none ∧
    oldStrings [0] = .string "old" ∧
    (prioUnmarshalOn (fun _ => true) Host.bare
      (listed (parseStruct [] requiredTwoKeys envKeyConnector))
      (listed (parseStruct [] requiredTwoKeys envKeyConnector))
      [("A", "")] [("A", "file"), ("B", "file2")] oldStrings).2 [0] = .string "" ∧
    (prioUnmarshalOn (fun _ => true) Host.bare (listed (parseStruct [] oneInt envKeyConnector))
      (listed (parseStruct [] oneInt envKeyConnector))
      [("N", "")] [("N", "5")] zeroInts).1 =
      .returns (some (.Wrap (.Wrap (.NumError "ParseInt" "" .ErrSyntax) "casting value as int")
        "setting value of env var N")) ∧
    (∃ err, (prioUnmarshalOn (fun _ => true) Host.bare
      (listed (parseStruct [] oneInt envKeyConnector))
      (listed (parseStruct [] oneInt envKeyConnector))
      [("N", "")] [("N", "5")] zeroInts).1 = .returns (some err) ∧ IsCoercionError err) :=
  ⟨by rfl, by decide,
   (empty_env_value_is_used (fun _ => true) Host.bare requiredTwoKeys
      (listed (parseStruct [] requiredTwoKeys envKeyConnector))
      (listed (parseStruct [] requiredTwoKeys envKeyConnector))
      [("A", "")] [("A", "file"), ("B", "file2")] oldStrings "A"
      ⟨⟨[0], .String⟩, true, ""⟩ (List.Perm.refl _) (List.Perm.refl _) (by decide)
      (by decide)).1 rfl (by decide) (by rfl),
   by rfl,
   ((empty_env_value_is_used (fun _ => true) Host.bare oneInt
      (listed (parseStruct [] oneInt envKeyConnector))
      (listed (parseStruct [] oneInt envKeyConnector))
      [("N", "")] [("N", "5")] zeroInts "N" ⟨⟨[0], .Int⟩, false, "7"⟩
      (List.Perm.refl _) (List.Perm.refl _) (by decide) (by decide)).2.2
      (Or.inl (by decide))).2 (fun _ _ => rfl)⟩

end GoEnv
